import Mathlib

/-!
# Leader election client (khh403/leaderelection): embedding and verified properties

A shallow embedding of `leaderelection.go`, `metrics.go` and
`resourcelock/interface.go`.

Conventions of the embedding.

* A `time.Time` is an `Int`: the number of nanoseconds on the timeline of the
  elector's clock, `0` being the zero `time.Time`.  A `time.Duration` is an
  `Int` number of nanoseconds.  Go `int` is taken to be `int64`.  The `int64`
  product `time.Second * time.Duration(LeaseDurationSeconds)`, whose factor is
  read from the store, wraps around as in Go (`secondsDuration`), and so do the
  sum `LeaseDuration+maxTolerableExpiredLease` and the counter
  `LeaderTransitions + 1`.  Points of time are not bounded; the difference of two
  of them, `clock.Since`, saturates at the largest and the least `time.Duration`
  as `Time.Sub` does (`timeSub`).
* The one floating point expression of the source,
  `time.Duration(JitterFactor*float64(RetryPeriod))`, is computed exactly as
  IEEE 754 binary64 computes it (`jitterDuration`).
* Everything outside the elector (the resource lock, the clock, the metrics
  sink) acts on a hidden state `σ`.  The elector's operations thread an
  `Env σ`: that hidden state together with the list of calls the elector has
  made so far, in order.
* Logging (`klog`, `fmt.Printf`), `Lock.Describe()`, which is read for logging only,
  and the `context.Context` arguments are left out; a cancelled context shows as a
  failing lock operation.  Panics, and with them `runtime.HandleCrash`, are left out.
* The loops of `acquire` and `renew` are those of the package
  `k8s.io/apimachinery/pkg/util/wait`, which is not among the sources.  They ask a
  `Runtime` whether the stop channel is closed; a `go` statement hands the callback
  to the `Runtime` and is recorded in the list of calls, in program order.
* The mutex around the observed record is left out: every operation here runs
  on the election task.
-/

namespace LeaderElection

/-! ## Time, durations and the record (`resourcelock/interface.go`) -/

/-- The constant `time.Second`, in nanoseconds. -/
def Second : Int := 1000000000

/-- The value an `int64` takes when the mathematical result of an operation is `x`: Go
wraps around. -/
def wrapInt64 (x : Int) : Int :=
  (x + 2 ^ 63) % 2 ^ 64 - 2 ^ 63

/-- The expression `time.Second * time.Duration(seconds)`, an `int64` product. -/
def secondsDuration (seconds : Int) : Int :=
  wrapInt64 (Second * seconds)

/-- The raw encoded record, a Go `[]byte` (nil and empty coincide under `bytes.Equal`). -/
abbrev Bytes := List UInt8

/-- The record stored under the lock key (`rl.LeaderElectionRecord`). -/
structure LeaderElectionRecord where
  HolderIdentity : String
  LeaseDurationSeconds : Int
  AcquireTime : Int
  RenewTime : Int
  LeaderTransitions : Int
  deriving DecidableEq

/-- The zero value of `rl.LeaderElectionRecord`. -/
def zeroRecord : LeaderElectionRecord :=
  { HolderIdentity := "", LeaseDurationSeconds := 0, AcquireTime := 0, RenewTime := 0,
    LeaderTransitions := 0 }

/-- The errors of the lock as the elector tells them apart: `errors.IsNotFound` or not. -/
inductive LockError where
  | notFound
  | other
  deriving DecidableEq

/-- One call made by the elector to a collaborator, or one callback it invokes
(`onStoppedLeading`) or starts on a task of its own (`onStartedLeading`, `onNewLeader`). -/
inductive Call where
  | now
  | get
  | create (ler : LeaderElectionRecord)
  | update (ler : LeaderElectionRecord)
  | recordEvent (msg : String)
  | leaderOn (name : String)
  | leaderOff (name : String)
  | slowpathExercised (name : String)
  | onStartedLeading
  | onStoppedLeading
  | onNewLeader (identity : String)
  deriving DecidableEq

/-- The hidden state of the collaborators and the calls made so far. -/
structure Env (σ : Type) where
  st : σ
  calls : List Call

/-- The lock interface `rl.Interface`; `none` is a nil error. -/
structure Interface (σ : Type) where
  Get : σ → Except LockError (LeaderElectionRecord × Bytes) × σ
  Create : LeaderElectionRecord → σ → Option LockError × σ
  Update : LeaderElectionRecord → σ → Option LockError × σ
  RecordEvent : String → σ → σ
  Identity : String
  Describe : String

/-- The interface `clock.Clock`. -/
structure Clock (σ : Type) where
  Now : σ → Int × σ

/-! ## The metrics sink (`metrics.go`) -/

/-- The interface `LeaderMetric`. -/
structure LeaderMetric (σ : Type) where
  On : String → σ → σ
  Off : String → σ → σ
  SlowpathExercised : String → σ → σ

/-- The metric `noopMetric`. -/
def noopMetric {σ : Type} : LeaderMetric σ :=
  { On := fun _ s => s, Off := fun _ s => s, SlowpathExercised := fun _ s => s }

/-- The implementations of `leaderMetricsAdapter`: `noMetrics`, and a pointer to a
`defaultLeaderMetrics` (`none` is the nil pointer, which the methods accept). -/
inductive leaderMetricsAdapter (σ : Type) where
  | noMetrics
  | defaultLeaderMetrics (m : Option (LeaderMetric σ))

/-- The method `leaderOn` of both adapters. -/
def leaderMetricsAdapter.leaderOn {σ : Type} (a : leaderMetricsAdapter σ) (name : String)
    (env : Env σ) : Env σ :=
  let st := match a with
    | .noMetrics => env.st
    | .defaultLeaderMetrics none => env.st
    | .defaultLeaderMetrics (some m) => m.On name env.st
  { st := st, calls := env.calls ++ [Call.leaderOn name] }

/-- The method `leaderOff` of both adapters. -/
def leaderMetricsAdapter.leaderOff {σ : Type} (a : leaderMetricsAdapter σ) (name : String)
    (env : Env σ) : Env σ :=
  let st := match a with
    | .noMetrics => env.st
    | .defaultLeaderMetrics none => env.st
    | .defaultLeaderMetrics (some m) => m.Off name env.st
  { st := st, calls := env.calls ++ [Call.leaderOff name] }

/-- The method `slowpathExercised` of both adapters. -/
def leaderMetricsAdapter.slowpathExercised {σ : Type} (a : leaderMetricsAdapter σ)
    (name : String) (env : Env σ) : Env σ :=
  let st := match a with
    | .noMetrics => env.st
    | .defaultLeaderMetrics none => env.st
    | .defaultLeaderMetrics (some m) => m.SlowpathExercised name env.st
  { st := st, calls := env.calls ++ [Call.slowpathExercised name] }

/-- The implementations of `MetricsProvider`: `noopMetricsProvider{}`, or a provider given
by the metric its `NewLeaderMetric` returns. -/
inductive MetricsProvider (σ : Type) where
  | noopMetricsProvider
  | provider (NewLeaderMetric : LeaderMetric σ)

/-- The struct `leaderMetricsFactory`; `onlyOnce` holds whether the `sync.Once` has fired. -/
structure leaderMetricsFactory (σ : Type) where
  metricsProvider : MetricsProvider σ
  onlyOnce : Bool

/-- The initial value of the variable `globalMetricsFactory`. -/
def globalMetricsFactory {σ : Type} : leaderMetricsFactory σ :=
  { metricsProvider := .noopMetricsProvider, onlyOnce := false }

/-- The method `leaderMetricsFactory.setProvider`. -/
def leaderMetricsFactory.setProvider {σ : Type} (f : leaderMetricsFactory σ)
    (mp : MetricsProvider σ) : leaderMetricsFactory σ :=
  if f.onlyOnce then f else { metricsProvider := mp, onlyOnce := true }

/-- The method `leaderMetricsFactory.newLeaderMetrics`. -/
def leaderMetricsFactory.newLeaderMetrics {σ : Type} (f : leaderMetricsFactory σ) :
    leaderMetricsAdapter σ :=
  match f.metricsProvider with
  | .noopMetricsProvider => .noMetrics
  | .provider m => .defaultLeaderMetrics (some m)

/-- The function `SetProvider`: it acts on the variable `globalMetricsFactory`, whose value
before the call is `g`. -/
def SetProvider {σ : Type} (metricsProvider : MetricsProvider σ) (g : leaderMetricsFactory σ) :
    leaderMetricsFactory σ :=
  g.setProvider metricsProvider

/-! ## `time.Duration(JitterFactor*float64(d))` -/

/-- The constant `JitterFactor`, an untyped Go constant. -/
def JitterFactor : ℚ := 1.2

/-- The significand of `JitterFactor` as a `float64` operand: the `float64` nearest to 1.2
is `5404319552844595 / 2 ^ 52`. -/
def jitterFactorFloat64 : Nat := 5404319552844595

/-- How many low bits of `n` do not fit in the 53 bit significand of a `float64`
(`fuel` bounds the search; `n` itself is always enough). -/
def excessBits : Nat → Nat → Nat
  | 0, _ => 0
  | fuel + 1, n => if n < 2 ^ 53 then 0 else excessBits fuel (n / 2) + 1

/-- The quotient `n / 2 ^ s` rounded to the nearest integer, ties to even. -/
def roundHalfEven (n s : Nat) : Nat :=
  let q := n / 2 ^ s
  let r := n % 2 ^ s
  if 2 ^ s < 2 * r ∨ (2 * r = 2 ^ s ∧ q % 2 = 1) then q + 1 else q

/-- The natural number `n` rounded to 53 significant bits, to nearest and ties to even:
the rounding of IEEE 754 binary64 (the exponent range plays no role below `2 ^ 1024`). -/
def roundToFloat64 (n : Nat) : Nat :=
  let s := excessBits n n
  roundHalfEven n s * 2 ^ s

/-- The expression `time.Duration(JitterFactor*float64(d))`: `d` is converted to
`float64`, multiplied by `float64(1.2)` with one rounding, and the product is truncated
toward zero.  (A product of `2 ^ 63` or more, where Go leaves the conversion to the
implementation, is truncated all the same; nothing below relies on it.) -/
def jitterDuration (d : Int) : Int :=
  let m := roundToFloat64 d.natAbs
  let p := roundToFloat64 (jitterFactorFloat64 * m)
  Int.sign d * ((p / 2 ^ 52 : Nat) : Int)

/-! ## Configuration and the elector (`leaderelection.go`) -/

/-- The struct `LeaderCallbacks`; `none` is a nil function. -/
structure LeaderCallbacks (σ : Type) where
  OnStartedLeading : Option (σ → σ)
  OnStoppedLeading : Option (σ → σ)
  OnNewLeader : Option (String → σ → σ)

/-- The struct `LeaderElectionConfig`; `Lock` and `WatchDog` may be nil (`none`).  The
watchdog pointer is kept as an address: the adaptor it points to is not read by the
elector. -/
structure LeaderElectionConfig (σ : Type) where
  Lock : Option (Interface σ)
  LeaseDuration : Int
  RenewDeadline : Int
  RetryPeriod : Int
  Callbacks : LeaderCallbacks σ
  WatchDog : Option Nat
  ReleaseOnCancel : Bool
  Name : String

/-- The struct `LeaderElector`.  Its methods call `le.config.Lock` without a nil check, so
an elector carries the fact that its lock is not nil. -/
structure LeaderElector (σ : Type) where
  config : LeaderElectionConfig σ
  observedRecord : LeaderElectionRecord
  observedRawRecord : Bytes
  observedTime : Int
  reportedLeader : String
  clock : Clock σ
  metrics : leaderMetricsAdapter σ
  hLock : config.Lock.isSome = true

/-- The lock `le.config.Lock` of an elector. -/
def LeaderElector.lock {σ : Type} (le : LeaderElector σ) : Interface σ :=
  le.config.Lock.get le.hLock

/-- The call `le.clock.Now()`. -/
def callNow {σ : Type} (c : Clock σ) (env : Env σ) : Int × Env σ :=
  let r := c.Now env.st
  (r.1, { st := r.2, calls := env.calls ++ [Call.now] })

/-- The call `Lock.Get(ctx)`. -/
def callGet {σ : Type} (l : Interface σ) (env : Env σ) :
    Except LockError (LeaderElectionRecord × Bytes) × Env σ :=
  let r := l.Get env.st
  (r.1, { st := r.2, calls := env.calls ++ [Call.get] })

/-- The call `Lock.Create(ctx, ler)`. -/
def callCreate {σ : Type} (l : Interface σ) (ler : LeaderElectionRecord) (env : Env σ) :
    Option LockError × Env σ :=
  let r := l.Create ler env.st
  (r.1, { st := r.2, calls := env.calls ++ [Call.create ler] })

/-- The call `Lock.Update(ctx, ler)`. -/
def callUpdate {σ : Type} (l : Interface σ) (ler : LeaderElectionRecord) (env : Env σ) :
    Option LockError × Env σ :=
  let r := l.Update ler env.st
  (r.1, { st := r.2, calls := env.calls ++ [Call.update ler] })

/-- The call `Lock.RecordEvent(msg)`. -/
def callRecordEvent {σ : Type} (l : Interface σ) (msg : String) (env : Env σ) : Env σ :=
  { st := l.RecordEvent msg env.st, calls := env.calls ++ [Call.recordEvent msg] }

/-- The function `NewLeaderElector`, with the real clock and the process-wide metrics
factory it reads as parameters.  The error is the message of the Go error. -/
def NewLeaderElector {σ : Type} (realClock : Clock σ) (factory : leaderMetricsFactory σ)
    (lec : LeaderElectionConfig σ) (env : Env σ) : Except String (LeaderElector σ) × Env σ :=
  if lec.LeaseDuration ≤ lec.RenewDeadline then
    (.error "leaseDuration must be greater than renewDeadline", env)
  else if lec.RenewDeadline ≤ jitterDuration lec.RetryPeriod then
    (.error "renewDeadline must be greater than retryPeriod*JitterFactor", env)
  else if lec.LeaseDuration < 1 then
    (.error "leaseDuration must be greater than zero", env)
  else if lec.RenewDeadline < 1 then
    (.error "renewDeadline must be greater than zero", env)
  else if lec.RetryPeriod < 1 then
    (.error "retryPeriod must be greater than zero", env)
  else if lec.Callbacks.OnStartedLeading.isNone then
    (.error "OnStartedLeading callback must not be nil", env)
  else if lec.Callbacks.OnStoppedLeading.isNone then
    (.error "OnStoppedLeading callback must not be nil", env)
  else
    match h : lec.Lock with
    | none => (.error "Lock must not be nil.", env)
    | some lock =>
      if lock.Identity = "" then
        (.error "Lock identity is empty", env)
      else
        let le : LeaderElector σ :=
          { config := lec
            observedRecord := zeroRecord
            observedRawRecord := []
            observedTime := 0
            reportedLeader := ""
            clock := realClock
            metrics := factory.newLeaderMetrics
            hLock := by rw [h]; rfl }
        (.ok le, le.metrics.leaderOff le.config.Name env)

/-- The method `getObservedRecord`. -/
def LeaderElector.getObservedRecord {σ : Type} (le : LeaderElector σ) : LeaderElectionRecord :=
  le.observedRecord

/-- The method `setObservedRecord`: it stores the record and reads the clock for
`observedTime`. -/
def LeaderElector.setObservedRecord {σ : Type} (le : LeaderElector σ)
    (observedRecord : LeaderElectionRecord) (env : Env σ) : LeaderElector σ × Env σ :=
  let r := callNow le.clock env
  ({ le with observedRecord := observedRecord, observedTime := r.1 }, r.2)

/-- The method `GetLeader`. -/
def LeaderElector.GetLeader {σ : Type} (le : LeaderElector σ) : String :=
  le.getObservedRecord.HolderIdentity

/-- The method `IsLeader`. -/
def LeaderElector.IsLeader {σ : Type} (le : LeaderElector σ) : Bool :=
  le.getObservedRecord.HolderIdentity == le.lock.Identity

/-- The method `isLeaseValid`:
`observedTime.Add(time.Second * time.Duration(LeaseDurationSeconds)).After(now)`. -/
def LeaderElector.isLeaseValid {σ : Type} (le : LeaderElector σ) (now : Int) : Bool :=
  decide (now < le.observedTime + secondsDuration le.getObservedRecord.LeaseDurationSeconds)

/-- Step 3 of `tryAcquireOrRenew`: when the raw bytes read differ from
`observedRawRecord`, the record read is installed as observed and the raw bytes are kept. -/
def LeaderElector.observe {σ : Type} (le : LeaderElector σ) (old : LeaderElectionRecord)
    (raw : Bytes) (env : Env σ) : LeaderElector σ × Env σ :=
  if le.observedRawRecord ≠ raw then
    let q := le.setObservedRecord old env
    ({ q.1 with observedRawRecord := raw }, q.2)
  else (le, env)

/-- Steps 3 and 4 of `tryAcquireOrRenew`, from the successful `Get` on: `ler` is the
candidate record as step 1 left it, `old` and `raw` are what `Get` returned. -/
def LeaderElector.acquireOrRenewFrom {σ : Type} (le : LeaderElector σ) (now : Int)
    (ler old : LeaderElectionRecord) (raw : Bytes) (env : Env σ) :
    Bool × LeaderElector σ × Env σ :=
  -- 3. Record obtained, check the Identity & Time
  let p := le.observe old raw env
  let le := p.1
  let env := p.2
  if 0 < old.HolderIdentity.length ∧ le.isLeaseValid now = true ∧ le.IsLeader = false then
    (false, le, env)
  else
    -- 4. We are going to try to update
    let q : LeaderElectionRecord × Env σ :=
      if le.IsLeader = true then
        ({ ler with AcquireTime := old.AcquireTime, LeaderTransitions := old.LeaderTransitions },
          le.metrics.slowpathExercised le.config.Name env)
      else
        ({ ler with LeaderTransitions := wrapInt64 (old.LeaderTransitions + 1) }, env)
    let ler := q.1
    let u := callUpdate le.lock ler q.2
    match u.1 with
    | some _ => (false, le, u.2)
    | none =>
      let s := le.setObservedRecord ler u.2
      (true, s.1, s.2)

/-- Step 2 of `tryAcquireOrRenew` and what follows it: obtain or create the record. -/
def LeaderElector.obtainOrCreate {σ : Type} (le : LeaderElector σ) (now : Int)
    (ler : LeaderElectionRecord) (env : Env σ) : Bool × LeaderElector σ × Env σ :=
  let g := callGet le.lock env
  match g.1 with
  | .error e =>
    if e ≠ LockError.notFound then (false, le, g.2)
    else
      let c := callCreate le.lock ler g.2
      match c.1 with
      | some _ => (false, le, c.2)
      | none =>
        let s := le.setObservedRecord ler c.2
        (true, s.1, s.2)
  | .ok (old, raw) => le.acquireOrRenewFrom now ler old raw g.2

/-- What step 1 of `tryAcquireOrRenew` leaves: either the optimistic update succeeded and
the method returns true with this elector and environment, or the method goes on to step 2
with the time read at its start, the candidate record and the environment. -/
inductive FastPath (σ : Type) where
  | renewed (le : LeaderElector σ) (env : Env σ)
  | slowPath (now : Int) (ler : LeaderElectionRecord) (env : Env σ)

/-- The start of `tryAcquireOrRenew` and its step 1: the clock is read, the candidate
record is built, and a leader with a locally valid lease tries the optimistic update. -/
def LeaderElector.fastPath {σ : Type} (le : LeaderElector σ) (env : Env σ) : FastPath σ :=
  let n := callNow le.clock env
  let now := n.1
  let leaderElectionRecord : LeaderElectionRecord :=
    { HolderIdentity := le.lock.Identity
      LeaseDurationSeconds := Int.tdiv le.config.LeaseDuration Second
      RenewTime := now
      AcquireTime := now
      LeaderTransitions := 0 }
  -- 1. fast path for the leader to update optimistically
  if le.IsLeader = true ∧ le.isLeaseValid now = true then
    let oldObservedRecord := le.getObservedRecord
    let leaderElectionRecord :=
      { leaderElectionRecord with
        AcquireTime := oldObservedRecord.AcquireTime
        LeaderTransitions := oldObservedRecord.LeaderTransitions }
    let u := callUpdate le.lock leaderElectionRecord n.2
    match u.1 with
    | none =>
      let s := le.setObservedRecord leaderElectionRecord u.2
      .renewed s.1 s.2
    | some _ => .slowPath now leaderElectionRecord u.2
  else
    .slowPath now leaderElectionRecord n.2

/-- The method `tryAcquireOrRenew`: the result, the elector afterwards and the
environment afterwards. -/
def LeaderElector.tryAcquireOrRenew {σ : Type} (le : LeaderElector σ) (env : Env σ) :
    Bool × LeaderElector σ × Env σ :=
  match le.fastPath env with
  | .renewed le env => (true, le, env)
  | .slowPath now leaderElectionRecord env => le.obtainOrCreate now leaderElectionRecord env

/-- The method `release`. -/
def LeaderElector.release {σ : Type} (le : LeaderElector σ) (env : Env σ) :
    Bool × LeaderElector σ × Env σ :=
  if le.IsLeader = false then (true, le, env)
  else
    let n := callNow le.clock env
    let now := n.1
    let leaderElectionRecord : LeaderElectionRecord :=
      { HolderIdentity := ""
        LeaseDurationSeconds := 1
        RenewTime := now
        AcquireTime := now
        LeaderTransitions := le.observedRecord.LeaderTransitions }
    let u := callUpdate le.lock leaderElectionRecord n.2
    match u.1 with
    | some _ => (false, le, u.2)
    | none =>
      let s := le.setObservedRecord leaderElectionRecord u.2
      (true, s.1, s.2)

/-! ## The health check (`Check`, `healthzadaptor.go`) -/

/-- The method `Time.Sub` of the Go library: the duration `t - u`, and the largest (the
least) `time.Duration` when the difference is above (below) it. -/
def timeSub (t u : Int) : Int :=
  if 2 ^ 63 - 1 < t - u then 2 ^ 63 - 1
  else if t - u < -(2 ^ 63) then -(2 ^ 63)
  else t - u

/-- The call `le.clock.Since(ts)`: it reads the clock and is `Now().Sub(ts)`. -/
def callSince {σ : Type} (c : Clock σ) (ts : Int) (env : Env σ) : Int × Env σ :=
  let n := callNow c env
  (timeSub n.1 ts, n.2)

/-- The method `Check`; `none` is a nil error.
`le.config.LeaseDuration+maxTolerableExpiredLease` is an `int64` sum. -/
def LeaderElector.Check {σ : Type} (le : LeaderElector σ) (maxTolerableExpiredLease : Int)
    (env : Env σ) : Option String × Env σ :=
  if le.IsLeader = false then (none, env)
  else
    let s := callSince le.clock le.observedTime env
    if wrapInt64 (le.config.LeaseDuration + maxTolerableExpiredLease) < s.1 then
      (some ("failed election to renew leadership on lease " ++ le.config.Name), s.2)
    else (none, s.2)

/-- The struct `HealthzAdaptor`: the pointer `le` is an address (`none` is nil), and the
mutex is left out. -/
structure HealthzAdaptor where
  le : Option Nat
  timeout : Int

/-- The method `HealthzAdaptor.Name`. -/
def HealthzAdaptor.Name (_l : HealthzAdaptor) : String :=
  "leaderElection"

/-- The method `HealthzAdaptor.Check`: `electors` gives the elector that lives at an address,
in its state at the time of the request `req`. -/
def HealthzAdaptor.Check {σ ρ : Type} (l : HealthzAdaptor) (electors : Nat → LeaderElector σ)
    (_req : ρ) (env : Env σ) : Option String × Env σ :=
  match l.le with
  | none => (none, env)
  | some p => (electors p).Check l.timeout env

/-- The method `HealthzAdaptor.SetLeaderElection`. -/
def HealthzAdaptor.SetLeaderElection (l : HealthzAdaptor) (le : Nat) : HealthzAdaptor :=
  { l with le := some le }

/-- The function `NewLeaderHealthzAdaptor`. -/
def NewLeaderHealthzAdaptor (timeout : Int) : HealthzAdaptor :=
  { le := none, timeout := timeout }

/-! ## Tasks, contexts and the wait loops -/

/-- The channel a wait loop selects on: `ctx.Done()` of the context a phase runs under, or
`timeoutCtx.Done()` of the context with the renew deadline. -/
inductive StopCh where
  | ctx
  | timeoutCtx
  deriving DecidableEq

/-- What the election task asks of the Go runtime and of its caller.  `Go f` is the
statement `go f()`: the callback is started on a task of its own, and the runtime decides
what that does to the collaborators.  `Done ch` is a receive from `ch` that does not block
(`select` with a `default`): whether the channel is closed.  `Wait ch period jitter` is the
`select` between `ch` and the timer of the (jittered) period: whether `ch` came first. -/
structure Runtime (σ : Type) where
  Go : (σ → σ) → σ → σ
  Done : StopCh → σ → Bool × σ
  Wait : StopCh → Int → ℚ → σ → Bool × σ

/-- The statement `go f()` for a callback, recorded as the call `c`. -/
def callGo {σ : Type} (rt : Runtime σ) (c : Call) (f : σ → σ) (env : Env σ) : Env σ :=
  { st := rt.Go f env.st, calls := env.calls ++ [c] }

/-- A receive from the stop channel that does not block. -/
def callDone {σ : Type} (rt : Runtime σ) (ch : StopCh) (env : Env σ) : Bool × Env σ :=
  let r := rt.Done ch env.st
  (r.1, { env with st := r.2 })

/-- The `select` between the stop channel and the timer. -/
def callWait {σ : Type} (rt : Runtime σ) (ch : StopCh) (period : Int) (jitterFactor : ℚ)
    (env : Env σ) : Bool × Env σ :=
  let r := rt.Wait ch period jitterFactor env.st
  (r.1, { env with st := r.2 })

/-- Modelled from the spec: `wait.JitterUntil(f, period, jitterFactor, true, stopCh)` of the
package `k8s.io/apimachinery/pkg/util/wait`, which is not among the sources.  It repeats `f`
on a schedule of `period` until the stop channel is closed: the channel is checked before
every run of `f`, and after it the loop waits for the timer or the channel.  `s` holds the
variables `f` works on, and `closed s` tells that `f` has closed the channel itself (by
`cancel()`).  A run that returns makes finitely many rounds: `rounds` bounds them, and the
channel is closed by the caller when they are used up. -/
def JitterUntil {σ S : Type} (rt : Runtime σ) (f : S → Env σ → S × Env σ) (closed : S → Bool)
    (period : Int) (jitterFactor : ℚ) (stopCh : StopCh) : Nat → S → Env σ → S × Env σ
  | 0, s, env => (s, env)
  | rounds + 1, s, env =>
    let d := callDone rt stopCh env
    if d.1 = true then (s, d.2)
    else
      let r := f s d.2
      if closed r.1 = true then r
      else
        let w := callWait rt stopCh period jitterFactor r.2
        if w.1 = true then (r.1, w.2)
        else JitterUntil rt f closed period jitterFactor stopCh rounds r.1 w.2

/-- Modelled from the spec: `wait.Until(f, period, stopCh)` of the same package, which is
`JitterUntil` without jitter. -/
def Until {σ S : Type} (rt : Runtime σ) (f : S → Env σ → S × Env σ) (closed : S → Bool)
    (period : Int) (stopCh : StopCh) (rounds : Nat) (s : S) (env : Env σ) : S × Env σ :=
  JitterUntil rt f closed period 0 stopCh rounds s env

/-- Modelled from the spec: `wait.PollUntil(interval, condition, stopCh)` of the same
package: `condition` is tried on every tick of `interval` until it holds (the result is
true, a nil error) or the stop channel is closed (false, `ErrWaitTimeout`).  The deadline
behind the channel bounds the ticks: `rounds` bounds them, and the channel is closed when
they are used up. -/
def PollUntil {σ S : Type} (rt : Runtime σ) (interval : Int)
    (condition : S → Env σ → Bool × S × Env σ) (stopCh : StopCh) :
    Nat → S → Env σ → Bool × S × Env σ
  | 0, s, env => (false, s, env)
  | rounds + 1, s, env =>
    let w := callWait rt stopCh interval 0 env
    if w.1 = true then (false, s, w.2)
    else
      let r := condition s w.2
      if r.1 = true then (true, r.2.1, r.2.2)
      else PollUntil rt interval condition stopCh rounds r.2.1 r.2.2

/-- Modelled from the spec: `wait.PollImmediateUntil(interval, condition, stopCh)` of the
same package: `condition` is tried at once, and then as `PollUntil` tries it unless the stop
channel is closed already. -/
def PollImmediateUntil {σ S : Type} (rt : Runtime σ) (interval : Int)
    (condition : S → Env σ → Bool × S × Env σ) (stopCh : StopCh) (rounds : Nat) (s : S)
    (env : Env σ) : Bool × S × Env σ :=
  let r := condition s env
  if r.1 = true then (true, r.2.1, r.2.2)
  else
    let d := callDone rt stopCh r.2.2
    if d.1 = true then (false, r.2.1, d.2)
    else PollUntil rt interval condition stopCh rounds r.2.1 d.2

/-! ## The phases of `Run` (`leaderelection.go`) -/

/-- The method `maybeReportTransition`. -/
def LeaderElector.maybeReportTransition {σ : Type} (rt : Runtime σ) (le : LeaderElector σ)
    (env : Env σ) : LeaderElector σ × Env σ :=
  if le.observedRecord.HolderIdentity = le.reportedLeader then (le, env)
  else
    let le := { le with reportedLeader := le.observedRecord.HolderIdentity }
    match le.config.Callbacks.OnNewLeader with
    | none => (le, env)
    | some f => (le, callGo rt (Call.onNewLeader le.reportedLeader) (f le.reportedLeader) env)

/-- The variables of the loop of `acquire`: the elector, `succeeded`, and whether `cancel()`
was called. -/
structure AcquireState (σ : Type) where
  le : LeaderElector σ
  succeeded : Bool
  cancelled : Bool

/-- The function that `acquire` repeats: one tick of the acquire phase. -/
def acquireTick {σ : Type} (rt : Runtime σ) (s : AcquireState σ) (env : Env σ) :
    AcquireState σ × Env σ :=
  let r := s.le.tryAcquireOrRenew env
  let m := r.2.1.maybeReportTransition rt r.2.2
  if r.1 = false then
    ({ s with le := m.1, succeeded := false }, m.2)
  else
    let env := callRecordEvent m.1.lock "became leader" m.2
    let env := m.1.metrics.leaderOn m.1.config.Name env
    ({ le := m.1, succeeded := true, cancelled := true }, env)

/-- The method `acquire`: the result, the elector afterwards and the environment
afterwards.  Every loop of the run makes at most `rounds` rounds. -/
def LeaderElector.acquire {σ : Type} (rt : Runtime σ) (rounds : Nat) (le : LeaderElector σ)
    (env : Env σ) : Bool × LeaderElector σ × Env σ :=
  let r := JitterUntil rt (acquireTick rt) AcquireState.cancelled le.config.RetryPeriod
    JitterFactor .ctx rounds { le := le, succeeded := false, cancelled := false } env
  (r.1.succeeded, r.1.le, r.2)

/-- The variables of the loop of `renew`: the elector, and whether `cancel()` was called. -/
structure RenewState (σ : Type) where
  le : LeaderElector σ
  cancelled : Bool

/-- The function that `renew` repeats: one renewal, polled until the renew deadline. -/
def renewTick {σ : Type} (rt : Runtime σ) (rounds : Nat) (s : RenewState σ) (env : Env σ) :
    RenewState σ × Env σ :=
  let p := PollImmediateUntil rt s.le.config.RetryPeriod
    (fun (le : LeaderElector σ) env => le.tryAcquireOrRenew env) .timeoutCtx rounds s.le env
  let m := p.2.1.maybeReportTransition rt p.2.2
  if p.1 = true then
    ({ s with le := m.1 }, m.2)
  else
    ({ le := m.1, cancelled := true }, m.1.metrics.leaderOff m.1.config.Name m.2)

/-- The method `renew`: the elector afterwards and the environment afterwards. -/
def LeaderElector.renew {σ : Type} (rt : Runtime σ) (rounds : Nat) (le : LeaderElector σ)
    (env : Env σ) : LeaderElector σ × Env σ :=
  let r := Until rt (renewTick rt rounds) RenewState.cancelled le.config.RetryPeriod .ctx rounds
    { le := le, cancelled := false } env
  -- if we hold the lease, give it up
  let q : LeaderElector σ × Env σ :=
    if r.1.le.config.ReleaseOnCancel = true then
      let q := r.1.le.release r.2
      (q.2.1, q.2.2)
    else (r.1.le, r.2)
  (q.1, callRecordEvent q.1.lock "stopped leading" q.2)

/-- The deferred call `le.config.Callbacks.OnStoppedLeading()`, made on the election task;
calling a nil function does not return (`none`). -/
def LeaderElector.stoppedLeading {σ : Type} (le : LeaderElector σ) (env : Env σ) :
    Option (LeaderElector σ × Env σ) :=
  match le.config.Callbacks.OnStoppedLeading with
  | none => none
  | some f => some (le, { st := f env.st, calls := env.calls ++ [Call.onStoppedLeading] })

/-- The method `Run`: the elector and the environment when it returns.  Starting a nil
function does not return (`none`). -/
def LeaderElector.Run {σ : Type} (rt : Runtime σ) (rounds : Nat) (le : LeaderElector σ)
    (env : Env σ) : Option (LeaderElector σ × Env σ) :=
  let a := le.acquire rt rounds env
  if a.1 = false then
    a.2.1.stoppedLeading a.2.2
  else
    match a.2.1.config.Callbacks.OnStartedLeading with
    | none => none
    | some f =>
      let r := a.2.1.renew rt rounds (callGo rt Call.onStartedLeading f a.2.2)
      r.1.stoppedLeading r.2

/-! ## Sequences of operations and call logs -/

/-- The operations of the election task on an elector. -/
inductive Op where
  | tryAcquireOrRenew
  | maybeReportTransition
  | release
  deriving DecidableEq

/-- One operation: the elector and the environment afterwards. -/
def LeaderElector.perform {σ : Type} (rt : Runtime σ) (le : LeaderElector σ) (env : Env σ) :
    Op → LeaderElector σ × Env σ
  | .tryAcquireOrRenew => ((le.tryAcquireOrRenew env).2.1, (le.tryAcquireOrRenew env).2.2)
  | .maybeReportTransition => le.maybeReportTransition rt env
  | .release => ((le.release env).2.1, (le.release env).2.2)

/-- A sequence of operations, one after the other. -/
def LeaderElector.performAll {σ : Type} (rt : Runtime σ) :
    List Op → LeaderElector σ → Env σ → LeaderElector σ × Env σ
  | [], le, env => (le, env)
  | op :: ops, le, env =>
    LeaderElector.performAll rt ops (le.perform rt env op).1 (le.perform rt env op).2

/-- The calls one `tryAcquireOrRenew` of an elector with identity `id` can make: it reads the
clock, reads the record, records the slow path, and creates or updates a record of its own. -/
def Call.inTick (id : String) : Call → Bool
  | .now => true
  | .get => true
  | .create r => r.HolderIdentity == id
  | .update r => r.HolderIdentity == id
  | .slowpathExercised _ => true
  | _ => false

/-- Whether a call starts `OnNewLeader`. -/
def Call.isNewLeader : Call → Bool
  | .onNewLeader _ => true
  | _ => false

/-- Whether a call is `leaderOff`. -/
def Call.isLeaderOff : Call → Bool
  | .leaderOff _ => true
  | _ => false

/-- Whether a call writes a release record: an `Update` with no holder. -/
def Call.isRelease : Call → Bool
  | .update r => r.HolderIdentity == ""
  | _ => false

/-- Whether a call belongs to the start of leadership: the event "became leader", the metric
`leaderOn`, or the start of `OnStartedLeading`. -/
def Call.isStart : Call → Bool
  | .recordEvent msg => msg == "became leader"
  | .leaderOn _ => true
  | .onStartedLeading => true
  | _ => false

/-- The calls of the ticks of the acquire phase: those of `tryAcquireOrRenew` and the starts
of `OnNewLeader`. -/
def Call.inWatch (id : String) (c : Call) : Bool :=
  c.inTick id || c.isNewLeader

/-- The calls of the loop of the renew phase. -/
def Call.inRenew (id : String) (c : Call) : Bool :=
  c.inTick id || c.isNewLeader || c.isLeaderOff

/-- The identity a call delivers to `OnNewLeader`, if it is such a call. -/
def Call.delivered : Call → Option String
  | .onNewLeader identity => some identity
  | _ => none

/-- The identities that `OnNewLeader` was started with, in the order of the `go`
statements. -/
def deliveries (l : List Call) : List String :=
  l.filterMap Call.delivered

/-- The log `env2` continues the log `env1` by calls that all satisfy `p`. -/
def Env.Grows {σ : Type} (p : Call → Bool) (env1 env2 : Env σ) : Prop :=
  ∃ l, env2.calls = env1.calls ++ l ∧ ∀ c ∈ l, p c = true

/-- The parts of an elector that `tryAcquireOrRenew` and `release` leave alone. -/
def LeaderElector.SameSetup {σ : Type} (le le' : LeaderElector σ) : Prop :=
  le'.config = le.config ∧ le'.reportedLeader = le.reportedLeader ∧ le'.clock = le.clock
    ∧ le'.metrics = le.metrics

/-- No two consecutive deliveries of `l` carry the same identity, and the last one, if
there is one, carries `reportedLeader`. -/
def Reported (reportedLeader : String) (l : List Call) : Prop :=
  (deliveries l).Chain' (fun a b => a ≠ b)
    ∧ ∀ id ∈ (deliveries l).getLast?, id = reportedLeader

/-- The log of `env` continues `base` with deliveries in order for the elector `cur` of
configuration `cfg`: with an `OnNewLeader` they are `Reported`, without one there are
none. -/
def Orderly {σ : Type} (cfg : LeaderElectionConfig σ) (base : List Call)
    (cur : LeaderElector σ) (env : Env σ) : Prop :=
  cur.config = cfg
    ∧ ∃ l, env.calls = base ++ l
      ∧ (cfg.Callbacks.OnNewLeader ≠ none → Reported cur.reportedLeader l)
      ∧ (cfg.Callbacks.OnNewLeader = none → deliveries l = [])

/-- The log `env2` continues the log `env1` by the calls `l`, and the journal `τ` of the
hidden state has grown by the same calls. -/
def Env.Logged {σ : Type} (τ : σ → List Call) (env1 env2 : Env σ) : Prop :=
  ∃ l, env2.calls = env1.calls ++ l ∧ τ env2.st = τ env1.st ++ l

/-- A journal that the collaborators of the elector `le` keep of what is done to them: a
reading `τ` of the hidden state to which every call on the lock, on the clock and on the
metric `metric` behind the adapter appends itself, to which every callback appends its call
when it runs, which a `go` statement changes as running the callback at once does, and which
the checks of the stop channels leave alone. -/
structure Journal {σ : Type} (rt : Runtime σ) (le : LeaderElector σ) (metric : LeaderMetric σ)
    (τ : σ → List Call) : Prop where
  /-- The adapter forwards to the metric. -/
  metrics : le.metrics = .defaultLeaderMetrics (some metric)
  /-- The clock. -/
  now : ∀ s, τ (le.clock.Now s).2 = τ s ++ [Call.now]
  /-- The lock: `Get`. -/
  get : ∀ s, τ (le.lock.Get s).2 = τ s ++ [Call.get]
  /-- The lock: `Create`. -/
  create : ∀ r s, τ (le.lock.Create r s).2 = τ s ++ [Call.create r]
  /-- The lock: `Update`. -/
  update : ∀ r s, τ (le.lock.Update r s).2 = τ s ++ [Call.update r]
  /-- The lock: `RecordEvent`. -/
  recordEvent : ∀ msg s, τ (le.lock.RecordEvent msg s) = τ s ++ [Call.recordEvent msg]
  /-- The metric: `On`. -/
  leaderOn : ∀ name s, τ (metric.On name s) = τ s ++ [Call.leaderOn name]
  /-- The metric: `Off`. -/
  leaderOff : ∀ name s, τ (metric.Off name s) = τ s ++ [Call.leaderOff name]
  /-- The metric: `SlowpathExercised`. -/
  slowpathExercised : ∀ name s,
    τ (metric.SlowpathExercised name s) = τ s ++ [Call.slowpathExercised name]
  /-- A `go` statement. -/
  go : ∀ g s, τ (rt.Go g s) = τ (g s)
  /-- A check of a stop channel. -/
  done : ∀ ch s, τ (rt.Done ch s).2 = τ s
  /-- A wait on a stop channel and a timer. -/
  wait : ∀ ch period jitterFactor s, τ (rt.Wait ch period jitterFactor s).2 = τ s
  /-- The callback `OnStartedLeading`. -/
  started : ∀ f, le.config.Callbacks.OnStartedLeading = some f →
    ∀ s, τ (f s) = τ s ++ [Call.onStartedLeading]
  /-- The callback `OnStoppedLeading`. -/
  stopped : ∀ f, le.config.Callbacks.OnStoppedLeading = some f →
    ∀ s, τ (f s) = τ s ++ [Call.onStoppedLeading]
  /-- The callback `OnNewLeader`. -/
  newLeader : ∀ f, le.config.Callbacks.OnNewLeader = some f →
    ∀ identity s, τ (f identity s) = τ s ++ [Call.onNewLeader identity]

/-! ## N electors on one compare-and-set store with one clock -/

/-- Modelled from the spec: the state of the backing store and of the clock that `N` electors
share.  `record` is the stored record with its version (none while the key is absent);
`seen i` is the version handle that the lock of elector `i` keeps from its last successful
`Get`, `Create` or `Update`; `now` is the reading of the one clock. -/
structure Store (N : Nat) where
  now : Int
  record : Option (LeaderElectionRecord × Nat)
  seen : Fin N → Option Nat

/-- Modelled from the spec: the lock of elector `i` on the shared store.  `Get` reports
not-found when the key is absent and otherwise returns the record with its encoding; `Create`
succeeds only when the key is absent; `Update` is a compare-and-set: it succeeds only when
the version this lock saw last is the stored one, and then bumps the version. -/
def casLock {N : Nat} (encode : LeaderElectionRecord → Bytes) (i : Fin N) (id : String) :
    Interface (Store N) :=
  { Get := fun s =>
      match s.record with
      | none => (.error .notFound, s)
      | some (r, v) => (.ok (r, encode r), { s with seen := Function.update s.seen i (some v) })
    Create := fun ler s =>
      match s.record with
      | none => (none, { s with record := some (ler, 0), seen := Function.update s.seen i (some 0) })
      | some _ => (some .other, s)
    Update := fun ler s =>
      match s.record with
      | none => (some .notFound, s)
      | some (_, v) =>
        if s.seen i = some v then
          (none, { s with record := some (ler, v + 1),
                          seen := Function.update s.seen i (some (v + 1)) })
        else (some .other, s)
    RecordEvent := fun _ s => s
    Identity := id
    Describe := id }

/-- The one clock of the system: it reads `now` of the shared state. -/
def storeClock {N : Nat} : Clock (Store N) :=
  { Now := fun s => (s.now, s) }

/-- The system: the `N` electors and the state they share. -/
structure System (N : Nat) where
  electors : Fin N → LeaderElector (Store N)
  store : Store N

/-- One step of the system: elector `i` runs `tryAcquireOrRenew` once, or the clock advances
by `d` nanoseconds. -/
inductive Step (N : Nat) where
  | call (i : Fin N)
  | tick (d : Nat)

/-- The effect of one step. -/
def System.step {N : Nat} (sys : System N) : Step N → System N
  | .call i =>
    let r := (sys.electors i).tryAcquireOrRenew { st := sys.store, calls := [] }
    { electors := Function.update sys.electors i r.2.1, store := r.2.2.st }
  | .tick d => { sys with store := { sys.store with now := sys.store.now + d } }

/-- The state after a sequence of steps. -/
def System.run {N : Nat} (sys : System N) (steps : List (Step N)) : System N :=
  steps.foldl System.step sys

/-- The system before any step: the electors as constructed, the key absent, no lock has
seen a version, and the clock reads `t0`. -/
def System.initial {N : Nat} (electors : Fin N → LeaderElector (Store N)) (t0 : Int) : System N :=
  { electors := electors, store := { now := t0, record := none, seen := fun _ => none } }

/-- Elector `i` observes itself as leader with a locally valid lease at the clock's time. -/
def System.leads {N : Nat} (sys : System N) (i : Fin N) : Prop :=
  (sys.electors i).IsLeader = true ∧ (sys.electors i).isLeaseValid sys.store.now = true

instance {N : Nat} (sys : System N) (i : Fin N) : Decidable (sys.leads i) := by
  unfold System.leads; infer_instance

/-- How elector `i` (identity `id`, bookkeeping `le`) came to replace the stored record `r`
by `w` on the shared store `st`, leaving `raw` as its observed raw bytes: by the optimistic
update of step 1; or in step 4 after installing `r`, whose raw bytes were new to it; or in
step 4 after reading the raw bytes it had observed already. -/
@[reducible] def CasWrite {N : Nat} (encode : LeaderElectionRecord → Bytes) (id : String)
    (le : LeaderElector (Store N)) (raw : Bytes) (st : Store N) (r w : LeaderElectionRecord) :
    Prop :=
  (le.IsLeader = true ∧ le.isLeaseValid st.now = true
      ∧ w.AcquireTime = le.observedRecord.AcquireTime
      ∧ w.LeaderTransitions = le.observedRecord.LeaderTransitions
      ∧ raw = le.observedRawRecord)
    ∨ (raw = encode r
      ∧ ((le.observedRawRecord ≠ encode r
          ∧ ¬ (r.HolderIdentity ≠ "" ∧ 0 < secondsDuration r.LeaseDurationSeconds
                ∧ r.HolderIdentity ≠ id)
          ∧ ((r.HolderIdentity = id ∧ w.AcquireTime = r.AcquireTime
                ∧ w.LeaderTransitions = r.LeaderTransitions)
            ∨ (r.HolderIdentity ≠ id ∧ w.LeaderTransitions = wrapInt64 (r.LeaderTransitions + 1))))
        ∨ (le.observedRawRecord = encode r
          ∧ ¬ (r.HolderIdentity ≠ "" ∧ le.isLeaseValid st.now = true ∧ le.IsLeader = false)
          ∧ ((le.IsLeader = true ∧ w.AcquireTime = r.AcquireTime
                ∧ w.LeaderTransitions = r.LeaderTransitions)
            ∨ (le.IsLeader = false ∧ w.LeaderTransitions = wrapInt64 (r.LeaderTransitions + 1))))))

/-- What one call of `tryAcquireOrRenew` by elector `i` (identity `id`) on the shared store
can do, from bookkeeping `le` and store `st` to `le'` and `st'`: it leaves the stored record
and finds the lease read held against it; or it replaces the stored record `r` by a record
`w` of its own; or it creates the record. -/
def CasOutcome {N : Nat} (encode : LeaderElectionRecord → Bytes) (i : Fin N) (id : String)
    (le le' : LeaderElector (Store N)) (st st' : Store N) : Prop :=
  le'.config = le.config ∧ le'.clock = le.clock ∧ le'.metrics = le.metrics
    ∧ st'.now = st.now ∧ (∀ j, j ≠ i → st'.seen j = st.seen j)
    ∧ ((∃ r v, st.record = some (r, v) ∧ st'.record = some (r, v) ∧ st'.seen i = some v
          ∧ le'.observedRawRecord = encode r
          ∧ (le.observedRawRecord = encode r →
              le'.observedRecord = le.observedRecord ∧ le'.observedTime = le.observedTime)
          ∧ (le.observedRawRecord ≠ encode r →
              le'.observedRecord = r ∧ le'.observedTime = st.now)
          ∧ le'.IsLeader = false ∧ le'.isLeaseValid st.now = true)
      ∨ (∃ r v w, st.record = some (r, v) ∧ st'.record = some (w, v + 1)
          ∧ st'.seen i = some (v + 1)
          ∧ le'.observedRecord = w ∧ le'.observedTime = st.now
          ∧ w.HolderIdentity = id
          ∧ w.LeaseDurationSeconds = Int.tdiv le.config.LeaseDuration Second
          ∧ w.RenewTime = st.now
          ∧ CasWrite encode id le le'.observedRawRecord st r w)
      ∨ (∃ w, st.record = none ∧ st'.record = some (w, 0) ∧ st'.seen i = some 0
          ∧ le'.observedRecord = w ∧ le'.observedTime = st.now
          ∧ le'.observedRawRecord = le.observedRawRecord
          ∧ w.HolderIdentity = id
          ∧ w.LeaseDurationSeconds = Int.tdiv le.config.LeaseDuration Second
          ∧ w.RenewTime = st.now
          ∧ (w.LeaderTransitions = 0 ∨ le.IsLeader = true)))

/-- One move of the system with releases: elector `i` runs `tryAcquireOrRenew` once, the
clock advances by `d` nanoseconds, or elector `i` runs `release` once. -/
inductive Move (N : Nat) where
  | call (i : Fin N)
  | tick (d : Nat)
  | release (i : Fin N)

/-- The effect of one move. -/
def System.move {N : Nat} (sys : System N) : Move N → System N
  | .call i => sys.step (.call i)
  | .tick d => sys.step (.tick d)
  | .release i =>
    let r := (sys.electors i).release { st := sys.store, calls := [] }
    { electors := Function.update sys.electors i r.2.1, store := r.2.2.st }

/-- The state after a sequence of moves. -/
def System.play {N : Nat} (sys : System N) (moves : List (Move N)) : System N :=
  moves.foldl System.move sys

/-- Whether the `LeaderTransitions` of the stored record, if there is one, is below the
largest `int`. -/
def System.belowMax {N : Nat} (sys : System N) : Bool :=
  match sys.store.record with
  | none => true
  | some (r, _) => decide (r.LeaderTransitions < 2 ^ 63 - 1)

/-- Whether the stored `LeaderTransitions` is below the largest `int` in every state that a
sequence of moves goes through, the first and the last included. -/
def System.unwrapped {N : Nat} : System N → List (Move N) → Bool
  | sys, [] => sys.belowMax
  | sys, m :: ms => sys.belowMax && (sys.move m).unwrapped ms

/-- What one call of `release` by elector `i` on the shared store can do, from bookkeeping
`le` and store `st` to `le'` and `st'`: nothing; or the elector is the leader, its lock has
seen the stored version, and the stored record is replaced by the release record, which the
elector observes. -/
def CasReleased {N : Nat} (i : Fin N) (le le' : LeaderElector (Store N)) (st st' : Store N) :
    Prop :=
  (le' = le ∧ st' = st)
    ∨ (le'.config = le.config ∧ le'.clock = le.clock ∧ le'.metrics = le.metrics
      ∧ st'.now = st.now ∧ (∀ j, j ≠ i → st'.seen j = st.seen j)
      ∧ le.IsLeader = true
      ∧ ∃ r v, st.record = some (r, v) ∧ st.seen i = some v
          ∧ st'.record
            = some (⟨"", 1, st.now, st.now, le.observedRecord.LeaderTransitions⟩, v + 1)
          ∧ st'.seen i = some (v + 1)
          ∧ le'.observedRecord = ⟨"", 1, st.now, st.now, le.observedRecord.LeaderTransitions⟩
          ∧ le'.observedTime = st.now
          ∧ le'.observedRawRecord = le.observedRawRecord)

/-- The invariant of the system of `N` electors with identities `ident` on one store with
record encoding `encode`.  It does not speak of `LeaderTransitions`. -/
structure SysInv {N : Nat} (encode : LeaderElectionRecord → Bytes) (ident : Fin N → String)
    (sys : System N) : Prop where
  /-- Every elector uses its lock on the shared store. -/
  lock : ∀ i, (sys.electors i).lock = casLock encode i (ident i)
  /-- Every elector reads the one clock. -/
  clock : ∀ i, (sys.electors i).clock = storeClock
  /-- No elector has a metrics provider. -/
  metrics : ∀ i, (sys.electors i).metrics = .noMetrics
  /-- The stored record was renewed in the past and is not the zero record. -/
  stored : ∀ r v, sys.store.record = some (r, v) →
    r.RenewTime ≤ sys.store.now ∧ r ≠ zeroRecord
  /-- An elector that has observed a record observed it in the past, after its renewal, and
  the key is present. -/
  touched : ∀ j, (sys.electors j).observedRecord ≠ zeroRecord →
    (sys.electors j).observedRecord.RenewTime ≤ (sys.electors j).observedTime
      ∧ (sys.electors j).observedTime ≤ sys.store.now
      ∧ sys.store.record ≠ none
  /-- The observed raw bytes encode a record `q`; the observed record is `q`, unless the
  elector has written over `q` since: then `q` was its own, or had no holder, or its lease
  had run out by the time of the write. -/
  raw : ∀ j, (sys.electors j).observedRawRecord ≠ [] →
    (sys.electors j).observedRecord ≠ zeroRecord
      ∧ ∃ q, (sys.electors j).observedRawRecord = encode q
        ∧ ((sys.electors j).observedRecord = q ∨ q.HolderIdentity = ident j
          ∨ q.HolderIdentity = ""
          ∨ q.RenewTime + secondsDuration q.LeaseDurationSeconds
              ≤ (sys.electors j).observedRecord.RenewTime)
  /-- An elector that observes its own record observed it when it renewed it. -/
  own : ∀ j, (sys.electors j).observedRecord.HolderIdentity = ident j →
    (sys.electors j).observedTime = (sys.electors j).observedRecord.RenewTime
  /-- An elector that leads observes the stored record. -/
  leader : ∀ j, sys.leads j → ∃ v, sys.store.record = some ((sys.electors j).observedRecord, v)
  /-- The elector that the stored record names as holder observes the stored record. -/
  holder : ∀ j r v, sys.store.record = some (r, v) → r.HolderIdentity = ident j →
    (sys.electors j).observedRecord = r
  /-- A version that a lock has seen is not ahead of the stored one. -/
  seenLe : ∀ j u, sys.store.seen j = some u → ∃ r v, sys.store.record = some (r, v) ∧ u ≤ v
  /-- An elector that observes a record of its own and whose lock has seen the stored version
  observes the stored record. -/
  seenLeader : ∀ j r v, sys.store.record = some (r, v) → sys.store.seen j = some v →
    (sys.electors j).IsLeader = true → (sys.electors j).observedRecord = r

/-- What the invariant of the counter adds while `LeaderTransitions` has not wrapped around:
the stored counter is not negative, no observed counter is ahead of it, and when the observed
raw bytes encode a record `q` that the elector has since written over, `q` was its own or
the observed counter is ahead of that of `q`. -/
structure Counted {N : Nat} (encode : LeaderElectionRecord → Bytes) (ident : Fin N → String)
    (sys : System N) : Prop where
  /-- The stored counter is not negative. -/
  nonneg : ∀ r v, sys.store.record = some (r, v) → 0 ≤ r.LeaderTransitions
  /-- No observed counter is ahead of the stored one. -/
  observed : ∀ j r v, (sys.electors j).observedRecord ≠ zeroRecord →
    sys.store.record = some (r, v) →
    (sys.electors j).observedRecord.LeaderTransitions ≤ r.LeaderTransitions
  /-- The record that the observed raw bytes encode. -/
  raw : ∀ j q, (sys.electors j).observedRawRecord = encode q →
    (sys.electors j).observedRecord = q ∨ q.HolderIdentity = ident j
      ∨ q.LeaderTransitions < (sys.electors j).observedRecord.LeaderTransitions

/-! ## Scripted collaborators, to run the elector on concrete inputs -/

/-- The hidden state of scripted collaborators: the clock reading, the answer `Get` gives,
the answer `Create` gives, the answers of the successive `Update` calls (an `Update`
past the end of the list succeeds), whether the stop channel is closed at the successive
checks and waits of the wait loops (past the end of the list it is open), and the journal
that the journalling collaborators keep. -/
structure Script where
  time : Int
  getResult : Except LockError (LeaderElectionRecord × Bytes)
  createResult : Option LockError
  updateResults : List (Option LockError)
  stops : List Bool := []
  journal : List Call := []

/-- A lock with identity `id` that answers from the script. -/
def scriptLock (id : String) : Interface Script :=
  { Get := fun s => (s.getResult, s)
    Create := fun _ s => (s.createResult, s)
    Update := fun _ s =>
      (s.updateResults.headD none, { s with updateResults := s.updateResults.tail })
    RecordEvent := fun _ s => s
    Identity := id
    Describe := id }

/-- A clock that reads the time of the script. -/
def scriptClock : Clock Script :=
  { Now := fun s => (s.time, s) }

/-- A runtime that answers from the script and leaves the tasks it starts to themselves. -/
def scriptRuntime : Runtime Script :=
  { Go := fun _ s => s
    Done := fun _ s => (s.stops.headD false, { s with stops := s.stops.tail })
    Wait := fun _ _ _ s => (s.stops.headD false, { s with stops := s.stops.tail }) }

/-- A configuration over the scripted collaborators with both required callbacks set, no
`OnNewLeader` and no watchdog. -/
def scriptConfig (id : String) (leaseDuration renewDeadline retryPeriod : Int) :
    LeaderElectionConfig Script :=
  { Lock := some (scriptLock id)
    LeaseDuration := leaseDuration
    RenewDeadline := renewDeadline
    RetryPeriod := retryPeriod
    Callbacks :=
      { OnStartedLeading := some (fun s => s), OnStoppedLeading := some (fun s => s),
        OnNewLeader := none }
    WatchDog := none
    ReleaseOnCancel := false
    Name := "lock" }

/-- A script at time `t` whose `Get` reports not-found and whose writes succeed. -/
def emptyScript (t : Int) : Script :=
  { time := t, getResult := .error .notFound, createResult := none, updateResults := [] }

/-- The environment of the scripted collaborators in state `s`, before any call. -/
def scriptEnv (s : Script) : Env Script :=
  { st := s, calls := [] }

/-- An elector over the scripted collaborators, in a given state of its bookkeeping. -/
def scriptElector (id : String) (leaseDuration : Int) (observedRecord : LeaderElectionRecord)
    (observedRawRecord : Bytes) (observedTime : Int) : LeaderElector Script :=
  { config := scriptConfig id leaseDuration (leaseDuration - 1) 1
    observedRecord := observedRecord
    observedRawRecord := observedRawRecord
    observedTime := observedTime
    reportedLeader := ""
    clock := scriptClock
    metrics := .noMetrics
    hLock := rfl }

/-- A script at time `t` whose `Get` returns the record `r` with raw bytes `raw` and whose
`Update` calls answer from `updates`. -/
def recordScript (t : Int) (r : LeaderElectionRecord) (raw : Bytes)
    (updates : List (Option LockError)) : Script :=
  { time := t, getResult := .ok (r, raw), createResult := none, updateResults := updates }

/-- The elector "a" (lease duration 15 s) that observed its own record at 2 s. -/
def leaderA : LeaderElector Script :=
  scriptElector "a" 15000000000 ⟨"a", 15, 1000000000, 2000000000, 3⟩ [1] 2000000000

/-- The elector "b" (lease duration 15 s) in the state `NewLeaderElector` returns. -/
def freshB : LeaderElector Script :=
  scriptElector "b" 15000000000 zeroRecord [] 0

/-- The elector "B" of scenario S3 (lease duration 15 s), freshly constructed. -/
def freshS3 : LeaderElector Script :=
  scriptElector "B" 15000000000 zeroRecord [] 0

/-- The record of scenario S3 with `t0` = 100 s. -/
def recordS3 : LeaderElectionRecord :=
  ⟨"A", 15, 100000000000, 100000000000, 3⟩

/-- A configuration over the scripted collaborators with the timings of the scenarios
(15 s, 10 s, 2 s), all three callbacks set, and `ReleaseOnCancel`. -/
def watchConfig (id : String) : LeaderElectionConfig Script :=
  { Lock := some (scriptLock id)
    LeaseDuration := 15000000000
    RenewDeadline := 10000000000
    RetryPeriod := 2000000000
    Callbacks :=
      { OnStartedLeading := some (fun s => s), OnStoppedLeading := some (fun s => s),
        OnNewLeader := some (fun _ s => s) }
    WatchDog := none
    ReleaseOnCancel := true
    Name := "lock" }

/-- The elector "b" with configuration `watchConfig` that observed, at 2 s, a record of "a"
with the given lease duration and raw bytes `[1]`, and has reported "a". -/
def watcherB (leaseDurationSeconds : Int) : LeaderElector Script :=
  { config := watchConfig "b"
    observedRecord := ⟨"a", leaseDurationSeconds, 1000000000, 2000000000, 3⟩
    observedRawRecord := [1]
    observedTime := 2000000000
    reportedLeader := "a"
    clock := scriptClock
    metrics := .noMetrics
    hLock := rfl }

/-- The elector "b" with configuration `watchConfig` in the state `NewLeaderElector`
returns. -/
def freshW : LeaderElector Script :=
  { config := watchConfig "b"
    observedRecord := zeroRecord
    observedRawRecord := []
    observedTime := 0
    reportedLeader := ""
    clock := scriptClock
    metrics := .noMetrics
    hLock := rfl }

/-- A script at 5 s whose `Get` returns a released record and whose first `Update` succeeds
while the next four fail: an elector acquires and then fails to renew. -/
def lostScript : Script :=
  recordScript 5000000000 ⟨"", 1, 1000000000, 2000000000, 3⟩ [1]
    [none, some .other, some .other, some .other, some .other]

/-- A lock with identity `id` that answers from the script and enters every call in the
journal. -/
def journalLock (id : String) : Interface Script :=
  { Get := fun s => (s.getResult, { s with journal := s.journal ++ [Call.get] })
    Create := fun r s => (s.createResult, { s with journal := s.journal ++ [Call.create r] })
    Update := fun r s =>
      (s.updateResults.headD none,
        { s with updateResults := s.updateResults.tail
                 journal := s.journal ++ [Call.update r] })
    RecordEvent := fun msg s => { s with journal := s.journal ++ [Call.recordEvent msg] }
    Identity := id
    Describe := id }

/-- A clock that reads the time of the script and enters every reading in the journal. -/
def journalClock : Clock Script :=
  { Now := fun s => (s.time, { s with journal := s.journal ++ [Call.now] }) }

/-- A metric that enters every call in the journal. -/
def journalMetric : LeaderMetric Script :=
  { On := fun name s => { s with journal := s.journal ++ [Call.leaderOn name] }
    Off := fun name s => { s with journal := s.journal ++ [Call.leaderOff name] }
    SlowpathExercised := fun name s =>
      { s with journal := s.journal ++ [Call.slowpathExercised name] } }

/-- A runtime that answers from the script and runs a callback at once when it is started. -/
def journalRuntime : Runtime Script :=
  { Go := fun f s => f s
    Done := fun _ s => (s.stops.headD false, { s with stops := s.stops.tail })
    Wait := fun _ _ _ s => (s.stops.headD false, { s with stops := s.stops.tail }) }

/-- A configuration over the journalling collaborators with the timings of the scenarios
(15 s, 10 s, 2 s), whose three callbacks enter their calls in the journal. -/
def journalConfig (id : String) : LeaderElectionConfig Script :=
  { Lock := some (journalLock id)
    LeaseDuration := 15000000000
    RenewDeadline := 10000000000
    RetryPeriod := 2000000000
    Callbacks :=
      { OnStartedLeading :=
          some (fun s => { s with journal := s.journal ++ [Call.onStartedLeading] })
        OnStoppedLeading :=
          some (fun s => { s with journal := s.journal ++ [Call.onStoppedLeading] })
        OnNewLeader :=
          some (fun identity s =>
            { s with journal := s.journal ++ [Call.onNewLeader identity] }) }
    WatchDog := none
    ReleaseOnCancel := false
    Name := "lock" }

/-- The elector "b" over the journalling collaborators, in the state `NewLeaderElector`
returns with a metrics provider set. -/
def journalB : LeaderElector Script :=
  { config := journalConfig "b"
    observedRecord := zeroRecord
    observedRawRecord := []
    observedTime := 0
    reportedLeader := ""
    clock := journalClock
    metrics := .defaultLeaderMetrics (some journalMetric)
    hLock := rfl }

/-- A record encoding for concrete runs of the system: the fields are paired into one
number `n` and the encoding is `n + 1` zero bytes.  It round-trips and is never empty. -/
def unaryEncode (r : LeaderElectionRecord) : Bytes :=
  List.replicate
    (Encodable.encode (r.HolderIdentity.toList.map Char.toNat, r.LeaseDurationSeconds,
      r.AcquireTime, r.RenewTime, r.LeaderTransitions) + 1) 0

/-- The identities of the two electors of the concrete system. -/
def duoIdent (k : Fin 2) : String :=
  if k = 0 then "a" else "b"

/-- The configurations of the two electors of the concrete system: the timings of the
scenarios (15 s, 10 s, 2 s) on the shared store. -/
def duoConfig (k : Fin 2) : LeaderElectionConfig (Store 2) :=
  { Lock := some (casLock unaryEncode k (duoIdent k))
    LeaseDuration := 15000000000
    RenewDeadline := 10000000000
    RetryPeriod := 2000000000
    Callbacks :=
      { OnStartedLeading := some (fun s => s), OnStoppedLeading := some (fun s => s),
        OnNewLeader := none }
    WatchDog := none
    ReleaseOnCancel := false
    Name := "lock" }

/-- The two electors of the concrete system, as `NewLeaderElector` returns them. -/
def duoElector (k : Fin 2) : LeaderElector (Store 2) :=
  { config := duoConfig k
    observedRecord := zeroRecord
    observedRawRecord := []
    observedTime := 0
    reportedLeader := ""
    clock := storeClock
    metrics := .noMetrics
    hLock := rfl }

/-- A run of the concrete system: "a" acquires, "b" observes, 3 s pass, "a" renews. -/
def duoSteps : List (Step 2) :=
  [.call 0, .call 1, .tick 3000000000, .call 0]

/-- A run of the concrete system with a release: "a" acquires, 3 s pass, "a" releases. -/
def duoMoves : List (Move 2) :=
  [.call 0, .tick 3000000000, .release 0]

/-- The concrete system in a state in which the store holds a release record whose
`LeaderTransitions` is the largest `int`. -/
def duoAtMax : System 2 :=
  { electors := duoElector
    store :=
      { now := 0
        record := some (⟨"", 1, 0, 0, 9223372036854775807⟩, 0)
        seen := fun _ => none } }

/-- Whether a constructor result is an elector. -/
def isOk {σ : Type} (r : Except String (LeaderElector σ)) : Bool :=
  match r with
  | .ok _ => true
  | .error _ => false

/-! ## Properties of `jitterDuration` -/

theorem excessBits_spec (fuel : Nat) : ∀ n : Nat, n < 2 ^ (53 + fuel) →
    n < 2 ^ (53 + excessBits fuel n) ∧
      (excessBits fuel n ≠ 0 → 2 ^ (52 + excessBits fuel n) ≤ n) := by
  induction fuel with
  | zero => intro n h; simpa [excessBits] using h
  | succ k ih =>
    intro n h
    unfold excessBits
    split_ifs with hn
    · exact ⟨by simpa using hn, fun h0 => absurd rfl h0⟩
    · have hk : n / 2 < 2 ^ (53 + k) := by
        have : 2 ^ (53 + (k + 1)) = 2 * 2 ^ (53 + k) := by ring
        omega
      obtain ⟨h1, h2⟩ := ih (n / 2) hk
      refine ⟨?_, fun _ => ?_⟩
      · have : 2 ^ (53 + (excessBits k (n / 2) + 1)) = 2 * 2 ^ (53 + excessBits k (n / 2)) := by
          ring
        omega
      · by_cases h0 : excessBits k (n / 2) = 0
        · rw [h0]; norm_num; push_neg at hn; norm_num at hn; omega
        · have := h2 h0
          have e : 2 ^ (52 + (excessBits k (n / 2) + 1)) = 2 * 2 ^ (52 + excessBits k (n / 2)) := by
            ring
          omega

theorem excessBits_self (n : Nat) :
    n < 2 ^ (53 + excessBits n n) ∧ (excessBits n n ≠ 0 → 2 ^ (52 + excessBits n n) ≤ n) := by
  apply excessBits_spec
  calc n < 2 ^ n := Nat.lt_two_pow _
    _ ≤ 2 ^ (53 + n) := Nat.pow_le_pow_right (by norm_num) (by omega)

theorem roundToFloat64_small (n : Nat) (h : n < 2 ^ 53) : roundToFloat64 n = n := by
  have : excessBits n n = 0 := by
    cases n with
    | zero => rfl
    | succ k => simp only [excessBits]; rw [if_pos h]
  simp [roundToFloat64, this, roundHalfEven, Nat.mod_one]

/-- Below `2 ^ 53 / 1.2` the rounded product is never below the exact one, truncated. -/
theorem jitter_ge (r : Nat) (h : 6 * r < 5 * 2 ^ 53) :
    6 * r / 5 ≤ roundToFloat64 (jitterFactorFloat64 * roundToFloat64 r) / 2 ^ 52 := by
  rw [roundToFloat64_small r (by omega)]
  obtain ⟨h1, h2⟩ := excessBits_self (jitterFactorFloat64 * r)
  unfold roundToFloat64
  simp only []
  generalize excessBits (jitterFactorFloat64 * r) (jitterFactorFloat64 * r) = s at h1 h2
  have hs : s < 53 := by
    by_contra hc
    push_neg at hc
    have := h2 (by omega)
    have : 2 ^ (52 + 53) ≤ 2 ^ (52 + s) := Nat.pow_le_pow_right (by norm_num) (by omega)
    unfold jitterFactorFloat64 at *
    norm_num at *
    omega
  unfold jitterFactorFloat64 at *
  unfold roundHalfEven
  interval_cases s <;> simp only [] <;> norm_num at h1 h2 ⊢ <;> split_ifs <;> omega

/-- Below `2 ^ 52 / 1.2` the rounded product is never above the exact one, truncated. -/
theorem jitter_le (r : Nat) (h : 6 * r < 5 * 2 ^ 52) :
    roundToFloat64 (jitterFactorFloat64 * roundToFloat64 r) / 2 ^ 52 ≤ 6 * r / 5 := by
  rw [roundToFloat64_small r (by omega)]
  obtain ⟨h1, h2⟩ := excessBits_self (jitterFactorFloat64 * r)
  unfold roundToFloat64
  simp only []
  generalize excessBits (jitterFactorFloat64 * r) (jitterFactorFloat64 * r) = s at h1 h2
  have hs : s < 52 := by
    by_contra hc
    push_neg at hc
    have := h2 (by omega)
    have : 2 ^ (52 + 52) ≤ 2 ^ (52 + s) := Nat.pow_le_pow_right (by norm_num) (by omega)
    unfold jitterFactorFloat64 at *
    norm_num at *
    omega
  unfold jitterFactorFloat64 at *
  unfold roundHalfEven
  interval_cases s <;> simp only [] <;> norm_num at h1 h2 ⊢ <;> split_ifs <;> omega

theorem jitterDuration_of_pos (d : Int) (h : 0 < d) :
    jitterDuration d =
      ((roundToFloat64 (jitterFactorFloat64 * roundToFloat64 d.toNat) / 2 ^ 52 : Nat) : Int) := by
  obtain ⟨n, rfl⟩ := Int.eq_ofNat_of_zero_le (le_of_lt h)
  have hs : Int.sign (n : Int) = 1 := Int.sign_eq_one_of_pos h
  simp [jitterDuration, hs]

/-- The truncated exact product `6 * d / 5` is a lower bound of `jitterDuration d` for a
positive `d` with `d * 1.2 < 2 ^ 53`. -/
theorem jitterDuration_ge (d : Int) (h0 : 0 < d) (h : 6 * d < 5 * 2 ^ 53) :
    6 * d / 5 ≤ jitterDuration d := by
  rw [jitterDuration_of_pos d h0]
  obtain ⟨n, rfl⟩ := Int.eq_ofNat_of_zero_le (le_of_lt h0)
  have hn : 6 * n < 5 * 2 ^ 53 := by exact_mod_cast h
  have := jitter_ge n hn
  simp only [Int.toNat_ofNat]
  exact_mod_cast this

/-- The truncated exact product `6 * d / 5` is the value of `jitterDuration d` for a
positive `d` with `d * 1.2 < 2 ^ 52`. -/
theorem jitterDuration_eq (d : Int) (h0 : 0 < d) (h : 6 * d < 5 * 2 ^ 52) :
    jitterDuration d = 6 * d / 5 := by
  rw [jitterDuration_of_pos d h0]
  obtain ⟨n, rfl⟩ := Int.eq_ofNat_of_zero_le (le_of_lt h0)
  have hn : 6 * n < 5 * 2 ^ 52 := by exact_mod_cast h
  have h1 := jitter_ge n (by omega)
  have h2 := jitter_le n hn
  simp only [Int.toNat_ofNat]
  exact_mod_cast le_antisymm h2 h1

/-- The significand `jitterFactorFloat64` is the integer nearest to `JitterFactor * 2 ^ 52`. -/
theorem jitterFactorFloat64_nearest :
    |(jitterFactorFloat64 : ℚ) - JitterFactor * 2 ^ 52| < 1 / 2 := by
  unfold jitterFactorFloat64 JitterFactor
  rw [abs_lt]
  constructor <;> norm_num

/-- Comparing a whole number of nanoseconds with an exact product by `JitterFactor`. -/
theorem le_jitterFactor_mul_iff (a b : Int) :
    (a : ℚ) ≤ JitterFactor * (b : ℚ) ↔ 5 * a ≤ 6 * b := by
  unfold JitterFactor
  constructor
  · intro h
    have h2 : (5 * a : ℚ) ≤ 6 * b := by linarith
    exact_mod_cast h2
  · intro h
    have h2 : (5 * a : ℚ) ≤ 6 * b := by exact_mod_cast h
    linarith

theorem jitterFactor_mul_lt_iff (a b : Int) :
    JitterFactor * (b : ℚ) < (a : ℚ) ↔ 6 * b < 5 * a := by
  unfold JitterFactor
  constructor
  · intro h
    have h2 : (6 * b : ℚ) < 5 * a := by linarith
    exact_mod_cast h2
  · intro h
    have h2 : (6 * b : ℚ) < 5 * a := by exact_mod_cast h
    linarith

theorem jitterFactor_mul_lt_pow_iff (b : Int) (k : Nat) :
    JitterFactor * (b : ℚ) < 2 ^ k ↔ 6 * b < 5 * 2 ^ k := by
  have h := jitterFactor_mul_lt_iff (2 ^ k) b
  push_cast at h
  exact h

/-- A whole number of seconds below 2 ^ 63 nanoseconds is converted without overflow. -/
theorem secondsDuration_eq (n : Int) (h0 : -9223372036 ≤ n) (h1 : n ≤ 9223372036) :
    secondsDuration n = Second * n := by
  unfold secondsDuration wrapInt64 Second
  omega

/-! ## `NewLeaderElector` -/

/-- C2 (amended): `NewLeaderElector` returns an error, and leaves the environment as it was,
for every configuration in which `LeaseDuration ≤ RenewDeadline`, or
`RenewDeadline ≤ RetryPeriod × 1.2` (compared exactly, in the rationals) with
`RetryPeriod × 1.2 < 2 ^ 53` nanoseconds, or one of the three durations is `≤ 0`, or
`OnStartedLeading` is nil, or `OnStoppedLeading` is nil, or `Lock` is nil, or the identity
of the lock is the empty string. -/
theorem NewLeaderElector_rejects {σ : Type} (realClock : Clock σ)
    (factory : leaderMetricsFactory σ) (lec : LeaderElectionConfig σ) (env : Env σ)
    (h : lec.LeaseDuration ≤ lec.RenewDeadline
      ∨ ((lec.RenewDeadline : ℚ) ≤ JitterFactor * (lec.RetryPeriod : ℚ)
          ∧ JitterFactor * (lec.RetryPeriod : ℚ) < 2 ^ 53)
      ∨ lec.LeaseDuration ≤ 0 ∨ lec.RenewDeadline ≤ 0 ∨ lec.RetryPeriod ≤ 0
      ∨ lec.Callbacks.OnStartedLeading = none ∨ lec.Callbacks.OnStoppedLeading = none
      ∨ lec.Lock = none ∨ (∃ l, lec.Lock = some l ∧ l.Identity = "")) :
    ∃ msg, NewLeaderElector realClock factory lec env = (.error msg, env) := by
  unfold NewLeaderElector
  split_ifs with h1 h2 h3 h4 h5 h6 h7
  all_goals try exact ⟨_, rfl⟩
  split
  · exact ⟨_, rfl⟩
  · rename_i lock hl
    split_ifs with h8
    · exact ⟨_, rfl⟩
    · exfalso
      rcases h with h | ⟨ha, hb⟩ | h | h | h | h | h | h | ⟨l, hl2, hid⟩
      · exact h1 h
      · have ha' := (le_jitterFactor_mul_iff _ _).1 ha
        have hb' := (jitterFactor_mul_lt_pow_iff _ 53).1 hb
        have hge := jitterDuration_ge lec.RetryPeriod (by omega) hb'
        omega
      · omega
      · omega
      · omega
      · simp [h] at h6
      · simp [h] at h7
      · simp [h] at hl
      · rw [hl] at hl2; cases hl2; exact h8 hid

/-- C3 (amended): `NewLeaderElector` succeeds for every configuration with
`LeaseDuration > RenewDeadline > RetryPeriod × 1.2` (compared exactly, in the rationals),
`RetryPeriod > 0` and `RetryPeriod × 1.2 < 2 ^ 52` nanoseconds, non-nil `OnStartedLeading` and `OnStoppedLeading`, and a non-nil `Lock` with a
non-empty identity; nothing is asked of `OnNewLeader` and `WatchDog`; the elector returned
stores the configuration unchanged, has empty bookkeeping, the real clock and the metrics
adapter of the factory, whose `leaderOff` was called once. -/
theorem NewLeaderElector_accepts {σ : Type} (realClock : Clock σ)
    (factory : leaderMetricsFactory σ) (lec : LeaderElectionConfig σ) (env : Env σ)
    (lock : Interface σ)
    (hLease : lec.RenewDeadline < lec.LeaseDuration)
    (hRenew : JitterFactor * (lec.RetryPeriod : ℚ) < (lec.RenewDeadline : ℚ))
    (hRetry : 0 < lec.RetryPeriod)
    (hRange : JitterFactor * (lec.RetryPeriod : ℚ) < 2 ^ 52)
    (hStarted : lec.Callbacks.OnStartedLeading ≠ none)
    (hStopped : lec.Callbacks.OnStoppedLeading ≠ none)
    (hLock : lec.Lock = some lock) (hId : lock.Identity ≠ "") :
    ∃ le, NewLeaderElector realClock factory lec env
        = (.ok le, factory.newLeaderMetrics.leaderOff lec.Name env)
      ∧ le.config = lec ∧ le.observedRecord = zeroRecord ∧ le.observedRawRecord = []
      ∧ le.observedTime = 0 ∧ le.reportedLeader = "" ∧ le.clock = realClock
      ∧ le.metrics = factory.newLeaderMetrics := by
  have hRenew' := (jitterFactor_mul_lt_iff _ _).1 hRenew
  have hj := jitterDuration_eq lec.RetryPeriod hRetry ((jitterFactor_mul_lt_pow_iff _ 52).1 hRange)
  unfold NewLeaderElector
  rw [if_neg (by omega), if_neg (by omega), if_neg (by omega), if_neg (by omega),
    if_neg (by omega)]
  rw [if_neg (by simpa [Option.isNone_iff_eq_none] using hStarted),
    if_neg (by simpa [Option.isNone_iff_eq_none] using hStopped)]
  split
  · rename_i hl; rw [hLock] at hl; cases hl
  · rename_i l hl
    have : l = lock := by rw [hLock] at hl; cases hl; rfl
    subst this
    rw [if_neg hId]
    exact ⟨_, rfl, rfl, rfl, rfl, rfl, rfl, rfl, rfl⟩

/-! ## The steps of `tryAcquireOrRenew` -/

theorem callNow_calls {σ : Type} (c : Clock σ) (env env1 : Env σ) (t : Int)
    (h : callNow c env = (t, env1)) : env1.calls = env.calls ++ [Call.now] := by
  unfold callNow at h
  cases h
  rfl

theorem callGet_calls {σ : Type} (l : Interface σ) (env env1 : Env σ)
    (r : Except LockError (LeaderElectionRecord × Bytes))
    (h : callGet l env = (r, env1)) : env1.calls = env.calls ++ [Call.get] := by
  unfold callGet at h
  cases h
  rfl

theorem callCreate_calls {σ : Type} (l : Interface σ) (ler : LeaderElectionRecord)
    (env env1 : Env σ) (r : Option LockError)
    (h : callCreate l ler env = (r, env1)) : env1.calls = env.calls ++ [Call.create ler] := by
  unfold callCreate at h
  cases h
  rfl

theorem callUpdate_calls {σ : Type} (l : Interface σ) (ler : LeaderElectionRecord)
    (env env1 : Env σ) (r : Option LockError)
    (h : callUpdate l ler env = (r, env1)) : env1.calls = env.calls ++ [Call.update ler] := by
  unfold callUpdate at h
  cases h
  rfl

/-- A call that goes on to step 2 and whose `Get` succeeds continues with steps 3 and 4. -/
theorem tryAcquireOrRenew_of_get {σ : Type} (le : LeaderElector σ) (env envG envG' : Env σ)
    (now : Int) (ler old : LeaderElectionRecord) (raw : Bytes)
    (hFast : le.fastPath env = .slowPath now ler envG)
    (hGet : callGet le.lock envG = (.ok (old, raw), envG')) :
    le.tryAcquireOrRenew env = le.acquireOrRenewFrom now ler old raw envG' := by
  simp [LeaderElector.tryAcquireOrRenew, hFast, LeaderElector.obtainOrCreate, hGet]

/-- A call by an elector that is not a leader with a valid lease skips the optimistic
update. -/
theorem fastPath_skip {σ : Type} (le : LeaderElector σ) (env env1 : Env σ) (now : Int)
    (hNow : callNow le.clock env = (now, env1))
    (h : ¬ (le.IsLeader = true ∧ le.isLeaseValid now = true)) :
    le.fastPath env = .slowPath now
      { HolderIdentity := le.lock.Identity
        LeaseDurationSeconds := Int.tdiv le.config.LeaseDuration Second
        RenewTime := now, AcquireTime := now, LeaderTransitions := 0 } env1 := by
  simp only [LeaderElector.fastPath, hNow]
  rw [if_neg h]

/-- The optimistic update of a leader with a valid lease, when it succeeds. -/
theorem fastPath_renewed {σ : Type} (le : LeaderElector σ) (env env1 env2 env3 : Env σ)
    (now t : Int) (ler : LeaderElectionRecord)
    (hNow : callNow le.clock env = (now, env1))
    (hLeader : le.IsLeader = true) (hValid : le.isLeaseValid now = true)
    (hLer : ler =
      { HolderIdentity := le.lock.Identity
        LeaseDurationSeconds := Int.tdiv le.config.LeaseDuration Second
        RenewTime := now
        AcquireTime := le.observedRecord.AcquireTime
        LeaderTransitions := le.observedRecord.LeaderTransitions })
    (hUpdate : callUpdate le.lock ler env1 = (none, env2))
    (hSet : callNow le.clock env2 = (t, env3)) :
    le.fastPath env = .renewed { le with observedRecord := ler, observedTime := t } env3 := by
  subst hLer
  simp only [LeaderElector.fastPath, hNow, LeaderElector.getObservedRecord]
  rw [if_pos ⟨hLeader, hValid⟩]
  simp only [hUpdate, LeaderElector.setObservedRecord, hSet]

/-- The optimistic update of a leader with a valid lease, when it fails. -/
theorem fastPath_failed {σ : Type} (le : LeaderElector σ) (env env1 env2 : Env σ)
    (now : Int) (ler : LeaderElectionRecord) (e : LockError)
    (hNow : callNow le.clock env = (now, env1))
    (hLeader : le.IsLeader = true) (hValid : le.isLeaseValid now = true)
    (hLer : ler =
      { HolderIdentity := le.lock.Identity
        LeaseDurationSeconds := Int.tdiv le.config.LeaseDuration Second
        RenewTime := now
        AcquireTime := le.observedRecord.AcquireTime
        LeaderTransitions := le.observedRecord.LeaderTransitions })
    (hUpdate : callUpdate le.lock ler env1 = (some e, env2)) :
    le.fastPath env = .slowPath now ler env2 := by
  subst hLer
  simp only [LeaderElector.fastPath, hNow, LeaderElector.getObservedRecord]
  rw [if_pos ⟨hLeader, hValid⟩]
  simp only [hUpdate]

/-- C4: fast-path renewal.  For every elector with `IsLeader()` and a locally valid lease at
the time `now` read at the start of the call, if the first `Update` succeeds then
`tryAcquireOrRenew` returns true having made exactly the calls `Now`, `Update`, `Now` (so no
`Get`); the record `ler` it wrote is installed as observed, with `observedTime` the clock
reading taken at the installation, and has `HolderIdentity` = own identity,
`RenewTime = now`, and `AcquireTime` and `LeaderTransitions` equal to those of the record
observed before.  Hence a successful renewal leaves the observed `AcquireTime` and
`LeaderTransitions` as they were, and so does every sequence of them. -/
theorem tryAcquireOrRenew_fast_path_renewal {σ : Type} (le : LeaderElector σ)
    (env env1 env2 env3 : Env σ) (now t : Int) (ler : LeaderElectionRecord)
    (hNow : callNow le.clock env = (now, env1))
    (hLeader : le.IsLeader = true) (hValid : le.isLeaseValid now = true)
    (hLer : ler =
      { HolderIdentity := le.lock.Identity
        LeaseDurationSeconds := Int.tdiv le.config.LeaseDuration Second
        RenewTime := now
        AcquireTime := le.observedRecord.AcquireTime
        LeaderTransitions := le.observedRecord.LeaderTransitions })
    (hUpdate : callUpdate le.lock ler env1 = (none, env2))
    (hSet : callNow le.clock env2 = (t, env3)) :
    le.tryAcquireOrRenew env = (true, { le with observedRecord := ler, observedTime := t }, env3)
      ∧ env3.calls = env.calls ++ [Call.now, Call.update ler, Call.now]
      ∧ ler.HolderIdentity = le.lock.Identity ∧ ler.RenewTime = now
      ∧ ler.AcquireTime = le.observedRecord.AcquireTime
      ∧ ler.LeaderTransitions = le.observedRecord.LeaderTransitions := by
  have h := fastPath_renewed le env env1 env2 env3 now t ler hNow hLeader hValid hLer hUpdate hSet
  refine ⟨by simp [LeaderElector.tryAcquireOrRenew, h], ?_, ?_⟩
  · rw [callNow_calls _ _ _ _ hSet, callUpdate_calls _ _ _ _ _ hUpdate,
      callNow_calls _ _ _ _ hNow]
    simp
  · subst hLer
    exact ⟨rfl, rfl, rfl, rfl⟩

/-- What a successful `NewLeaderElector` returns: the configuration as given, empty
bookkeeping, and a lock with a non-empty identity. -/
theorem NewLeaderElector_ok {σ : Type} (realClock : Clock σ) (factory : leaderMetricsFactory σ)
    (lec : LeaderElectionConfig σ) (env env' : Env σ) (le : LeaderElector σ)
    (h : NewLeaderElector realClock factory lec env = (.ok le, env')) :
    le.config = lec ∧ le.observedRecord = zeroRecord ∧ le.observedRawRecord = []
      ∧ le.observedTime = 0 ∧ le.reportedLeader = "" ∧ le.lock.Identity ≠ ""
      ∧ 1 ≤ lec.LeaseDuration := by
  unfold NewLeaderElector at h
  split_ifs at h with h1 h2 h3 h4 h5 h6 h7
  all_goals try (simp at h; done)
  split at h
  · simp at h
  · rename_i lock hl
    split_ifs at h with h8
    · simp at h
    · simp only [Prod.mk.injEq, Except.ok.injEq] at h
      obtain ⟨rfl, -⟩ := h
      refine ⟨rfl, rfl, rfl, rfl, rfl, ?_, by omega⟩
      simpa [LeaderElector.lock, hl] using h8

/-- An elector whose observed record has an empty holder is not the leader. -/
theorem IsLeader_of_empty {σ : Type} (le : LeaderElector σ)
    (h : le.observedRecord.HolderIdentity = "") (hId : le.lock.Identity ≠ "") :
    le.IsLeader = false := by
  simp only [LeaderElector.IsLeader, LeaderElector.getObservedRecord, h, beq_eq_false_iff_ne]
  exact fun e => hId e.symm

/-- C10: cold start.  For every freshly constructed elector (the result of
`NewLeaderElector`) with lease duration `D`, if `Get` reports not-found then
`tryAcquireOrRenew` calls `Create` with the record `{id, floor(D / 1s), now, now, 0}`, where
`id` is the identity of the lock and `now` the time read at the start of the call; if
`Create` succeeds the call returns true, the calls made are `Now`, `Get`, `Create`, `Now`
(no `Update`), and the created record is the observed record afterwards; if `Create` fails
the call returns false with the elector unchanged. -/
theorem tryAcquireOrRenew_cold_start {σ : Type} (realClock : Clock σ)
    (factory : leaderMetricsFactory σ) (lec : LeaderElectionConfig σ) (env0 envN : Env σ)
    (le : LeaderElector σ) (env env1 env2 : Env σ) (now : Int) (ler : LeaderElectionRecord)
    (hNew : NewLeaderElector realClock factory lec env0 = (.ok le, envN))
    (hNow : callNow le.clock env = (now, env1))
    (hGet : callGet le.lock env1 = (.error LockError.notFound, env2))
    (hLer : ler =
      { HolderIdentity := le.lock.Identity
        LeaseDurationSeconds := lec.LeaseDuration / Second
        AcquireTime := now, RenewTime := now, LeaderTransitions := 0 }) :
    (∀ env3 env4 t, callCreate le.lock ler env2 = (none, env3) →
        callNow le.clock env3 = (t, env4) →
        le.tryAcquireOrRenew env
            = (true, { le with observedRecord := ler, observedTime := t }, env4)
          ∧ env4.calls = env.calls ++ [Call.now, Call.get, Call.create ler, Call.now])
      ∧ (∀ e env3, callCreate le.lock ler env2 = (some e, env3) →
        le.tryAcquireOrRenew env = (false, le, env3)) := by
  obtain ⟨hc, hr, -, -, -, hId, hL⟩ := NewLeaderElector_ok _ _ _ _ _ _ hNew
  have hNot : le.IsLeader = false := IsLeader_of_empty le (by rw [hr]; rfl) hId
  have hdiv : Int.tdiv le.config.LeaseDuration Second = lec.LeaseDuration / Second := by
    rw [hc, Int.tdiv_eq_ediv (by omega) (by decide)]
  have hFast := fastPath_skip le env env1 now hNow (by simp [hNot])
  rw [hdiv, ← hLer] at hFast
  refine ⟨fun env3 env4 t hCreate hSet => ⟨?_, ?_⟩, fun e env3 hCreate => ?_⟩
  · simp [LeaderElector.tryAcquireOrRenew, hFast, LeaderElector.obtainOrCreate, hGet, hCreate,
      LeaderElector.setObservedRecord, hSet]
  · rw [callNow_calls _ _ _ _ hSet, callCreate_calls _ _ _ _ _ hCreate,
      callGet_calls _ _ _ _ hGet, callNow_calls _ _ _ _ hNow]
    simp
  · simp [LeaderElector.tryAcquireOrRenew, hFast, LeaderElector.obtainOrCreate, hGet, hCreate]

/-- Step 3 when the raw bytes read differ from the observed ones. -/
theorem observe_changed {σ : Type} (le : LeaderElector σ) (old : LeaderElectionRecord)
    (raw : Bytes) (env env1 : Env σ) (t : Int) (hRaw : le.observedRawRecord ≠ raw)
    (hSet : callNow le.clock env = (t, env1)) :
    le.observe old raw env
      = ({ le with observedRecord := old, observedTime := t, observedRawRecord := raw }, env1) := by
  simp [LeaderElector.observe, hRaw, LeaderElector.setObservedRecord, hSet]

/-- Step 3 when the raw bytes read are the observed ones. -/
theorem observe_same {σ : Type} (le : LeaderElector σ) (old : LeaderElectionRecord)
    (raw : Bytes) (env : Env σ) (hRaw : le.observedRawRecord = raw) :
    le.observe old raw env = (le, env) := by
  simp [LeaderElector.observe, hRaw]

/-- Steps 3 and 4 when the lease read is held: nothing is written. -/
theorem acquireOrRenewFrom_held {σ : Type} (le : LeaderElector σ) (now : Int)
    (ler old : LeaderElectionRecord) (raw : Bytes) (env : Env σ)
    (hHolder : old.HolderIdentity ≠ "")
    (hValid : (le.observe old raw env).1.isLeaseValid now = true)
    (hNot : (le.observe old raw env).1.IsLeader = false) :
    le.acquireOrRenewFrom now ler old raw env
      = (false, (le.observe old raw env).1, (le.observe old raw env).2) := by
  have hlen : 0 < old.HolderIdentity.length := by
    rcases h : old.HolderIdentity with ⟨l⟩
    cases l with
    | nil => exact absurd h hHolder
    | cons a t => simp [String.length]
  simp only [LeaderElector.acquireOrRenewFrom]
  rw [if_pos ⟨hlen, hValid, hNot⟩]

/-- A call that reaches a successful `Get`, reads a record with a holder, and after step 3
has a valid lease and is not the leader, returns false and writes nothing. -/
theorem tryAcquireOrRenew_held {σ : Type} (le : LeaderElector σ)
    (env envG envG' : Env σ) (now : Int) (ler old : LeaderElectionRecord) (raw : Bytes)
    (hFast : le.fastPath env = .slowPath now ler envG)
    (hGet : callGet le.lock envG = (.ok (old, raw), envG'))
    (hHolder : old.HolderIdentity ≠ "")
    (hNot : (le.observe old raw envG').1.IsLeader = false)
    (hValid : (le.observe old raw envG').1.isLeaseValid now = true) :
    le.tryAcquireOrRenew env
      = (false, (le.observe old raw envG').1, (le.observe old raw envG').2) := by
  rw [tryAcquireOrRenew_of_get le env envG envG' now ler old raw hFast hGet]
  exact acquireOrRenewFrom_held le now ler old raw envG' hHolder hValid hNot

/-- After step 3 the elector is not the leader when the record read is foreign and either
was installed or the record observed before was foreign too. -/
theorem observe_not_leader {σ : Type} (le : LeaderElector σ) (old : LeaderElectionRecord)
    (raw : Bytes) (env : Env σ)
    (hForeign : old.HolderIdentity ≠ le.lock.Identity)
    (hObserved : le.observedRawRecord ≠ raw ∨ le.observedRecord.HolderIdentity ≠ le.lock.Identity) :
    (le.observe old raw env).1.IsLeader = false := by
  by_cases hRaw : le.observedRawRecord = raw
  · rw [observe_same le old raw env hRaw]
    rcases hObserved with h | h
    · exact absurd hRaw h
    · simpa [LeaderElector.IsLeader, LeaderElector.getObservedRecord] using h
  · simp only [LeaderElector.observe, hRaw, ne_eq, not_false_eq_true, if_true,
      LeaderElector.setObservedRecord, LeaderElector.IsLeader, LeaderElector.getObservedRecord,
      LeaderElector.lock, beq_eq_false_iff_ne]
    exact hForeign

/-- C5 (amended): respect a valid foreign lease.  For every elector state in which
`tryAcquireOrRenew` reaches a successful `Get`, if the record read has a non-empty
`HolderIdentity` that differs from this elector's identity, the lease is locally valid after
step 3, and the raw bytes read differ from `observedRawRecord` or else the record observed
before is not this elector's own, then `tryAcquireOrRenew` returns false and makes no call
after the `Get` other than the clock reading of the installation (so no `Update`). -/
theorem tryAcquireOrRenew_respects_valid_foreign_lease {σ : Type} (le : LeaderElector σ)
    (env envG envG' : Env σ) (now : Int) (ler old : LeaderElectionRecord) (raw : Bytes)
    (hFast : le.fastPath env = .slowPath now ler envG)
    (hGet : callGet le.lock envG = (.ok (old, raw), envG'))
    (hHolder : old.HolderIdentity ≠ "")
    (hForeign : old.HolderIdentity ≠ le.lock.Identity)
    (hObserved : le.observedRawRecord ≠ raw ∨ le.observedRecord.HolderIdentity ≠ le.lock.Identity)
    (hValid : (le.observe old raw envG').1.isLeaseValid now = true) :
    le.tryAcquireOrRenew env = (false, (le.observe old raw envG').1, (le.observe old raw envG').2)
      ∧ ((le.observe old raw envG').2.calls = envG'.calls
        ∨ (le.observe old raw envG').2.calls = envG'.calls ++ [Call.now]) := by
  refine ⟨tryAcquireOrRenew_held le env envG envG' now ler old raw hFast hGet hHolder
    (observe_not_leader le old raw envG' hForeign hObserved) hValid, ?_⟩
  by_cases hRaw : le.observedRawRecord = raw
  · left; rw [observe_same le old raw envG' hRaw]
  · right
    rw [observe_changed le old raw envG' _ _ hRaw rfl]

/-- Steps 3 and 4 when the lease read is not held against this elector: the final
`Update` is issued, with the record of step 4; its success installs the record. -/
theorem acquireOrRenewFrom_update {σ : Type} (le : LeaderElector σ) (now t : Int)
    (ler old new : LeaderElectionRecord) (raw : Bytes) (env envU env2 env3 : Env σ)
    (res : Option LockError)
    (hCheck : ¬ (old.HolderIdentity ≠ "" ∧ (le.observe old raw env).1.isLeaseValid now = true
      ∧ (le.observe old raw env).1.IsLeader = false))
    (hNew : new = if (le.observe old raw env).1.IsLeader = true
      then { ler with AcquireTime := old.AcquireTime, LeaderTransitions := old.LeaderTransitions }
      else { ler with LeaderTransitions := wrapInt64 (old.LeaderTransitions + 1) })
    (hMetric : envU = if (le.observe old raw env).1.IsLeader = true
      then le.metrics.slowpathExercised le.config.Name (le.observe old raw env).2
      else (le.observe old raw env).2)
    (hUpdate : callUpdate le.lock new envU = (res, env2))
    (hSet : callNow le.clock env2 = (t, env3)) :
    le.acquireOrRenewFrom now ler old raw env
      = match res with
        | some _ => (false, (le.observe old raw env).1, env2)
        | none => (true, { (le.observe old raw env).1 with
            observedRecord := new, observedTime := t }, env3) := by
  have hcfg : (le.observe old raw env).1.config = le.config := by
    unfold LeaderElector.observe LeaderElector.setObservedRecord; split_ifs <;> rfl
  have hlock : (le.observe old raw env).1.lock = le.lock := by
    unfold LeaderElector.observe LeaderElector.setObservedRecord; split_ifs <;> rfl
  have hmet : (le.observe old raw env).1.metrics = le.metrics := by
    unfold LeaderElector.observe LeaderElector.setObservedRecord; split_ifs <;> rfl
  have hclk : (le.observe old raw env).1.clock = le.clock := by
    unfold LeaderElector.observe LeaderElector.setObservedRecord; split_ifs <;> rfl
  have hCheck' : ¬ (0 < old.HolderIdentity.length ∧
      (le.observe old raw env).1.isLeaseValid now = true
      ∧ (le.observe old raw env).1.IsLeader = false) := by
    rintro ⟨h1, h2, h3⟩
    refine hCheck ⟨?_, h2, h3⟩
    rintro h
    rw [h] at h1
    exact absurd h1 (by decide)
  simp only [LeaderElector.acquireOrRenewFrom]
  rw [if_neg hCheck']
  by_cases hL : (le.observe old raw env).1.IsLeader = true
  · rw [if_pos hL] at hNew hMetric
    simp only [hL, if_true, hcfg, hlock, hmet, ← hNew, ← hMetric, hUpdate,
      LeaderElector.setObservedRecord, hclk, hSet]
    cases res <;> rfl
  · rw [if_neg hL] at hNew hMetric
    have hL' : (le.observe old raw env).1.IsLeader = false := by simpa using hL
    simp only [hL', Bool.false_eq_true, if_false, hcfg, hlock, hmet, ← hNew, ← hMetric, hUpdate,
      LeaderElector.setObservedRecord, hclk, hSet]
    cases res <;> rfl

/-- C9 (amended): a client waits a full lease duration without observing a change before it
takes over.  For every elector state, when `tryAcquireOrRenew` reaches a `Get` that returns a
record whose raw bytes differ from `observedRawRecord`, whose `HolderIdentity` is non-empty
and not this elector's identity, and whose `LeaseDurationSeconds` is at least 1 and at most
9223372036 (so that its nanoseconds fit an `int64`), the call installs the record
with `observedTime` the clock reading `t2` taken at the installation (the `now` of the call
when the clock does not move during it; the clock is assumed not to run backwards,
`now ≤ t2`), returns false and makes no call after the `Get` but that clock reading.  And in
every later call made in that state while `now' < observedTime + LeaseDurationSeconds`
seconds, in which `Get` returns the same record and raw bytes, the elector returns false,
keeps its state, and the only calls are `Now` and `Get`: no `Update` is issued. -/
theorem tryAcquireOrRenew_waits_full_lease {σ : Type} (le : LeaderElector σ)
    (env envG envG' env2 : Env σ) (now t2 : Int) (ler old : LeaderElectionRecord) (raw : Bytes)
    (env' env1' env2' : Env σ) (now' : Int)
    (hFast : le.fastPath env = .slowPath now ler envG)
    (hGet : callGet le.lock envG = (.ok (old, raw), envG'))
    (hRaw : le.observedRawRecord ≠ raw)
    (hHolder : old.HolderIdentity ≠ "")
    (hForeign : old.HolderIdentity ≠ le.lock.Identity)
    (hLds : 1 ≤ old.LeaseDurationSeconds) (hLds' : old.LeaseDurationSeconds ≤ 9223372036)
    (hSet : callNow le.clock envG' = (t2, env2))
    (hClock : now ≤ t2)
    (hNow' : callNow le.clock env' = (now', env1'))
    (hGet' : callGet le.lock env1' = (.ok (old, raw), env2'))
    (hWithin : now' < t2 + Second * old.LeaseDurationSeconds) :
    le.tryAcquireOrRenew env
        = (false, { le with observedRecord := old, observedTime := t2, observedRawRecord := raw },
            env2)
      ∧ env2.calls = envG'.calls ++ [Call.now]
      ∧ ({ le with observedRecord := old, observedTime := t2, observedRawRecord := raw }
          : LeaderElector σ).tryAcquireOrRenew env'
        = (false, { le with observedRecord := old, observedTime := t2, observedRawRecord := raw },
            env2')
      ∧ env2'.calls = env'.calls ++ [Call.now, Call.get] := by
  have hObs := observe_changed le old raw envG' env2 t2 hRaw hSet
  have hSec : (0 : Int) < Second := by decide
  have hpos : 0 < Second * old.LeaseDurationSeconds := by positivity
  have hdur := secondsDuration_eq old.LeaseDurationSeconds (by omega) hLds'
  refine ⟨?_, callNow_calls _ _ _ _ hSet, ?_, ?_⟩
  · have h := tryAcquireOrRenew_held le env envG envG' now ler old raw hFast hGet hHolder
      (observe_not_leader le old raw envG' hForeign (Or.inl hRaw))
      (by rw [hObs]
          simp [LeaderElector.isLeaseValid, LeaderElector.getObservedRecord, hdur]
          omega)
    rw [h, hObs]
  · set le1 : LeaderElector σ :=
      { le with observedRecord := old, observedTime := t2, observedRawRecord := raw } with hle1
    have hNot : le1.IsLeader = false := by
      simp only [hle1, LeaderElector.IsLeader, LeaderElector.getObservedRecord,
        LeaderElector.lock, beq_eq_false_iff_ne]
      exact hForeign
    have hFast' := fastPath_skip le1 env' env1' now' hNow' (by simp [hNot])
    have hsame := observe_same le1 old raw env2' rfl
    have h := tryAcquireOrRenew_held le1 env' env1' env2' now' _ old raw hFast' hGet' hHolder
      (by rw [hsame]; exact hNot)
      (by rw [hsame]
          simp [hle1, LeaderElector.isLeaseValid, LeaderElector.getObservedRecord, hdur]
          omega)
    rw [h, hsame]
  · rw [callGet_calls _ _ _ _ hGet', callNow_calls _ _ _ _ hNow']
    simp

/-- C8 (amended): takeover after abandonment.  A freshly constructed elector "B" with
`LeaseDuration` 15 s whose first `tryAcquireOrRenew` runs at local time `t0 + 20 s` and whose
`Get` returns the record `{A, 15, t0, t0, 3}` (with non-empty raw bytes) installs that record
with `observedTime = t0 + 20 s`, judges the lease valid, returns false and issues no `Update`
in that call.  In a call at a local time `now' ≥ t0 + 35 s` in which `Get` still returns that
record, B issues an `Update` with the record `{B, 15, now', now', 4}`; the call returns true
and installs that record when the `Update` succeeds, and returns false when it fails. -/
theorem tryAcquireOrRenew_takeover_after_abandonment {σ : Type} (realClock : Clock σ)
    (factory : leaderMetricsFactory σ) (lec : LeaderElectionConfig σ) (env0 envN : Env σ)
    (le : LeaderElector σ) (t0 : Int) (raw : Bytes) (env env1 env2 env3 : Env σ)
    (env' env1' env2' env3' env4' : Env σ) (now' t' : Int) (res : Option LockError)
    (hNew : NewLeaderElector realClock factory lec env0 = (.ok le, envN))
    (hId : le.lock.Identity = "B") (hLease : lec.LeaseDuration = 15 * Second)
    (hRaw : raw ≠ [])
    (hNow : callNow le.clock env = (t0 + 20 * Second, env1))
    (hGet : callGet le.lock env1 = (.ok (⟨"A", 15, t0, t0, 3⟩, raw), env2))
    (hSet : callNow le.clock env2 = (t0 + 20 * Second, env3))
    (hNow' : callNow le.clock env' = (now', env1'))
    (hGet' : callGet le.lock env1' = (.ok (⟨"A", 15, t0, t0, 3⟩, raw), env2'))
    (hLater : t0 + 35 * Second ≤ now')
    (hUpdate' : callUpdate le.lock ⟨"B", 15, now', now', 4⟩ env2' = (res, env3'))
    (hSet' : callNow le.clock env3' = (t', env4')) :
    le.tryAcquireOrRenew env
        = (false, { le with observedRecord := ⟨"A", 15, t0, t0, 3⟩,
                            observedTime := t0 + 20 * Second, observedRawRecord := raw }, env3)
      ∧ env3.calls = env.calls ++ [Call.now, Call.get, Call.now]
      ∧ ({ le with observedRecord := ⟨"A", 15, t0, t0, 3⟩, observedTime := t0 + 20 * Second,
                   observedRawRecord := raw } : LeaderElector σ).tryAcquireOrRenew env'
        = (if res = none then
            (true, { le with observedRecord := ⟨"B", 15, now', now', 4⟩, observedTime := t',
                             observedRawRecord := raw }, env4')
          else
            (false, { le with observedRecord := ⟨"A", 15, t0, t0, 3⟩,
                              observedTime := t0 + 20 * Second, observedRawRecord := raw }, env3'))
      ∧ env3'.calls = env'.calls ++ [Call.now, Call.get, Call.update ⟨"B", 15, now', now', 4⟩] := by
  obtain ⟨hc, hr, hraw, -, -, hId', hL⟩ := NewLeaderElector_ok _ _ _ _ _ _ hNew
  have hNot : le.IsLeader = false := IsLeader_of_empty le (by rw [hr]; rfl) hId'
  have hFast := fastPath_skip le env env1 _ hNow (by simp [hNot])
  have hRaw' : le.observedRawRecord ≠ raw := by rw [hraw]; exact fun h => hRaw h.symm
  have hAB : ("A" : String) ≠ le.lock.Identity := by rw [hId]; decide
  have hdiv : Int.tdiv le.config.LeaseDuration Second = 15 := by
    rw [hc, hLease]; decide
  have hdur : secondsDuration 15 = 15000000000 := by decide
  refine ⟨?_, ?_, ?_, ?_⟩
  · have hObs := observe_changed le ⟨"A", 15, t0, t0, 3⟩ raw env2 env3 _ hRaw' hSet
    have h := tryAcquireOrRenew_held le env env1 env2 _ _
      ⟨"A", 15, t0, t0, 3⟩ raw hFast hGet (by show ("A" : String) ≠ ""; decide)
      (observe_not_leader le _ raw env2 hAB (Or.inl hRaw'))
      (by rw [hObs]
          simp [LeaderElector.isLeaseValid, LeaderElector.getObservedRecord, hdur])
    rw [h, hObs]
  · rw [callNow_calls _ _ _ _ hSet, callGet_calls _ _ _ _ hGet, callNow_calls _ _ _ _ hNow]
    simp
  · set le1 : LeaderElector σ :=
      { le with observedRecord := ⟨"A", 15, t0, t0, 3⟩, observedTime := t0 + 20 * Second,
                observedRawRecord := raw } with hle1
    have hNot1 : le1.IsLeader = false := by
      simp only [hle1, LeaderElector.IsLeader, LeaderElector.getObservedRecord,
        LeaderElector.lock, beq_eq_false_iff_ne]
      exact hAB
    have hFast' := fastPath_skip le1 env' env1' now' hNow' (by simp [hNot1])
    have hsame := observe_same le1 ⟨"A", 15, t0, t0, 3⟩ raw env2' rfl
    have hInvalid : le1.isLeaseValid now' = false := by
      simp only [hle1, LeaderElector.isLeaseValid, LeaderElector.getObservedRecord,
        decide_eq_false_iff_not, Second, hdur] at hLater ⊢
      omega
    rw [tryAcquireOrRenew_of_get le1 env' env1' env2' now' _ _ raw hFast' hGet']
    rw [acquireOrRenewFrom_update le1 now' t' _ _ ⟨"B", 15, now', now', 4⟩ raw env2' env2' env3'
      env4' res (by rw [hsame]; simp [hInvalid])
      (by rw [hsame]; simp [hNot1]; exact ⟨hId.symm, hdiv.symm, by decide⟩)
      (by rw [hsame]; simp [hNot1]) hUpdate' hSet', hsame]
    cases res <;> simp
  · rw [callUpdate_calls _ _ _ _ _ hUpdate', callGet_calls _ _ _ _ hGet',
      callNow_calls _ _ _ _ hNow']
    simp

/-- C2, counterexample: with `RetryPeriod` = 7505999378950831 ns and `RenewDeadline` =
9007199254740997 ns, `RenewDeadline ≤ RetryPeriod × 1.2` holds exactly, but the `float64`
product is 9007199254740996 and `NewLeaderElector` returns an elector. -/
theorem NewLeaderElector_accepts_short_renewDeadline :
    ((scriptConfig "a" 9007199254740998 9007199254740997 7505999378950831).RenewDeadline : ℚ)
        ≤ JitterFactor
          * ((scriptConfig "a" 9007199254740998 9007199254740997 7505999378950831).RetryPeriod : ℚ)
      ∧ isOk (NewLeaderElector scriptClock globalMetricsFactory
          (scriptConfig "a" 9007199254740998 9007199254740997 7505999378950831)
          (scriptEnv (emptyScript 0))).1 = true :=
  ⟨(le_jitterFactor_mul_iff _ _).2 (by decide), by decide⟩

/-- C3, counterexample: with `RetryPeriod` = 3752999689475414 ns, `RenewDeadline` =
4503599627370497 ns and `LeaseDuration` one more, `LeaseDuration > RenewDeadline >
RetryPeriod × 1.2` holds exactly, but the `float64` product rounds up to 4503599627370497 and
`NewLeaderElector` returns an error. -/
theorem NewLeaderElector_rejects_long_renewDeadline :
    (scriptConfig "a" 4503599627370498 4503599627370497 3752999689475414).RenewDeadline
        < (scriptConfig "a" 4503599627370498 4503599627370497 3752999689475414).LeaseDuration
      ∧ JitterFactor
          * ((scriptConfig "a" 4503599627370498 4503599627370497 3752999689475414).RetryPeriod : ℚ)
        < ((scriptConfig "a" 4503599627370498 4503599627370497 3752999689475414).RenewDeadline : ℚ)
      ∧ 0 < (scriptConfig "a" 4503599627370498 4503599627370497 3752999689475414).RetryPeriod
      ∧ isOk (NewLeaderElector scriptClock globalMetricsFactory
          (scriptConfig "a" 4503599627370498 4503599627370497 3752999689475414)
          (scriptEnv (emptyScript 0))).1 = false :=
  ⟨by decide, (jitterFactor_mul_lt_iff _ _).2 (by decide), by decide, by decide⟩

/-- C2, witness: a configuration with `LeaseDuration` 10 s and `RenewDeadline` 15 s is
rejected. -/
theorem NewLeaderElector_rejects_witness :
    ∃ msg, NewLeaderElector scriptClock globalMetricsFactory
        (scriptConfig "a" 10000000000 15000000000 2000000000) (scriptEnv (emptyScript 0))
      = (.error msg, scriptEnv (emptyScript 0)) :=
  NewLeaderElector_rejects scriptClock globalMetricsFactory
    (scriptConfig "a" 10000000000 15000000000 2000000000) (scriptEnv (emptyScript 0))
    (Or.inl (by decide))

/-- C3, witness: the configuration of the scenarios (15 s, 10 s, 2 s) is accepted. -/
theorem NewLeaderElector_accepts_witness :
    isOk (NewLeaderElector scriptClock globalMetricsFactory
      (scriptConfig "a" 15000000000 10000000000 2000000000) (scriptEnv (emptyScript 0))).1
      = true := by
  obtain ⟨le, h, -⟩ := NewLeaderElector_accepts scriptClock globalMetricsFactory
    (scriptConfig "a" 15000000000 10000000000 2000000000) (scriptEnv (emptyScript 0))
    (scriptLock "a") (by decide) ((jitterFactor_mul_lt_iff _ _).2 (by decide)) (by decide)
    ((jitterFactor_mul_lt_pow_iff _ 52).2 (by decide)) (by simp [scriptConfig])
    (by simp [scriptConfig]) rfl (by decide)
  rw [h]
  rfl

/-- C4, witness: the leader "a", whose lease was observed at 2 s, renews at 5 s. -/
theorem tryAcquireOrRenew_fast_path_renewal_witness :
    (leaderA.tryAcquireOrRenew (scriptEnv (emptyScript 5000000000))).1 = true
      ∧ (leaderA.tryAcquireOrRenew (scriptEnv (emptyScript 5000000000))).2.1.observedRecord
        = ⟨"a", 15, 1000000000, 5000000000, 3⟩ := by
  have h := tryAcquireOrRenew_fast_path_renewal leaderA (scriptEnv (emptyScript 5000000000))
    _ _ _ 5000000000 5000000000 ⟨"a", 15, 1000000000, 5000000000, 3⟩ rfl (by decide)
    (by decide) (by decide) rfl rfl
  rw [h.1]
  exact ⟨rfl, rfl⟩

/-- C5, witness: the fresh elector "b" reads the record of "a" at 5 s and returns false. -/
theorem tryAcquireOrRenew_respects_valid_foreign_lease_witness :
    (freshB.tryAcquireOrRenew
      (scriptEnv (recordScript 5000000000 ⟨"a", 15, 1000000000, 2000000000, 3⟩ [1] []))).1
      = false := by
  have h := tryAcquireOrRenew_respects_valid_foreign_lease freshB
    (scriptEnv (recordScript 5000000000 ⟨"a", 15, 1000000000, 2000000000, 3⟩ [1] []))
    _ _ 5000000000 _ ⟨"a", 15, 1000000000, 2000000000, 3⟩ [1] rfl rfl (by decide) (by decide)
    (Or.inl (by decide)) (by decide)
  rw [h.1]

/-- C5, counterexample: the elector "a" observes its own record (observed raw bytes `[1]`,
lease valid at 5 s); its optimistic `Update` fails and `Get` returns a record held by "b"
with the same raw bytes `[1]`.  The record read has a non-empty holder that is not "a" and the
lease is locally valid, yet the call issues a second `Update` after the `Get` and returns
true. -/
theorem tryAcquireOrRenew_overwrites_valid_foreign_lease :
    leaderA.lock.Identity = "a"
      ∧ (recordScript 5000000000 ⟨"b", 15, 3000000000, 4000000000, 4⟩ [1] [some .other]).getResult
        = .ok (⟨"b", 15, 3000000000, 4000000000, 4⟩, [1])
      ∧ (leaderA.observe ⟨"b", 15, 3000000000, 4000000000, 4⟩ [1]
          (scriptEnv (emptyScript 5000000000))).1.isLeaseValid 5000000000 = true
      ∧ (leaderA.tryAcquireOrRenew (scriptEnv
          (recordScript 5000000000 ⟨"b", 15, 3000000000, 4000000000, 4⟩ [1] [some .other]))).1
        = true
      ∧ (leaderA.tryAcquireOrRenew (scriptEnv
          (recordScript 5000000000 ⟨"b", 15, 3000000000, 4000000000, 4⟩ [1] [some .other]))).2.2.calls
        = [Call.now, Call.update ⟨"a", 15, 1000000000, 5000000000, 3⟩, Call.get,
            Call.slowpathExercised "lock", Call.update ⟨"a", 15, 3000000000, 5000000000, 4⟩,
            Call.now] := by
  refine ⟨rfl, rfl, by decide, by decide, by decide⟩

/-- C6, the code at the failing input: the elector "a" observes its own record, acquired at
1 s, with a valid lease at 5 s; its optimistic `Update` fails and `Get` returns a released
record (empty holder, 3 transitions) with new raw bytes.  The final `Update` submits
`LeaderTransitions` 4 with `AcquireTime` 1 s, the acquire time of the record observed before,
and not with `AcquireTime` = `now` = 5 s. -/
theorem tryAcquireOrRenew_keeps_stale_acquire_time :
    (leaderA.tryAcquireOrRenew (scriptEnv
        (recordScript 5000000000 ⟨"", 1, 4000000000, 4000000000, 3⟩ [2] [some .other]))).1 = true
      ∧ (leaderA.tryAcquireOrRenew (scriptEnv
        (recordScript 5000000000 ⟨"", 1, 4000000000, 4000000000, 3⟩ [2] [some .other]))).2.2.calls
        = [Call.now, Call.update ⟨"a", 15, 1000000000, 5000000000, 3⟩, Call.get, Call.now,
            Call.update ⟨"a", 15, 1000000000, 5000000000, 4⟩, Call.now] := by
  decide

/-- C8, counterexample: scenario S3 with `t0` = 100 s.  The elector "B", freshly constructed
with lease duration 15 s, runs its first `tryAcquireOrRenew` at 120 s and reads
`{A, 15, t0, t0, 3}`: the call returns false, the calls made are `Now`, `Get`, `Now` (no
`Update`), and the lease is valid at 120 s afterwards. -/
theorem tryAcquireOrRenew_no_immediate_takeover :
    (NewLeaderElector scriptClock globalMetricsFactory
        (scriptConfig "B" 15000000000 (15000000000 - 1) 1) (scriptEnv (emptyScript 0))).1
        = .ok freshS3
      ∧ (freshS3.tryAcquireOrRenew (scriptEnv (recordScript 120000000000 recordS3 [1] []))).1
        = false
      ∧ (freshS3.tryAcquireOrRenew (scriptEnv (recordScript 120000000000 recordS3 [1] []))).2.2.calls
        = [Call.now, Call.get, Call.now]
      ∧ (freshS3.tryAcquireOrRenew
          (scriptEnv (recordScript 120000000000 recordS3 [1] []))).2.1.isLeaseValid 120000000000
        = true := by
  refine ⟨rfl, by decide, by decide, by decide⟩

/-- C8, witness: scenario S3 with `t0` = 100 s; the first call at 120 s returns false, a call
at 135 s takes over. -/
theorem tryAcquireOrRenew_takeover_after_abandonment_witness :
    (freshS3.tryAcquireOrRenew (scriptEnv (recordScript 120000000000 recordS3 [1] []))).1 = false
      ∧ (({ freshS3 with observedRecord := recordS3, observedTime := 120000000000,
                         observedRawRecord := [1] } : LeaderElector Script).tryAcquireOrRenew
          (scriptEnv (recordScript 135000000000 recordS3 [1] []))).1 = true := by
  have hNew : NewLeaderElector scriptClock globalMetricsFactory
      (scriptConfig "B" 15000000000 (15000000000 - 1) 1) (scriptEnv (emptyScript 0))
      = (.ok freshS3, { st := emptyScript 0, calls := [Call.leaderOff "lock"] }) := rfl
  have h := tryAcquireOrRenew_takeover_after_abandonment scriptClock globalMetricsFactory
    (scriptConfig "B" 15000000000 (15000000000 - 1) 1) (scriptEnv (emptyScript 0))
    { st := emptyScript 0, calls := [Call.leaderOff "lock"] } freshS3
    100000000000 [1] (scriptEnv (recordScript 120000000000 recordS3 [1] [])) _ _ _
    (scriptEnv (recordScript 135000000000 recordS3 [1] [])) _ _ _ _ 135000000000 135000000000
    none hNew rfl (by decide) (by decide) rfl rfl rfl rfl rfl (by decide) rfl rfl
  exact ⟨by rw [h.1], congrArg Prod.fst h.2.2.1⟩

/-- C9, counterexample: the fresh elector "b" reads at 5 s the record of "a" with
`LeaseDurationSeconds` = 9223372037 and new raw bytes.  The `int64` product
`time.Second * 9223372037` wraps to a negative duration, the lease is judged invalid, and the
call issues an `Update` with `{b, 15, 5 s, 5 s, 4}` and returns true. -/
theorem tryAcquireOrRenew_takes_over_overflowing_lease :
    freshB.observedRawRecord ≠ [1]
      ∧ (⟨"a", 9223372037, 1000000000, 2000000000, 3⟩ : LeaderElectionRecord).HolderIdentity
        ≠ ""
      ∧ (⟨"a", 9223372037, 1000000000, 2000000000, 3⟩ : LeaderElectionRecord).HolderIdentity
        ≠ freshB.lock.Identity
      ∧ 1 ≤ (⟨"a", 9223372037, 1000000000, 2000000000, 3⟩
          : LeaderElectionRecord).LeaseDurationSeconds
      ∧ secondsDuration 9223372037 = -9223372036709551616
      ∧ (freshB.tryAcquireOrRenew (scriptEnv
          (recordScript 5000000000 ⟨"a", 9223372037, 1000000000, 2000000000, 3⟩ [1] []))).1
        = true
      ∧ (freshB.tryAcquireOrRenew (scriptEnv
          (recordScript 5000000000 ⟨"a", 9223372037, 1000000000, 2000000000, 3⟩ [1] []))).2.2.calls
        = [Call.now, Call.get, Call.now, Call.update ⟨"b", 15, 5000000000, 5000000000, 4⟩,
            Call.now] := by
  refine ⟨by decide, by decide, by decide, by decide, by decide, by decide, by decide⟩

/-- C9, witness: the fresh elector "b" reads the record of "a" at 5 s, and again at 19 s,
within the 15 s of the lease: both calls return false. -/
theorem tryAcquireOrRenew_waits_full_lease_witness :
    (freshB.tryAcquireOrRenew
        (scriptEnv (recordScript 5000000000 ⟨"a", 15, 1000000000, 2000000000, 3⟩ [1] []))).1
        = false
      ∧ (({ freshB with observedRecord := ⟨"a", 15, 1000000000, 2000000000, 3⟩,
                        observedTime := 5000000000, observedRawRecord := [1] }
          : LeaderElector Script).tryAcquireOrRenew
          (scriptEnv (recordScript 19000000000 ⟨"a", 15, 1000000000, 2000000000, 3⟩ [1] []))).1
        = false := by
  have h := tryAcquireOrRenew_waits_full_lease freshB
    (scriptEnv (recordScript 5000000000 ⟨"a", 15, 1000000000, 2000000000, 3⟩ [1] []))
    _ _ _ 5000000000 5000000000 _ ⟨"a", 15, 1000000000, 2000000000, 3⟩ [1]
    (scriptEnv (recordScript 19000000000 ⟨"a", 15, 1000000000, 2000000000, 3⟩ [1] []))
    _ _ 19000000000 rfl rfl (by decide) (by decide) (by decide) (by decide) (by decide) rfl
    (by decide) rfl rfl (by decide)
  exact ⟨by rw [h.1], by rw [h.2.2.1]⟩

/-- C10, witness: the fresh elector "b" creates the record at 7 s. -/
theorem tryAcquireOrRenew_cold_start_witness :
    freshB.tryAcquireOrRenew (scriptEnv (emptyScript 7000000000))
      = (true, { freshB with observedRecord := ⟨"b", 15, 7000000000, 7000000000, 0⟩,
                             observedTime := 7000000000 },
          { st := emptyScript 7000000000,
            calls := [Call.now, Call.get, Call.create ⟨"b", 15, 7000000000, 7000000000, 0⟩,
              Call.now] }) :=
  have hNew : NewLeaderElector scriptClock globalMetricsFactory
      (scriptConfig "b" 15000000000 (15000000000 - 1) 1) (scriptEnv (emptyScript 0))
      = (.ok freshB, { st := emptyScript 0, calls := [Call.leaderOff "lock"] }) := rfl
  ((tryAcquireOrRenew_cold_start scriptClock globalMetricsFactory
    (scriptConfig "b" 15000000000 (15000000000 - 1) 1) (scriptEnv (emptyScript 0))
    { st := emptyScript 0, calls := [Call.leaderOff "lock"] } freshB
    (scriptEnv (emptyScript 7000000000)) _ _ 7000000000
    ⟨"b", 15, 7000000000, 7000000000, 0⟩ hNew rfl rfl (by decide)).1 _ _ 7000000000 rfl rfl).1

theorem lock_eq_of_config {σ : Type} (le : LeaderElector σ) (l : Interface σ)
    (h : le.config.Lock = some l) : le.lock = l := by
  unfold LeaderElector.lock
  simp [h]

theorem lock_of_config_eq {σ : Type} (le le' : LeaderElector σ) (h : le'.config = le.config) :
    le'.lock = le.lock := by
  apply lock_eq_of_config
  rw [h]
  simp [LeaderElector.lock]

theorem IsLeader_iff {σ : Type} (le : LeaderElector σ) :
    le.IsLeader = true ↔ le.observedRecord.HolderIdentity = le.lock.Identity := by
  simp [LeaderElector.IsLeader, LeaderElector.getObservedRecord]

theorem isLeaseValid_iff {σ : Type} (le : LeaderElector σ) (now : Int) :
    le.isLeaseValid now = true
      ↔ now < le.observedTime + secondsDuration le.observedRecord.LeaseDurationSeconds := by
  simp [LeaderElector.isLeaseValid, LeaderElector.getObservedRecord]

/-! ## The system of N electors -/

theorem callNow_store {N : Nat} (env : Env (Store N)) :
    callNow storeClock env = (env.st.now, { st := env.st, calls := env.calls ++ [Call.now] }) :=
  rfl

theorem callGet_cas_none {N : Nat} (encode : LeaderElectionRecord → Bytes) (i : Fin N)
    (id : String) (env : Env (Store N)) (h : env.st.record = none) :
    callGet (casLock encode i id) env
      = (.error .notFound, { st := env.st, calls := env.calls ++ [Call.get] }) := by
  simp [callGet, casLock, h]

theorem callGet_cas_some {N : Nat} (encode : LeaderElectionRecord → Bytes) (i : Fin N)
    (id : String) (env : Env (Store N)) (r : LeaderElectionRecord) (v : Nat)
    (h : env.st.record = some (r, v)) :
    callGet (casLock encode i id) env
      = (.ok (r, encode r),
          { st := { env.st with seen := Function.update env.st.seen i (some v) },
            calls := env.calls ++ [Call.get] }) := by
  simp [callGet, casLock, h]

theorem callCreate_cas_none {N : Nat} (encode : LeaderElectionRecord → Bytes) (i : Fin N)
    (id : String) (ler : LeaderElectionRecord) (env : Env (Store N))
    (h : env.st.record = none) :
    callCreate (casLock encode i id) ler env
      = (none, { st := { env.st with record := some (ler, 0),
                                     seen := Function.update env.st.seen i (some 0) },
                 calls := env.calls ++ [Call.create ler] }) := by
  simp [callCreate, casLock, h]

theorem callUpdate_cas_seen {N : Nat} (encode : LeaderElectionRecord → Bytes) (i : Fin N)
    (id : String) (ler r : LeaderElectionRecord) (v : Nat) (env : Env (Store N))
    (h : env.st.record = some (r, v)) (hs : env.st.seen i = some v) :
    callUpdate (casLock encode i id) ler env
      = (none, { st := { env.st with record := some (ler, v + 1),
                                     seen := Function.update env.st.seen i (some (v + 1)) },
                 calls := env.calls ++ [Call.update ler] }) := by
  simp [callUpdate, casLock, h, hs]

theorem callUpdate_cas_fail {N : Nat} (encode : LeaderElectionRecord → Bytes) (i : Fin N)
    (id : String) (ler : LeaderElectionRecord) (env : Env (Store N))
    (h : ∀ r v, env.st.record = some (r, v) → env.st.seen i ≠ some v) :
    ∃ e, callUpdate (casLock encode i id) ler env
      = (some e, { st := env.st, calls := env.calls ++ [Call.update ler] }) := by
  unfold callUpdate casLock
  simp only []
  rcases hr : env.st.record with _ | ⟨r, v⟩
  · exact ⟨_, rfl⟩
  · simp only [if_neg (h r v hr)]
    exact ⟨_, rfl⟩

theorem observe_store {N : Nat} (le : LeaderElector (Store N)) (old : LeaderElectionRecord)
    (raw : Bytes) (env : Env (Store N)) (hClock : le.clock = storeClock) :
    (le.observe old raw env).2.st = env.st := by
  unfold LeaderElector.observe LeaderElector.setObservedRecord
  split_ifs
  · simp [hClock, callNow_store]
  · rfl

/-- The final `Update` of step 4 on the shared store succeeds: the `Get` just before it
refreshed the version this lock has seen. -/
theorem casWrite {N : Nat} (encode : LeaderElectionRecord → Bytes) (i : Fin N) (id : String)
    (le : LeaderElector (Store N)) (st1 : Store N) (calls : List Call)
    (ler r : LeaderElectionRecord) (raw : Bytes) (v : Nat)
    (hLock : le.lock = casLock encode i id) (hClock : le.clock = storeClock)
    (hMetrics : le.metrics = .noMetrics)
    (hrec : st1.record = some (r, v)) (hseen : st1.seen i = some v)
    (hCheck : ¬ (r.HolderIdentity ≠ ""
      ∧ (le.observe r raw { st := st1, calls := calls }).1.isLeaseValid st1.now = true
      ∧ (le.observe r raw { st := st1, calls := calls }).1.IsLeader = false)) :
    ∃ w calls',
      le.acquireOrRenewFrom st1.now ler r raw { st := st1, calls := calls }
        = (true, { (le.observe r raw { st := st1, calls := calls }).1 with
              observedRecord := w, observedTime := st1.now },
            { st := { st1 with record := some (w, v + 1),
                               seen := Function.update st1.seen i (some (v + 1)) },
              calls := calls' })
      ∧ w = (if (le.observe r raw { st := st1, calls := calls }).1.IsLeader = true
          then { ler with AcquireTime := r.AcquireTime, LeaderTransitions := r.LeaderTransitions }
          else { ler with LeaderTransitions := wrapInt64 (r.LeaderTransitions + 1) }) := by
  have hst := observe_store le r raw { st := st1, calls := calls } hClock
  simp only [] at hst
  generalize hw : (if (le.observe r raw { st := st1, calls := calls }).1.IsLeader = true
      then ({ ler with AcquireTime := r.AcquireTime,
                       LeaderTransitions := r.LeaderTransitions } : LeaderElectionRecord)
      else { ler with LeaderTransitions := wrapInt64 (r.LeaderTransitions + 1) }) = w
  generalize hU : (if (le.observe r raw { st := st1, calls := calls }).1.IsLeader = true
      then le.metrics.slowpathExercised le.config.Name
        (le.observe r raw { st := st1, calls := calls }).2
      else (le.observe r raw { st := st1, calls := calls }).2) = envU
  have hUst : envU.st = st1 := by
    rw [← hU]
    split_ifs
    · rw [hMetrics]; exact hst
    · exact hst
  have hUpd := callUpdate_cas_seen encode i id w r v envU (by rw [hUst]; exact hrec)
    (by rw [hUst]; exact hseen)
  rw [hUst] at hUpd
  refine ⟨w, envU.calls ++ [Call.update w] ++ [Call.now], ?_, rfl⟩
  rw [acquireOrRenewFrom_update le st1.now st1.now ler r w raw { st := st1, calls := calls }
    envU _ _ none hCheck hw.symm hU.symm (by rw [hLock]; exact hUpd)
    (by rw [hClock, callNow_store])]

/-- Steps 2 to 4 on the shared store, for a candidate record of elector `i`. -/
theorem casSlow {N : Nat} (encode : LeaderElectionRecord → Bytes) (i : Fin N) (id : String)
    (le : LeaderElector (Store N)) (st : Store N) (calls : List Call)
    (ler : LeaderElectionRecord)
    (hLock : le.lock = casLock encode i id) (hClock : le.clock = storeClock)
    (hMetrics : le.metrics = .noMetrics)
    (hH : ler.HolderIdentity = id)
    (hL : ler.LeaseDurationSeconds = Int.tdiv le.config.LeaseDuration Second)
    (hR : ler.RenewTime = st.now)
    (hT : ler.LeaderTransitions = 0 ∨ le.IsLeader = true) :
    CasOutcome encode i id le (le.obtainOrCreate st.now ler { st := st, calls := calls }).2.1
      st (le.obtainOrCreate st.now ler { st := st, calls := calls }).2.2.st := by
  rcases hrec : st.record with _ | ⟨r, v⟩
  · -- the key is absent: create
    have hG := callGet_cas_none encode i id { st := st, calls := calls } hrec
    have hC := callCreate_cas_none encode i id ler
      { st := st, calls := calls ++ [Call.get] } hrec
    have hres : le.obtainOrCreate st.now ler { st := st, calls := calls }
        = (true, { le with observedRecord := ler, observedTime := st.now },
            { st := { st with record := some (ler, 0),
                              seen := Function.update st.seen i (some 0) },
              calls := calls ++ [Call.get] ++ [Call.create ler] ++ [Call.now] }) := by
      simp only [LeaderElector.obtainOrCreate, hLock, hG, hC, LeaderElector.setObservedRecord,
        hClock, callNow_store]
      simp
    rw [hres]
    refine ⟨rfl, rfl, rfl, rfl, fun j hj => ?_, Or.inr (Or.inr ⟨ler, hrec, rfl, by simp,
      rfl, rfl, rfl, hH, hL, hR, hT⟩)⟩
    simp [Function.update_noteq hj]
  · -- the key is present: read it
    have hG := callGet_cas_some encode i id { st := st, calls := calls } r v hrec
    have hO : le.obtainOrCreate st.now ler { st := st, calls := calls }
        = le.acquireOrRenewFrom st.now ler r (encode r)
            { st := { st with seen := Function.update st.seen i (some v) },
              calls := calls ++ [Call.get] } := by
      simp only [LeaderElector.obtainOrCreate, hLock, hG]
    rw [hO]
    generalize hst1 : ({ st with seen := Function.update st.seen i (some v) } : Store N) = st1
    have hst1r : st1.record = some (r, v) := by rw [← hst1]; exact hrec
    have hst1s : st1.seen i = some v := by rw [← hst1]; simp
    have hst1n : st1.now = st.now := by rw [← hst1]
    have hseen : ∀ j, j ≠ i → st1.seen j = st.seen j := by
      intro j hj; rw [← hst1]; simp [Function.update_noteq hj]
    by_cases hRaw : le.observedRawRecord = encode r
    · -- the raw bytes are the observed ones
      have hObs := observe_same le r (encode r)
        { st := st1, calls := calls ++ [Call.get] } hRaw
      by_cases hHeld : r.HolderIdentity ≠ "" ∧ le.isLeaseValid st.now = true
          ∧ le.IsLeader = false
      · rw [acquireOrRenewFrom_held le st.now ler r (encode r) _ hHeld.1
          (by rw [hObs]; exact hHeld.2.1) (by rw [hObs]; exact hHeld.2.2), hObs]
        exact ⟨rfl, rfl, rfl, hst1n, hseen, Or.inl ⟨r, v, hrec, hst1r, hst1s, hRaw,
          fun _ => ⟨rfl, rfl⟩, fun h => absurd hRaw h, hHeld.2.2, hHeld.2.1⟩⟩
      · obtain ⟨w, calls', hres, hw⟩ := casWrite encode i id le st1 (calls ++ [Call.get]) ler r
          (encode r) v hLock hClock hMetrics hst1r hst1s (by rw [hObs, hst1n]; exact hHeld)
        rw [hst1n] at hres
        rw [hres, hObs]
        rw [hObs] at hw
        simp only [] at hw
        refine ⟨rfl, rfl, rfl, rfl, fun j hj => ?_, Or.inr (Or.inl ⟨r, v, w, hrec, rfl, by simp,
          rfl, rfl, ?_, ?_, ?_, Or.inr ⟨hRaw, Or.inr ⟨hRaw, hHeld, ?_⟩⟩⟩)⟩
        · simp [Function.update_noteq hj, hseen j hj]
        · rw [hw]; split_ifs <;> exact hH
        · rw [hw]; split_ifs <;> exact hL
        · rw [hw]; split_ifs <;> exact hR
        · by_cases hLd : le.IsLeader = true
          · left; rw [hw, if_pos hLd]; exact ⟨hLd, rfl, rfl⟩
          · right; rw [hw, if_neg hLd]; exact ⟨by simpa using hLd, rfl⟩
    · -- the raw bytes differ: the record read is installed
      have hObs := observe_changed le r (encode r)
        { st := st1, calls := calls ++ [Call.get] } _ _ hRaw
        (by rw [hClock, callNow_store])
      simp only [] at hObs
      set le3 : LeaderElector (Store N) :=
        { le with observedRecord := r, observedTime := st1.now, observedRawRecord := encode r }
        with hle3
      have hLd3 : ∀ b, le3.IsLeader = b ↔ (r.HolderIdentity == id) = b := by
        intro b
        simp only [LeaderElector.IsLeader, LeaderElector.getObservedRecord]
        rw [show le3.lock = le.lock from rfl, hLock]
        rfl
      have hV3 : le3.isLeaseValid st.now = true
          ↔ 0 < secondsDuration r.LeaseDurationSeconds := by
        simp only [hle3, LeaderElector.isLeaseValid, LeaderElector.getObservedRecord, hst1n,
          decide_eq_true_eq]
        omega
      by_cases hHeld : r.HolderIdentity ≠ "" ∧ 0 < secondsDuration r.LeaseDurationSeconds
          ∧ r.HolderIdentity ≠ id
      · rw [acquireOrRenewFrom_held le st.now ler r (encode r) _ hHeld.1
          (by rw [hObs]; exact hV3.2 hHeld.2.1)
          (by rw [hObs]; exact (hLd3 false).2 (by simpa using hHeld.2.2)), hObs]
        exact ⟨rfl, rfl, rfl, hst1n, hseen, Or.inl ⟨r, v, hrec, hst1r, hst1s, rfl,
          fun h => absurd h hRaw, fun _ => ⟨rfl, hst1n⟩,
          (hLd3 false).2 (by simpa using hHeld.2.2), hV3.2 hHeld.2.1⟩⟩
      · obtain ⟨w, calls', hres, hw⟩ := casWrite encode i id le st1 (calls ++ [Call.get]) ler r
          (encode r) v hLock hClock hMetrics hst1r hst1s (by
            rw [hObs, hst1n]
            rintro ⟨h1, h2, h3⟩
            exact hHeld ⟨h1, hV3.1 h2, by simpa using (hLd3 false).1 h3⟩)
        rw [hst1n] at hres
        rw [hres, hObs]
        rw [hObs] at hw
        simp only [] at hw
        refine ⟨rfl, rfl, rfl, rfl, fun j hj => ?_, Or.inr (Or.inl ⟨r, v, w, hrec, rfl, by simp,
          rfl, rfl, ?_, ?_, ?_, Or.inr ⟨rfl, Or.inl ⟨hRaw, hHeld, ?_⟩⟩⟩)⟩
        · simp [Function.update_noteq hj, hseen j hj]
        · rw [hw]; split_ifs <;> exact hH
        · rw [hw]; split_ifs <;> exact hL
        · rw [hw]; split_ifs <;> exact hR
        · by_cases hLd : r.HolderIdentity = id
          · left
            rw [hw, if_pos ((hLd3 true).2 (by simpa using hLd))]
            exact ⟨hLd, rfl, rfl⟩
          · right
            rw [hw, if_neg (by rw [(hLd3 true)]; simpa using hLd)]
            exact ⟨hLd, rfl⟩

/-- One call of `tryAcquireOrRenew` on the shared store. -/
theorem casStep {N : Nat} (encode : LeaderElectionRecord → Bytes) (i : Fin N) (id : String)
    (le : LeaderElector (Store N)) (st : Store N) (calls : List Call)
    (hLock : le.lock = casLock encode i id) (hClock : le.clock = storeClock)
    (hMetrics : le.metrics = .noMetrics) :
    CasOutcome encode i id le (le.tryAcquireOrRenew { st := st, calls := calls }).2.1
      st (le.tryAcquireOrRenew { st := st, calls := calls }).2.2.st := by
  have hNow : callNow le.clock { st := st, calls := calls }
      = (st.now, { st := st, calls := calls ++ [Call.now] }) := by
    rw [hClock, callNow_store]
  have hId : le.lock.Identity = id := by rw [hLock]; rfl
  by_cases hF : le.IsLeader = true ∧ le.isLeaseValid st.now = true
  · by_cases hCas : ∃ r v, st.record = some (r, v) ∧ st.seen i = some v
    · obtain ⟨r, v, hrec, hseen⟩ := hCas
      have hU := callUpdate_cas_seen encode i id
        { HolderIdentity := le.lock.Identity
          LeaseDurationSeconds := Int.tdiv le.config.LeaseDuration Second
          RenewTime := st.now
          AcquireTime := le.observedRecord.AcquireTime
          LeaderTransitions := le.observedRecord.LeaderTransitions } r v
        { st := st, calls := calls ++ [Call.now] } hrec hseen
      rw [← hLock] at hU
      have hres := fastPath_renewed le _ _ _ _ st.now st.now _ hNow hF.1 hF.2 rfl hU
        (by rw [hClock, callNow_store])
      simp only [LeaderElector.tryAcquireOrRenew, hres]
      refine ⟨rfl, rfl, rfl, rfl, fun j hj => ?_, Or.inr (Or.inl ⟨r, v, _, hrec, rfl, by simp,
        rfl, rfl, hId, rfl, rfl, Or.inl ⟨hF.1, hF.2, rfl, rfl, rfl⟩⟩)⟩
      simp [Function.update_noteq hj]
    · obtain ⟨e, hU⟩ := callUpdate_cas_fail encode i id
        { HolderIdentity := le.lock.Identity
          LeaseDurationSeconds := Int.tdiv le.config.LeaseDuration Second
          RenewTime := st.now
          AcquireTime := le.observedRecord.AcquireTime
          LeaderTransitions := le.observedRecord.LeaderTransitions }
        { st := st, calls := calls ++ [Call.now] }
        (fun r v hr hs => hCas ⟨r, v, hr, hs⟩)
      rw [← hLock] at hU
      have hres := fastPath_failed le _ _ _ st.now _ e hNow hF.1 hF.2 rfl hU
      simp only [LeaderElector.tryAcquireOrRenew, hres]
      exact casSlow encode i id le st _ _ hLock hClock hMetrics hId rfl rfl (Or.inr hF.1)
  · have hres := fastPath_skip le _ _ st.now hNow hF
    simp only [LeaderElector.tryAcquireOrRenew, hres]
    exact casSlow encode i id le st _ _ hLock hClock hMetrics hId rfl rfl (Or.inl rfl)

/-- The call `release` on the shared store. -/
theorem casRelease {N : Nat} (encode : LeaderElectionRecord → Bytes) (i : Fin N) (id : String)
    (le : LeaderElector (Store N)) (st : Store N) (calls : List Call)
    (hLock : le.lock = casLock encode i id) (hClock : le.clock = storeClock) :
    CasReleased i le (le.release { st := st, calls := calls }).2.1 st
      (le.release { st := st, calls := calls }).2.2.st := by
  by_cases hL : le.IsLeader = false
  · left
    unfold LeaderElector.release
    rw [if_pos hL]
    exact ⟨rfl, rfl⟩
  · by_cases hCas : ∃ r v, st.record = some (r, v) ∧ st.seen i = some v
    · obtain ⟨r, v, hrec, hseen⟩ := hCas
      right
      have hres : le.release { st := st, calls := calls }
          = (true,
              { le with
                observedRecord := ⟨"", 1, st.now, st.now, le.observedRecord.LeaderTransitions⟩
                observedTime := st.now },
              { st := { st with
                  record := some (⟨"", 1, st.now, st.now,
                    le.observedRecord.LeaderTransitions⟩, v + 1)
                  seen := Function.update st.seen i (some (v + 1)) },
                calls := calls ++ [Call.now]
                  ++ [Call.update ⟨"", 1, st.now, st.now, le.observedRecord.LeaderTransitions⟩]
                  ++ [Call.now] }) := by
        unfold LeaderElector.release
        rw [if_neg hL]
        simp only [hClock, callNow_store, hLock]
        rw [callUpdate_cas_seen encode i id _ r v _ hrec hseen]
        simp only [LeaderElector.setObservedRecord, hClock, callNow_store]
      rw [hres]
      exact ⟨rfl, rfl, rfl, rfl, fun j hj => by simp [Function.update_noteq hj],
        by simpa using hL, r, v, hrec, hseen, rfl, by simp, rfl, rfl, rfl⟩
    · left
      obtain ⟨e, hU⟩ := callUpdate_cas_fail encode i id
        ⟨"", 1, st.now, st.now, le.observedRecord.LeaderTransitions⟩
        { st := st, calls := calls ++ [Call.now] } (fun r v hr hs => hCas ⟨r, v, hr, hs⟩)
      unfold LeaderElector.release
      rw [if_neg hL]
      simp only [hClock, callNow_store, hLock]
      rw [hU]
      exact ⟨rfl, rfl⟩

/-- An elector that leads observes a record of its own. -/
theorem SysInv.holder_of_leader {N : Nat} {encode : LeaderElectionRecord → Bytes}
    {ident : Fin N → String} {sys : System N}
    (h : SysInv encode ident sys) (j : Fin N) :
    (sys.electors j).IsLeader = true
      ↔ (sys.electors j).observedRecord.HolderIdentity = ident j := by
  rw [IsLeader_iff, h.lock j]
  rfl

/-- A record with a holder is not the zero record. -/
theorem ne_zeroRecord_of_holder (r : LeaderElectionRecord) (h : r.HolderIdentity ≠ "") :
    r ≠ zeroRecord := by
  rintro rfl
  exact h rfl

/-- While another elector leads, an elector does not write over the stored record. -/
theorem SysInv.write_excludes {N : Nat} {encode : LeaderElectionRecord → Bytes}
    {ident : Fin N → String} {sys : System N}
    (h : SysInv encode ident sys) (hEnc : Function.Injective encode)
    (hEnc0 : ∀ r, encode r ≠ []) (hIdent : Function.Injective ident)
    (hNe : ∀ k, ident k ≠ "")
    (i : Fin N) (r w : LeaderElectionRecord) (v : Nat) (raw : Bytes)
    (hrec : sys.store.record = some (r, v))
    (hW : CasWrite encode (ident i) (sys.electors i) raw sys.store r w)
    (j : Fin N) (hji : j ≠ i) : ¬ sys.leads j := by
  intro hj
  obtain ⟨v', hv'⟩ := h.leader j hj
  rw [hrec] at hv'
  have hrj : r = (sys.electors j).observedRecord := (Prod.mk.inj (Option.some.inj hv')).1
  have hjH : r.HolderIdentity = ident j := by rw [hrj]; exact (h.holder_of_leader j).1 hj.1
  have hjT : (sys.electors j).observedTime = r.RenewTime := by
    rw [hrj]; exact h.own j (by rw [← hrj]; exact hjH)
  have hjV : sys.store.now
      < (sys.electors j).observedTime + secondsDuration r.LeaseDurationSeconds := by
    rw [hrj]; exact (isLeaseValid_iff _ _).1 hj.2
  have hrR := (h.stored _ v hrec).1
  have hne : r.HolderIdentity ≠ ident i := by
    rw [hjH]; exact fun e => hji (hIdent e)
  have hrne : r.HolderIdentity ≠ "" := by rw [hjH]; exact hNe j
  rcases hW with ⟨hL, hV, -⟩ | ⟨-, ⟨-, hC, -⟩ | ⟨hraw, hC, -⟩⟩
  · obtain ⟨v'', hv''⟩ := h.leader i ⟨hL, hV⟩
    rw [hrec] at hv''
    have hri : r = (sys.electors i).observedRecord := (Prod.mk.inj (Option.some.inj hv'')).1
    exact hne (by rw [hri]; exact (h.holder_of_leader i).1 hL)
  · refine hC ⟨hrne, ?_, hne⟩
    omega
  · obtain ⟨hz, q, hq, hc⟩ := h.raw i (by rw [hraw]; exact hEnc0 r)
    have hqr : q = r := hEnc (hq.symm.trans hraw)
    subst hqr
    obtain ⟨hT1, hT2, -⟩ := h.touched i hz
    rcases hc with ho | hh | hh | he
    · refine hC ⟨hrne, ?_, ?_⟩
      · rw [isLeaseValid_iff, ho]
        rw [ho] at hT1
        omega
      · have : ¬ (sys.electors i).IsLeader = true := by
          rw [h.holder_of_leader i, ho]; exact hne
        simpa using this
    · exact hne hh
    · exact hrne hh
    · omega

/-- The invariant is kept by a call of `tryAcquireOrRenew`. -/
theorem SysInv.step_call {N : Nat} {encode : LeaderElectionRecord → Bytes}
    {ident : Fin N → String} {sys : System N}
    (h : SysInv encode ident sys) (hEnc : Function.Injective encode)
    (hEnc0 : ∀ r, encode r ≠ []) (hIdent : Function.Injective ident)
    (hNe : ∀ k, ident k ≠ "") (i : Fin N) :
    SysInv encode ident (sys.step (.call i)) := by
  have hO := casStep encode i (ident i) (sys.electors i) sys.store [] (h.lock i) (h.clock i)
    (h.metrics i)
  generalize hle' : ((sys.electors i).tryAcquireOrRenew { st := sys.store, calls := [] }).2.1
    = le' at hO
  generalize hst' : ((sys.electors i).tryAcquireOrRenew { st := sys.store, calls := [] }).2.2.st
    = st' at hO
  have hE : (sys.step (.call i)).electors = Function.update sys.electors i le' := by
    rw [← hle']; rfl
  have hS : (sys.step (.call i)).store = st' := by rw [← hst']; rfl
  have hEi : (sys.step (.call i)).electors i = le' := by rw [hE]; simp
  have hEj : ∀ j, j ≠ i → (sys.step (.call i)).electors j = sys.electors j := by
    intro j hj; rw [hE]; simp [hj]
  obtain ⟨hcfg, hclk, hmet, hnow, hseen, hcase⟩ := hO
  have hlock' : le'.lock = casLock encode i (ident i) := by
    rw [lock_of_config_eq _ _ hcfg]; exact h.lock i
  have hLd' : le'.IsLeader = true ↔ le'.observedRecord.HolderIdentity = ident i := by
    rw [IsLeader_iff, hlock']; rfl
  have hLdj : ∀ j, (sys.electors j).IsLeader = true
      ↔ (sys.electors j).observedRecord.HolderIdentity = ident j := h.holder_of_leader
  have hleads : ∀ j, j ≠ i → ((sys.step (.call i)).leads j ↔ sys.leads j) := by
    intro j hj
    unfold System.leads
    rw [hEj j hj, hS, hnow]
  have hstatic : (∀ j, ((sys.step (.call i)).electors j).lock = casLock encode j (ident j))
      ∧ (∀ j, ((sys.step (.call i)).electors j).clock = storeClock)
      ∧ (∀ j, ((sys.step (.call i)).electors j).metrics = .noMetrics) := by
    refine ⟨fun j => ?_, fun j => ?_, fun j => ?_⟩ <;>
      by_cases hj : j = i
    · subst hj; rw [hEi]; exact hlock'
    · rw [hEj j hj]; exact h.lock j
    · subst hj; rw [hEi, hclk]; exact h.clock j
    · rw [hEj j hj]; exact h.clock j
    · subst hj; rw [hEi, hmet]; exact h.metrics j
    · rw [hEj j hj]; exact h.metrics j
  obtain ⟨hs1, hs2, hs3⟩ := hstatic
  rcases hcase with ⟨r, v, hrec, hrec', hsi, hraw', hsame, hdiff, hnl, hval⟩
    | ⟨r, v, w, hrec, hrec', hsi, ho', hT', hwH, hwL, hwR, hW⟩
    | ⟨w, hrec, hrec', hsi, ho', hT', hraw', hwH, hwL, hwR, hwT⟩
  · -- nothing is written
    obtain ⟨hrR, hrz⟩ := h.stored r v hrec
    refine ⟨hs1, hs2, hs3, ?_, ?_, ?_, ?_, ?_, ?_, ?_, ?_⟩
    · intro r1 v1 h1
      rw [hS, hrec', ← hrec] at h1
      rw [hS, hnow]
      exact h.stored r1 v1 h1
    · intro j hne
      by_cases hj : j = i
      · subst hj
        rw [hEi] at hne ⊢
        rw [hS, hrec', hnow]
        by_cases hraw : (sys.electors j).observedRawRecord = encode r
        · rw [(hsame hraw).1] at hne ⊢
          rw [(hsame hraw).2]
          obtain ⟨t1, t2, -⟩ := h.touched j hne
          exact ⟨t1, t2, by simp⟩
        · rw [(hdiff hraw).1, (hdiff hraw).2]
          exact ⟨hrR, le_refl _, by simp⟩
      · rw [hEj j hj] at hne ⊢
        rw [hS, hrec', hnow, ← hrec]
        exact h.touched j hne
    · intro j hne
      by_cases hj : j = i
      · subst hj
        rw [hEi] at hne ⊢
        by_cases hraw : (sys.electors j).observedRawRecord = encode r
        · obtain ⟨hz, q, hq, hc⟩ := h.raw j (by rw [hraw]; exact hEnc0 r)
          rw [(hsame hraw).1]
          exact ⟨hz, q, hraw'.trans (hraw.symm.trans hq), hc⟩
        · rw [(hdiff hraw).1]
          exact ⟨hrz, r, hraw', Or.inl rfl⟩
      · rw [hEj j hj] at hne ⊢
        exact h.raw j hne
    · intro j hown
      by_cases hj : j = i
      · subst hj
        rw [hEi] at hown
        rw [hLd'.2 hown] at hnl
        exact absurd hnl (by decide)
      · rw [hEj j hj] at hown ⊢
        exact h.own j hown
    · intro j hl
      by_cases hj : j = i
      · subst hj
        have := hl.1
        rw [hEi, hnl] at this
        exact absurd this (by decide)
      · obtain ⟨v1, hv1⟩ := h.leader j ((hleads j hj).1 hl)
        rw [hEj j hj, hS, hrec', ← hrec]
        exact ⟨v1, hv1⟩
    · intro j r1 v1 h1 hh
      rw [hS, hrec'] at h1
      have e1 : r = r1 := (Prod.mk.inj (Option.some.inj h1)).1
      subst e1
      by_cases hj : j = i
      · subst hj
        rw [hEi]
        by_cases hraw : (sys.electors j).observedRawRecord = encode r
        · rw [(hsame hraw).1]; exact h.holder j r v hrec hh
        · exact (hdiff hraw).1
      · rw [hEj j hj]
        exact h.holder j r v hrec hh
    · intro j u hu
      rw [hS] at hu ⊢
      by_cases hj : j = i
      · subst hj
        rw [hsi] at hu
        exact ⟨r, v, hrec', by cases hu; exact le_rfl⟩
      · rw [hseen j hj] at hu
        rw [hrec', ← hrec]
        exact h.seenLe j u hu
    · intro j r1 v1 h1 hu hl
      rw [hS] at h1 hu
      rw [hrec'] at h1
      have e1 : r = r1 := (Prod.mk.inj (Option.some.inj h1)).1
      have e2 : v = v1 := (Prod.mk.inj (Option.some.inj h1)).2
      subst e1 e2
      by_cases hj : j = i
      · subst hj
        rw [hEi, hnl] at hl
        exact absurd hl (by decide)
      · rw [hEj j hj] at hl ⊢
        rw [hseen j hj] at hu
        exact h.seenLeader j r v hrec hu hl
  · -- the stored record is replaced
    have hX := h.write_excludes hEnc hEnc0 hIdent hNe i r w v _ hrec hW
    obtain ⟨hrR, hrz⟩ := h.stored r v hrec
    have hwne : w.HolderIdentity ≠ "" := by rw [hwH]; exact hNe i
    have hwz : w ≠ zeroRecord := ne_zeroRecord_of_holder w hwne
    refine ⟨hs1, hs2, hs3, ?_, ?_, ?_, ?_, ?_, ?_, ?_, ?_⟩
    · intro r1 v1 h1
      rw [hS, hrec'] at h1
      have e : w = r1 := (Prod.mk.inj (Option.some.inj h1)).1
      subst e
      rw [hS, hnow]
      exact ⟨le_of_eq hwR, hwz⟩
    · intro j hne
      by_cases hj : j = i
      · subst hj
        rw [hEi, hS, hrec', ho', hT', hnow, hwR]
        exact ⟨le_refl _, le_refl _, by simp⟩
      · rw [hEj j hj] at hne ⊢
        obtain ⟨t1, t2, -⟩ := h.touched j hne
        rw [hS, hrec', hnow]
        exact ⟨t1, t2, by simp⟩
    · intro j hne
      by_cases hj : j = i
      · subst hj
        rw [hEi] at hne ⊢
        rw [ho']
        refine ⟨hwz, ?_⟩
        rcases hW with ⟨hL, hV, -, -, hraw⟩ | ⟨hraw, ⟨-, hC, -⟩ | ⟨hraw0, hC, -⟩⟩
        · rw [hraw] at hne ⊢
          obtain ⟨hz, q, hq, hc⟩ := h.raw j hne
          obtain ⟨t1, t2, -⟩ := h.touched j hz
          refine ⟨q, hq, ?_⟩
          rcases hc with ho | hh | hh | he
          · exact Or.inr (Or.inl (by rw [← ho]; exact (hLdj j).1 hL))
          · exact Or.inr (Or.inl hh)
          · exact Or.inr (Or.inr (Or.inl hh))
          · exact Or.inr (Or.inr (Or.inr (by rw [hwR]; omega)))
        · refine ⟨r, hraw, ?_⟩
          by_cases h1 : r.HolderIdentity = ""
          · exact Or.inr (Or.inr (Or.inl h1))
          by_cases h2 : r.HolderIdentity = ident j
          · exact Or.inr (Or.inl h2)
          have h3 : ¬ 0 < secondsDuration r.LeaseDurationSeconds := fun h3 => hC ⟨h1, h3, h2⟩
          exact Or.inr (Or.inr (Or.inr (by rw [hwR]; omega)))
        · refine ⟨r, hraw, ?_⟩
          obtain ⟨hz, q, hq, hc⟩ := h.raw j (by rw [hraw0]; exact hEnc0 r)
          have hqr : q = r := hEnc (hq.symm.trans hraw0)
          subst hqr
          obtain ⟨t1, t2, -⟩ := h.touched j hz
          by_cases h1 : q.HolderIdentity = ""
          · exact Or.inr (Or.inr (Or.inl h1))
          by_cases h2 : q.HolderIdentity = ident j
          · exact Or.inr (Or.inl h2)
          rcases hc with ho | hh | hh | he
          · have hnl : (sys.electors j).IsLeader = false := by
              have : ¬ (sys.electors j).IsLeader = true := by
                rw [hLdj j, ho]; exact h2
              simpa using this
            have hnv : ¬ (sys.electors j).isLeaseValid sys.store.now = true :=
              fun hv => hC ⟨h1, hv, hnl⟩
            rw [isLeaseValid_iff, ho] at hnv
            rw [ho] at t1
            exact Or.inr (Or.inr (Or.inr (by rw [hwR]; omega)))
          · exact absurd hh h2
          · exact absurd hh h1
          · exact Or.inr (Or.inr (Or.inr (by rw [hwR]; omega)))
      · rw [hEj j hj] at hne ⊢
        exact h.raw j hne
    · intro j hown
      by_cases hj : j = i
      · subst hj
        rw [hEi, hT', ho', hwR]
      · rw [hEj j hj] at hown ⊢
        exact h.own j hown
    · intro j hl
      by_cases hj : j = i
      · subst hj
        rw [hEi, hS, hrec', ho']
        exact ⟨v + 1, rfl⟩
      · exact absurd ((hleads j hj).1 hl) (hX j hj)
    · intro j r1 v1 h1 hh
      rw [hS, hrec'] at h1
      have e1 : w = r1 := (Prod.mk.inj (Option.some.inj h1)).1
      subst e1
      by_cases hj : j = i
      · subst hj; rw [hEi]; exact ho'
      · exact absurd (hIdent (hwH.symm.trans hh)) (fun e => hj e.symm)
    · intro j u hu
      rw [hS] at hu ⊢
      by_cases hj : j = i
      · subst hj
        rw [hsi] at hu
        exact ⟨w, v + 1, hrec', by cases hu; exact le_rfl⟩
      · rw [hseen j hj] at hu
        obtain ⟨r1, v1, h1, hle⟩ := h.seenLe j u hu
        rw [hrec] at h1
        have e2 : v = v1 := (Prod.mk.inj (Option.some.inj h1)).2
        exact ⟨w, v + 1, hrec', by omega⟩
    · intro j r1 v1 h1 hu hl
      rw [hS] at h1 hu
      rw [hrec'] at h1
      have e1 : w = r1 := (Prod.mk.inj (Option.some.inj h1)).1
      have e2 : v + 1 = v1 := (Prod.mk.inj (Option.some.inj h1)).2
      subst e1 e2
      by_cases hj : j = i
      · subst hj; rw [hEi]; exact ho'
      · rw [hseen j hj] at hu
        obtain ⟨r2, v2, h2, hle⟩ := h.seenLe j _ hu
        rw [hrec] at h2
        have e3 : v = v2 := (Prod.mk.inj (Option.some.inj h2)).2
        omega
  · -- the record is created
    have hzero : ∀ j, (sys.electors j).observedRecord = zeroRecord := by
      intro j
      by_contra hne
      obtain ⟨-, -, h1⟩ := h.touched j hne
      exact h1 hrec
    have hrawnone : ∀ j, (sys.electors j).observedRawRecord = [] := by
      intro j
      by_contra hne
      exact (h.raw j hne).1 (hzero j)
    have hseennone : ∀ j, sys.store.seen j = none := by
      intro j
      rcases hu : sys.store.seen j with _ | u
      · rfl
      · obtain ⟨_, _, h1, -⟩ := h.seenLe j u hu
        rw [hrec] at h1
        exact absurd h1 (by simp)
    have hwne : w.HolderIdentity ≠ "" := by rw [hwH]; exact hNe i
    have hwz : w ≠ zeroRecord := ne_zeroRecord_of_holder w hwne
    refine ⟨hs1, hs2, hs3, ?_, ?_, ?_, ?_, ?_, ?_, ?_, ?_⟩
    · intro r1 v1 h1
      rw [hS, hrec'] at h1
      have e : w = r1 := (Prod.mk.inj (Option.some.inj h1)).1
      subst e
      rw [hS, hnow]
      exact ⟨le_of_eq hwR, hwz⟩
    · intro j hne
      by_cases hj : j = i
      · subst hj
        rw [hEi, hS, hrec', ho', hT', hnow, hwR]
        exact ⟨le_refl _, le_refl _, by simp⟩
      · rw [hEj j hj] at hne
        exact absurd (hzero j) hne
    · intro j hne
      by_cases hj : j = i
      · subst hj
        rw [hEi, hraw'] at hne
        exact absurd (hrawnone j) hne
      · rw [hEj j hj] at hne
        exact absurd (hrawnone j) hne
    · intro j hown
      by_cases hj : j = i
      · subst hj
        rw [hEi, hT', ho', hwR]
      · rw [hEj j hj, hzero j] at hown
        exact absurd hown.symm (hNe j)
    · intro j hl
      by_cases hj : j = i
      · subst hj
        rw [hEi, hS, hrec', ho']
        exact ⟨0, rfl⟩
      · have := ((hleads j hj).1 hl).1
        rw [hLdj j, hzero j] at this
        exact absurd this.symm (hNe j)
    · intro j r1 v1 h1 hh
      rw [hS, hrec'] at h1
      have e1 : w = r1 := (Prod.mk.inj (Option.some.inj h1)).1
      subst e1
      by_cases hj : j = i
      · subst hj; rw [hEi]; exact ho'
      · exact absurd (hIdent (hwH.symm.trans hh)) (fun e => hj e.symm)
    · intro j u hu
      rw [hS] at hu ⊢
      by_cases hj : j = i
      · subst hj
        rw [hsi] at hu
        exact ⟨w, 0, hrec', by cases hu; exact le_rfl⟩
      · rw [hseen j hj, hseennone j] at hu
        exact absurd hu (by simp)
    · intro j r1 v1 h1 hu hl
      rw [hS] at h1 hu
      rw [hrec'] at h1
      have e1 : w = r1 := (Prod.mk.inj (Option.some.inj h1)).1
      subst e1
      by_cases hj : j = i
      · subst hj; rw [hEi]; exact ho'
      · rw [hseen j hj, hseennone j] at hu
        exact absurd hu (by simp)

/-- The invariant is kept when the clock advances. -/
theorem SysInv.step_tick {N : Nat} {encode : LeaderElectionRecord → Bytes}
    {ident : Fin N → String} {sys : System N}
    (h : SysInv encode ident sys) (d : Nat) :
    SysInv encode ident (sys.step (.tick d)) := by
  have hnow : (sys.step (.tick d)).store.now = sys.store.now + d := rfl
  refine ⟨h.lock, h.clock, h.metrics, ?_, ?_, h.raw, h.own, ?_, h.holder, h.seenLe,
    h.seenLeader⟩
  · intro r v hr
    obtain ⟨h1, h2⟩ := h.stored r v hr
    exact ⟨by rw [hnow]; omega, h2⟩
  · intro j hne
    have e : ((sys.step (.tick d)).electors j) = sys.electors j := rfl
    rw [e] at hne ⊢
    obtain ⟨t1, t2, t3⟩ := h.touched j hne
    exact ⟨t1, by rw [hnow]; omega, t3⟩
  · intro j hl
    refine h.leader j ⟨hl.1, ?_⟩
    have := (isLeaseValid_iff _ _).1 hl.2
    rw [hnow] at this
    rw [isLeaseValid_iff]
    show sys.store.now < (sys.electors j).observedTime
      + secondsDuration (sys.electors j).observedRecord.LeaseDurationSeconds
    have e : ((sys.step (.tick d)).electors j) = sys.electors j := rfl
    rw [e] at this
    omega

/-- The invariant is kept by a call of `release`. -/
theorem SysInv.move_release {N : Nat} {encode : LeaderElectionRecord → Bytes}
    {ident : Fin N → String} {sys : System N}
    (h : SysInv encode ident sys) (hIdent : Function.Injective ident)
    (hNe : ∀ k, ident k ≠ "") (i : Fin N) :
    SysInv encode ident (sys.move (.release i)) := by
  have hO := casRelease encode i (ident i) (sys.electors i) sys.store [] (h.lock i) (h.clock i)
  generalize hle' : ((sys.electors i).release { st := sys.store, calls := [] }).2.1 = le' at hO
  generalize hst' : ((sys.electors i).release { st := sys.store, calls := [] }).2.2.st
    = st' at hO
  have hE : (sys.move (.release i)).electors = Function.update sys.electors i le' := by
    rw [← hle']; rfl
  have hS : (sys.move (.release i)).store = st' := by rw [← hst']; rfl
  have hEi : (sys.move (.release i)).electors i = le' := by rw [hE]; simp
  have hEj : ∀ j, j ≠ i → (sys.move (.release i)).electors j = sys.electors j := by
    intro j hj; rw [hE]; simp [hj]
  rcases hO with ⟨h1, h2⟩
    | ⟨hcfg, hclk, hmet, hnow, hseen, hL, r, v, hrec, hsv, hrec', hsi, ho', hT', hraw'⟩
  · have hsys : sys.move (.release i)
        = { electors := Function.update sys.electors i le', store := st' } := by
      rw [← hle', ← hst']; rfl
    rw [hsys, h1, h2, Function.update_eq_self]
    exact h
  · have hLdj : ∀ j, (sys.electors j).IsLeader = true
        ↔ (sys.electors j).observedRecord.HolderIdentity = ident j := h.holder_of_leader
    have hlock' : le'.lock = casLock encode i (ident i) := by
      rw [lock_of_config_eq _ _ hcfg]; exact h.lock i
    have hLd' : le'.IsLeader = true ↔ le'.observedRecord.HolderIdentity = ident i := by
      rw [IsLeader_iff, hlock']; rfl
    have hnl' : ¬ le'.IsLeader = true := by
      rw [hLd', ho']
      exact fun e => hNe i e.symm
    have hoi : (sys.electors i).observedRecord = r := h.seenLeader i r v hrec hsv hL
    have hiz : (sys.electors i).observedRecord ≠ zeroRecord :=
      ne_zeroRecord_of_holder _ (by rw [(hLdj i).1 hL]; exact hNe i)
    obtain ⟨ti1, ti2, -⟩ := h.touched i hiz
    have hrelz : (⟨"", 1, sys.store.now, sys.store.now,
        (sys.electors i).observedRecord.LeaderTransitions⟩ : LeaderElectionRecord)
        ≠ zeroRecord := by
      intro e
      have := congrArg LeaderElectionRecord.LeaseDurationSeconds e
      simp [zeroRecord] at this
    have hleads : ∀ j, j ≠ i → ((sys.move (.release i)).leads j ↔ sys.leads j) := by
      intro j hj
      unfold System.leads
      rw [hEj j hj, hS, hnow]
    refine ⟨fun j => ?_, fun j => ?_, fun j => ?_, ?_, ?_, ?_, ?_, ?_, ?_, ?_, ?_⟩
    · by_cases hj : j = i
      · subst hj; rw [hEi]; exact hlock'
      · rw [hEj j hj]; exact h.lock j
    · by_cases hj : j = i
      · subst hj; rw [hEi, hclk]; exact h.clock j
      · rw [hEj j hj]; exact h.clock j
    · by_cases hj : j = i
      · subst hj; rw [hEi, hmet]; exact h.metrics j
      · rw [hEj j hj]; exact h.metrics j
    · intro r1 v1 h1
      rw [hS, hrec'] at h1
      have e := (Prod.mk.inj (Option.some.inj h1)).1
      subst e
      rw [hS, hnow]
      exact ⟨le_refl _, hrelz⟩
    · intro j hne
      by_cases hj : j = i
      · subst hj
        rw [hEi, hS, hrec', ho', hT', hnow]
        exact ⟨le_refl _, le_refl _, by simp⟩
      · rw [hEj j hj] at hne ⊢
        obtain ⟨t1, t2, -⟩ := h.touched j hne
        rw [hS, hrec', hnow]
        exact ⟨t1, t2, by simp⟩
    · intro j hne
      by_cases hj : j = i
      · subst hj
        rw [hEi] at hne ⊢
        rw [hraw'] at hne ⊢
        rw [ho']
        obtain ⟨hz, q, hq, hc⟩ := h.raw j hne
        refine ⟨hrelz, q, hq, ?_⟩
        rcases hc with ho | hh | hh | he
        · exact Or.inr (Or.inl (by rw [← ho]; exact (hLdj j).1 hL))
        · exact Or.inr (Or.inl hh)
        · exact Or.inr (Or.inr (Or.inl hh))
        · exact Or.inr (Or.inr (Or.inr (by show _ ≤ sys.store.now; omega)))
      · rw [hEj j hj] at hne ⊢
        exact h.raw j hne
    · intro j hown
      by_cases hj : j = i
      · subst hj
        rw [hEi, ho'] at hown
        exact absurd hown.symm (hNe j)
      · rw [hEj j hj] at hown ⊢
        exact h.own j hown
    · intro j hl
      by_cases hj : j = i
      · subst hj
        have := hl.1
        rw [hEi] at this
        exact absurd this hnl'
      · have hlj := (hleads j hj).1 hl
        obtain ⟨v1, hv1⟩ := h.leader j hlj
        rw [hrec] at hv1
        have e : r = (sys.electors j).observedRecord := (Prod.mk.inj (Option.some.inj hv1)).1
        have hjH := (hLdj j).1 hlj.1
        have hiH := (hLdj i).1 hL
        rw [hoi, e, hjH] at hiH
        exact absurd (hIdent hiH) hj
    · intro j r1 v1 h1 hh
      rw [hS, hrec'] at h1
      have e := (Prod.mk.inj (Option.some.inj h1)).1
      subst e
      exact absurd hh.symm (hNe j)
    · intro j u hu
      rw [hS] at hu ⊢
      by_cases hj : j = i
      · subst hj
        rw [hsi] at hu
        exact ⟨_, v + 1, hrec', by cases hu; exact le_rfl⟩
      · rw [hseen j hj] at hu
        obtain ⟨r1, v1, h1, hle⟩ := h.seenLe j u hu
        rw [hrec] at h1
        have e2 : v = v1 := (Prod.mk.inj (Option.some.inj h1)).2
        exact ⟨_, v + 1, hrec', by omega⟩
    · intro j r1 v1 h1 hu hl
      rw [hS] at h1 hu
      rw [hrec'] at h1
      have e2 : v + 1 = v1 := (Prod.mk.inj (Option.some.inj h1)).2
      subst e2
      by_cases hj : j = i
      · subst hj
        rw [hEi] at hl
        exact absurd hl hnl'
      · rw [hseen j hj] at hu
        obtain ⟨r2, v2, h2, hle⟩ := h.seenLe j _ hu
        rw [hrec] at h2
        have e3 : v = v2 := (Prod.mk.inj (Option.some.inj h2)).2
        omega

/-- The invariant is kept by every move. -/
theorem SysInv.move {N : Nat} {encode : LeaderElectionRecord → Bytes}
    {ident : Fin N → String} {sys : System N}
    (h : SysInv encode ident sys) (hEnc : Function.Injective encode)
    (hEnc0 : ∀ r, encode r ≠ []) (hIdent : Function.Injective ident)
    (hNe : ∀ k, ident k ≠ "") (m : Move N) : SysInv encode ident (sys.move m) := by
  cases m with
  | call i => exact h.step_call hEnc hEnc0 hIdent hNe i
  | tick d => exact h.step_tick d
  | release i => exact h.move_release hIdent hNe i

/-- The clock and the metrics adapter of a constructed elector. -/
theorem NewLeaderElector_collaborators {σ : Type} (realClock : Clock σ)
    (factory : leaderMetricsFactory σ) (lec : LeaderElectionConfig σ) (env env' : Env σ)
    (le : LeaderElector σ)
    (h : NewLeaderElector realClock factory lec env = (.ok le, env')) :
    le.clock = realClock ∧ le.metrics = factory.newLeaderMetrics := by
  unfold NewLeaderElector at h
  split_ifs at h with h1 h2 h3 h4 h5 h6 h7
  all_goals try (simp at h; done)
  split at h
  · simp at h
  · split_ifs at h with h8
    · simp at h
    · simp only [Prod.mk.injEq, Except.ok.injEq] at h
      obtain ⟨rfl, -⟩ := h
      exact ⟨rfl, rfl⟩

/-- The invariant holds before any step. -/
theorem SysInv.initial {N : Nat} (encode : LeaderElectionRecord → Bytes)
    (ident : Fin N → String) (lecs : Fin N → LeaderElectionConfig (Store N))
    (electors : Fin N → LeaderElector (Store N)) (env0 env1 : Fin N → Env (Store N)) (t0 : Int)
    (hLock : ∀ k, (lecs k).Lock = some (casLock encode k (ident k)))
    (hNew : ∀ k, NewLeaderElector storeClock globalMetricsFactory (lecs k) (env0 k)
      = (.ok (electors k), env1 k)) :
    SysInv encode ident (System.initial electors t0)
      ∧ (∀ k, ident k ≠ "")
      ∧ (∀ k, (electors k).observedRecord = zeroRecord
          ∧ (electors k).observedRawRecord = []) := by
  have hfacts := fun k => NewLeaderElector_ok _ _ _ _ _ _ (hNew k)
  have hcoll := fun k => NewLeaderElector_collaborators _ _ _ _ _ _ (hNew k)
  have hlock : ∀ k, (electors k).lock = casLock encode k (ident k) := fun k =>
    lock_eq_of_config _ _ (by rw [(hfacts k).1]; exact hLock k)
  have hNe : ∀ k, ident k ≠ "" := by
    intro k
    have := (hfacts k).2.2.2.2.2.1
    rw [hlock k] at this
    exact this
  have hzero : ∀ k, (electors k).observedRecord = zeroRecord := fun k => (hfacts k).2.1
  refine ⟨⟨hlock, fun k => (hcoll k).1, fun k => (hcoll k).2, ?_, ?_, ?_, ?_, ?_, ?_, ?_, ?_⟩,
    hNe, fun k => ⟨hzero k, (hfacts k).2.2.1⟩⟩
  · intro r v hr
    exact absurd hr (by simp [System.initial])
  · intro j hne
    exact absurd (hzero j) hne
  · intro j hne
    exact absurd (hfacts j).2.2.1 hne
  · intro j hown
    have : (electors j).observedRecord.HolderIdentity = "" := by rw [hzero j]; rfl
    exact absurd (this.symm.trans hown).symm (hNe j)
  · intro j hl
    have hld : (electors j).IsLeader = true := hl.1
    have := (IsLeader_iff _).1 hld
    rw [hlock j] at this
    have hz : (electors j).observedRecord.HolderIdentity = "" := by rw [hzero j]; rfl
    exact absurd ((hz.symm.trans this).symm) (hNe j)
  · intro j r v hr
    exact absurd hr (by simp [System.initial])
  · intro j u hu
    exact absurd hu (by simp [System.initial])
  · intro j r v hr
    exact absurd hr (by simp [System.initial])

/-- The invariant holds after every sequence of steps. -/
theorem SysInv.run {N : Nat} {encode : LeaderElectionRecord → Bytes}
    {ident : Fin N → String}
    (hEnc : Function.Injective encode) (hEnc0 : ∀ r, encode r ≠ [])
    (hIdent : Function.Injective ident) (hNe : ∀ k, ident k ≠ "") (steps : List (Step N)) :
    ∀ sys : System N, SysInv encode ident sys → SysInv encode ident (sys.run steps) := by
  induction steps with
  | nil => intro sys h; exact h
  | cons a rest ih =>
    intro sys h
    show SysInv encode ident ((sys.step a).run rest)
    apply ih
    cases a with
    | call i => exact h.step_call hEnc hEnc0 hIdent hNe i
    | tick d => exact h.step_tick d

/-- C1: at most one leader.  `N` electors, constructed by `NewLeaderElector` with pairwise
different identities, share one compare-and-set store (whose record encoding round-trips and
is never empty) and one clock; the key is absent at the start; each step is one
`tryAcquireOrRenew` call by one elector or an advance of the clock.  In every reachable state
at most one elector satisfies `IsLeader()` together with `isLeaseValid(now)`: two electors
that do are the same. -/
theorem at_most_one_leader {N : Nat} (encode : LeaderElectionRecord → Bytes)
    (ident : Fin N → String) (lecs : Fin N → LeaderElectionConfig (Store N))
    (electors : Fin N → LeaderElector (Store N)) (env0 env1 : Fin N → Env (Store N)) (t0 : Int)
    (steps : List (Step N)) (i j : Fin N)
    (hEnc : Function.Injective encode) (hEnc0 : ∀ r, encode r ≠ [])
    (hIdent : Function.Injective ident)
    (hLock : ∀ k, (lecs k).Lock = some (casLock encode k (ident k)))
    (hNew : ∀ k, NewLeaderElector storeClock globalMetricsFactory (lecs k) (env0 k)
      = (.ok (electors k), env1 k))
    (hi : ((System.initial electors t0).run steps).leads i)
    (hj : ((System.initial electors t0).run steps).leads j) : i = j := by
  obtain ⟨h0, hNe, -⟩ := SysInv.initial encode ident lecs electors env0 env1 t0 hLock hNew
  have h := SysInv.run hEnc hEnc0 hIdent hNe steps _ h0
  obtain ⟨vi, hvi⟩ := h.leader i hi
  obtain ⟨vj, hvj⟩ := h.leader j hj
  rw [hvi] at hvj
  have e := (Prod.mk.inj (Option.some.inj hvj)).1
  have hiH := (h.holder_of_leader i).1 hi.1
  have hjH := (h.holder_of_leader j).1 hj.1
  rw [e, hjH] at hiH
  exact (hIdent hiH).symm

theorem unaryEncode_injective : Function.Injective unaryEncode := by
  intro a b h
  have hlen := congrArg List.length h
  simp only [unaryEncode, List.length_replicate, add_left_inj] at hlen
  have ht := Encodable.encode_injective hlen
  simp only [Prod.mk.injEq] at ht
  obtain ⟨h1, h2, h3, h4, h5⟩ := ht
  have hc : Function.Injective Char.toNat := by
    intro x y hxy
    apply Char.ext
    apply UInt32.ext
    exact hxy
  have h1' := String.toList_inj.1 (List.map_injective_iff.2 hc h1)
  rcases a with ⟨a1, a2, a3, a4, a5⟩
  rcases b with ⟨b1, b2, b3, b4, b5⟩
  simp only [LeaderElectionRecord.mk.injEq]
  exact ⟨h1', h2, h3, h4, h5⟩

theorem unaryEncode_ne_nil (r : LeaderElectionRecord) : unaryEncode r ≠ [] := by
  simp [unaryEncode, List.replicate_succ]

theorem duoIdent_injective : Function.Injective duoIdent := by
  intro a b h
  fin_cases a <;> fin_cases b <;> first | rfl | exact absurd h (by decide)

/-- C1, witness: in the concrete system of two electors, after "a" acquires, "b" observes,
3 s pass and "a" renews, "a" leads and "b" does not. -/
theorem at_most_one_leader_witness :
    ((System.initial duoElector 0).run duoSteps).leads 0
      ∧ ¬ ((System.initial duoElector 0).run duoSteps).leads 1 := by
  have h0 : ((System.initial duoElector 0).run duoSteps).leads 0 := by decide
  refine ⟨h0, fun h1 => ?_⟩
  have h := at_most_one_leader unaryEncode duoIdent duoConfig duoElector
    (fun _ => { st := (System.initial duoElector 0).store, calls := [] })
    (fun _ => { st := (System.initial duoElector 0).store, calls := [Call.leaderOff "lock"] })
    0 duoSteps 1 0 unaryEncode_injective unaryEncode_ne_nil duoIdent_injective (fun _ => rfl)
    (fun k => by fin_cases k <;> rfl) h1 h0
  exact absurd h (by decide)

/-- The wrapped successor of a counter that is not negative and below the largest `int` is
its successor. -/
theorem wrapInt64_succ (x : Int) (h0 : 0 ≤ x) (h1 : x < 2 ^ 63 - 1) :
    wrapInt64 (x + 1) = x + 1 := by
  unfold wrapInt64
  omega

theorem System.belowMax_iff {N : Nat} (sys : System N) :
    sys.belowMax = true
      ↔ ∀ r v, sys.store.record = some (r, v) → r.LeaderTransitions < 2 ^ 63 - 1 := by
  unfold System.belowMax
  rcases hrec : sys.store.record with _ | ⟨r, v⟩
  · simp
  · simp only [decide_eq_true_eq, Option.some.injEq, Prod.mk.injEq, and_imp]
    constructor
    · rintro h r1 v1 rfl -
      exact h
    · intro h
      exact h r v rfl rfl

/-- While the counter has not wrapped around, the record `w` that elector `i` writes over the
stored record `r` in a call of `tryAcquireOrRenew` keeps the counter when `r` is its own, and
has the next counter otherwise. -/
theorem SysInv.write_counter {N : Nat} {encode : LeaderElectionRecord → Bytes}
    {ident : Fin N → String} {sys : System N}
    (h : SysInv encode ident sys) (c : Counted encode ident sys)
    (hb : sys.belowMax = true) (hNe : ∀ k, ident k ≠ "")
    (i : Fin N) (r w : LeaderElectionRecord) (v : Nat) (raw : Bytes)
    (hrec : sys.store.record = some (r, v))
    (hW : CasWrite encode (ident i) (sys.electors i) raw sys.store r w) :
    (r.HolderIdentity = ident i ∧ w.LeaderTransitions = r.LeaderTransitions)
      ∨ (r.HolderIdentity ≠ ident i ∧ w.LeaderTransitions = r.LeaderTransitions + 1) := by
  have h0 := c.nonneg r v hrec
  have h1 := (sys.belowMax_iff.1 hb) r v hrec
  have hsucc := wrapInt64_succ r.LeaderTransitions h0 h1
  rcases hW with ⟨hL, hV, -, ht, -⟩
    | ⟨-, ⟨-, -, ⟨hh, -, ht⟩ | ⟨hh, ht⟩⟩ | ⟨hraw, -, ⟨hL, -, ht⟩ | ⟨hL, ht⟩⟩⟩
  · obtain ⟨v2, hv2⟩ := h.leader i ⟨hL, hV⟩
    rw [hrec] at hv2
    have hri : r = (sys.electors i).observedRecord := (Prod.mk.inj (Option.some.inj hv2)).1
    exact Or.inl ⟨by rw [hri]; exact (h.holder_of_leader i).1 hL, by rw [hri]; exact ht⟩
  · exact Or.inl ⟨hh, ht⟩
  · exact Or.inr ⟨hh, ht.trans hsucc⟩
  · refine Or.inl ⟨?_, ht⟩
    have hown := (h.holder_of_leader i).1 hL
    rcases c.raw i r hraw with ho | hh | hlt
    · rw [← ho]; exact hown
    · exact hh
    · have hz : (sys.electors i).observedRecord ≠ zeroRecord :=
        ne_zeroRecord_of_holder _ (by rw [hown]; exact hNe i)
      have := c.observed i r v hz hrec
      omega
  · refine Or.inr ⟨?_, ht.trans hsucc⟩
    intro hh
    have ho := h.holder i r v hrec hh
    have : (sys.electors i).IsLeader = true := by
      rw [h.holder_of_leader i, ho]; exact hh
    rw [this] at hL
    exact absurd hL (by decide)

/-- The invariant of the counter is kept by a call of `tryAcquireOrRenew` made while the
stored counter is below the largest `int`. -/
theorem Counted.call_kept {N : Nat} {encode : LeaderElectionRecord → Bytes}
    {ident : Fin N → String} {sys : System N}
    (h : SysInv encode ident sys) (c : Counted encode ident sys)
    (hb : sys.belowMax = true) (hEnc : Function.Injective encode)
    (hEnc0 : ∀ r, encode r ≠ []) (hNe : ∀ k, ident k ≠ "") (i : Fin N) :
    Counted encode ident (sys.step (.call i)) := by
  have hO := casStep encode i (ident i) (sys.electors i) sys.store [] (h.lock i) (h.clock i)
    (h.metrics i)
  generalize hle' : ((sys.electors i).tryAcquireOrRenew { st := sys.store, calls := [] }).2.1
    = le' at hO
  generalize hst' : ((sys.electors i).tryAcquireOrRenew { st := sys.store, calls := [] }).2.2.st
    = st' at hO
  have hE : (sys.step (.call i)).electors = Function.update sys.electors i le' := by
    rw [← hle']; rfl
  have hS : (sys.step (.call i)).store = st' := by rw [← hst']; rfl
  have hEi : (sys.step (.call i)).electors i = le' := by rw [hE]; simp
  have hEj : ∀ j, j ≠ i → (sys.step (.call i)).electors j = sys.electors j := by
    intro j hj; rw [hE]; simp [hj]
  obtain ⟨hcfg, hclk, hmet, hnow, hseen, hcase⟩ := hO
  rcases hcase with ⟨r, v, hrec, hrec', hsi, hraw', hsame, hdiff, hnl, hval⟩
    | ⟨r, v, w, hrec, hrec', hsi, ho', hT', hwH, hwL, hwR, hW⟩
    | ⟨w, hrec, hrec', hsi, ho', hT', hraw', hwH, hwL, hwR, hwT⟩
  · -- nothing is written
    refine ⟨?_, ?_, ?_⟩
    · intro r1 v1 h1
      rw [hS, hrec', ← hrec] at h1
      exact c.nonneg r1 v1 h1
    · intro j r1 v1 hne h1
      rw [hS, hrec'] at h1
      have e1 : r = r1 := (Prod.mk.inj (Option.some.inj h1)).1
      subst e1
      by_cases hj : j = i
      · subst hj
        rw [hEi] at hne ⊢
        by_cases hraw : (sys.electors j).observedRawRecord = encode r
        · rw [(hsame hraw).1] at hne ⊢
          exact c.observed j r v hne hrec
        · rw [(hdiff hraw).1]
      · rw [hEj j hj] at hne ⊢
        exact c.observed j r v hne hrec
    · intro j q hq
      by_cases hj : j = i
      · subst hj
        rw [hEi] at hq ⊢
        by_cases hraw : (sys.electors j).observedRawRecord = encode r
        · rw [(hsame hraw).1]
          exact c.raw j q (hraw.trans (hraw'.symm.trans hq))
        · rw [(hdiff hraw).1]
          exact Or.inl (hEnc (hraw'.symm.trans hq))
      · rw [hEj j hj] at hq ⊢
        exact c.raw j q hq
  · -- the stored record is replaced
    have hC := h.write_counter c hb hNe i r w v _ hrec hW
    have h0 := c.nonneg r v hrec
    have hle : r.LeaderTransitions ≤ w.LeaderTransitions := by
      rcases hC with ⟨-, e⟩ | ⟨-, e⟩ <;> omega
    refine ⟨?_, ?_, ?_⟩
    · intro r1 v1 h1
      rw [hS, hrec'] at h1
      have e : w = r1 := (Prod.mk.inj (Option.some.inj h1)).1
      subst e
      omega
    · intro j r1 v1 hne h1
      rw [hS, hrec'] at h1
      have e : w = r1 := (Prod.mk.inj (Option.some.inj h1)).1
      subst e
      by_cases hj : j = i
      · subst hj
        rw [hEi, ho']
      · rw [hEj j hj] at hne ⊢
        have := c.observed j r v hne hrec
        omega
    · intro j q hq
      by_cases hj : j = i
      · subst hj
        rw [hEi] at hq ⊢
        rw [ho']
        rcases hW with ⟨hL, hV, -, ht, hraw⟩ | ⟨hraw, -⟩
        · rw [hraw] at hq
          rcases c.raw j q hq with ho | hh | hlt
          · exact Or.inr (Or.inl (by rw [← ho]; exact (h.holder_of_leader j).1 hL))
          · exact Or.inr (Or.inl hh)
          · exact Or.inr (Or.inr (by rw [ht]; exact hlt))
        · have hqr : q = r := hEnc (hq.symm.trans hraw)
          subst hqr
          rcases hC with ⟨hh, -⟩ | ⟨-, e⟩
          · exact Or.inr (Or.inl hh)
          · exact Or.inr (Or.inr (by omega))
      · rw [hEj j hj] at hq ⊢
        exact c.raw j q hq
  · -- the record is created
    have hzero : ∀ j, (sys.electors j).observedRecord = zeroRecord := by
      intro j
      by_contra hne
      obtain ⟨-, -, h1⟩ := h.touched j hne
      exact h1 hrec
    have hrawnone : ∀ j, (sys.electors j).observedRawRecord = [] := by
      intro j
      by_contra hne
      exact (h.raw j hne).1 (hzero j)
    have hw0 : w.LeaderTransitions = 0 := by
      rcases hwT with e | hL
      · exact e
      · have := (h.holder_of_leader i).1 hL
        rw [hzero i] at this
        exact absurd this.symm (hNe i)
    refine ⟨?_, ?_, ?_⟩
    · intro r1 v1 h1
      rw [hS, hrec'] at h1
      have e : w = r1 := (Prod.mk.inj (Option.some.inj h1)).1
      subst e
      omega
    · intro j r1 v1 hne h1
      rw [hS, hrec'] at h1
      have e : w = r1 := (Prod.mk.inj (Option.some.inj h1)).1
      subst e
      by_cases hj : j = i
      · subst hj
        rw [hEi, ho']
      · rw [hEj j hj] at hne
        exact absurd (hzero j) hne
    · intro j q hq
      by_cases hj : j = i
      · subst hj
        rw [hEi, hraw', hrawnone j] at hq
        exact absurd hq.symm (hEnc0 q)
      · rw [hEj j hj, hrawnone j] at hq
        exact absurd hq.symm (hEnc0 q)

/-- The invariant of the counter is kept by a call of `release`. -/
theorem Counted.release_kept {N : Nat} {encode : LeaderElectionRecord → Bytes}
    {ident : Fin N → String} {sys : System N}
    (h : SysInv encode ident sys) (c : Counted encode ident sys) (i : Fin N) :
    Counted encode ident (sys.move (.release i)) := by
  have hO := casRelease encode i (ident i) (sys.electors i) sys.store [] (h.lock i) (h.clock i)
  generalize hle' : ((sys.electors i).release { st := sys.store, calls := [] }).2.1 = le' at hO
  generalize hst' : ((sys.electors i).release { st := sys.store, calls := [] }).2.2.st
    = st' at hO
  have hE : (sys.move (.release i)).electors = Function.update sys.electors i le' := by
    rw [← hle']; rfl
  have hS : (sys.move (.release i)).store = st' := by rw [← hst']; rfl
  have hEi : (sys.move (.release i)).electors i = le' := by rw [hE]; simp
  have hEj : ∀ j, j ≠ i → (sys.move (.release i)).electors j = sys.electors j := by
    intro j hj; rw [hE]; simp [hj]
  rcases hO with ⟨h1, h2⟩
    | ⟨hcfg, hclk, hmet, hnow, hseen, hL, r, v, hrec, hsv, hrec', hsi, ho', hT', hraw'⟩
  · have hsys : sys.move (.release i)
        = { electors := Function.update sys.electors i le', store := st' } := by
      rw [← hle', ← hst']; rfl
    rw [hsys, h1, h2, Function.update_eq_self]
    exact c
  · have hoi : (sys.electors i).observedRecord = r := h.seenLeader i r v hrec hsv hL
    refine ⟨?_, ?_, ?_⟩
    · intro r1 v1 h1
      rw [hS, hrec'] at h1
      have e := (Prod.mk.inj (Option.some.inj h1)).1
      subst e
      show 0 ≤ (sys.electors i).observedRecord.LeaderTransitions
      rw [hoi]
      exact c.nonneg r v hrec
    · intro j r1 v1 hne h1
      rw [hS, hrec'] at h1
      have e := (Prod.mk.inj (Option.some.inj h1)).1
      subst e
      by_cases hj : j = i
      · subst hj
        rw [hEi, ho']
      · rw [hEj j hj] at hne ⊢
        show _ ≤ (sys.electors i).observedRecord.LeaderTransitions
        rw [hoi]
        exact c.observed j r v hne hrec
    · intro j q hq
      by_cases hj : j = i
      · subst hj
        rw [hEi] at hq ⊢
        rw [hraw'] at hq
        rw [ho']
        rcases c.raw j q hq with ho | hh | hlt
        · exact Or.inr (Or.inl (by rw [← ho]; exact (h.holder_of_leader j).1 hL))
        · exact Or.inr (Or.inl hh)
        · exact Or.inr (Or.inr hlt)
      · rw [hEj j hj] at hq ⊢
        exact c.raw j q hq

/-- Both invariants hold after every sequence of moves in which the counter does not wrap
around, and the stored counter is then below the largest `int`. -/
theorem SysInv.play {N : Nat} {encode : LeaderElectionRecord → Bytes}
    {ident : Fin N → String}
    (hEnc : Function.Injective encode) (hEnc0 : ∀ r, encode r ≠ [])
    (hIdent : Function.Injective ident) (hNe : ∀ k, ident k ≠ "") (moves : List (Move N)) :
    ∀ sys : System N, SysInv encode ident sys → Counted encode ident sys →
      sys.unwrapped moves = true →
      SysInv encode ident (sys.play moves) ∧ Counted encode ident (sys.play moves)
        ∧ (sys.play moves).belowMax = true := by
  induction moves with
  | nil => intro sys h c hu; exact ⟨h, c, hu⟩
  | cons a rest ih =>
    intro sys h c hu
    simp only [System.unwrapped, Bool.and_eq_true] at hu
    show SysInv encode ident ((sys.move a).play rest) ∧ Counted encode ident ((sys.move a).play rest)
      ∧ ((sys.move a).play rest).belowMax = true
    refine ih _ (h.move hEnc hEnc0 hIdent hNe a) ?_ hu.2
    cases a with
    | call i => exact c.call_kept h hu.1 hEnc hEnc0 hNe i
    | tick d => exact ⟨c.nonneg, c.observed, c.raw⟩
    | release i => exact c.release_kept h i

/-- The invariant of the counter holds before any move. -/
theorem Counted.at_first {N : Nat} (encode : LeaderElectionRecord → Bytes)
    (ident : Fin N → String) (electors : Fin N → LeaderElector (Store N)) (t0 : Int)
    (hEnc0 : ∀ r, encode r ≠ [])
    (h0 : ∀ k, (electors k).observedRecord = zeroRecord ∧ (electors k).observedRawRecord = []) :
    Counted encode ident (System.initial electors t0) := by
  refine ⟨?_, ?_, ?_⟩
  · intro r v hr
    exact absurd hr (by simp [System.initial])
  · intro j r v hne
    exact absurd (h0 j).1 hne
  · intro j q hq
    have : (electors j).observedRawRecord = encode q := hq
    rw [(h0 j).2] at this
    exact absurd this.symm (hEnc0 q)

/-- C7 (amended): monotonic transitions.  `N` electors, constructed by `NewLeaderElector` with
pairwise different identities, share one compare-and-set store and one clock; the key is
absent at the start; each move is one `tryAcquireOrRenew` call or one `release` call by one
elector, or an advance of the clock.  After every sequence of moves through which the stored
`LeaderTransitions` has stayed below the largest `int`: every record `w` that a
`tryAcquireOrRenew` call writes over the stored record `r` (which may be a release record) has
a `LeaderTransitions` that is not smaller than that of `r`, is equal to it or larger by one,
and is larger by one if and only if its `HolderIdentity` differs from that of `r`; and every
record `w` that `release` writes over the stored record `r` has the `LeaderTransitions` of
`r`, unchanged, although its `HolderIdentity` is the empty string and that of `r` is the
identity of the releasing elector. -/
theorem leaderTransitions_monotonic {N : Nat} (encode : LeaderElectionRecord → Bytes)
    (ident : Fin N → String) (lecs : Fin N → LeaderElectionConfig (Store N))
    (electors : Fin N → LeaderElector (Store N)) (env0 env1 : Fin N → Env (Store N)) (t0 : Int)
    (moves : List (Move N)) (i : Fin N)
    (hEnc : Function.Injective encode) (hEnc0 : ∀ r, encode r ≠ [])
    (hIdent : Function.Injective ident)
    (hLock : ∀ k, (lecs k).Lock = some (casLock encode k (ident k)))
    (hNew : ∀ k, NewLeaderElector storeClock globalMetricsFactory (lecs k) (env0 k)
      = (.ok (electors k), env1 k))
    (hUnwrapped : (System.initial electors t0).unwrapped moves = true) :
    (∀ r v w v', ((System.initial electors t0).play moves).store.record = some (r, v) →
        (((System.initial electors t0).play moves).move (.call i)).store.record = some (w, v') →
        v' ≠ v →
        r.LeaderTransitions ≤ w.LeaderTransitions
          ∧ (w.LeaderTransitions = r.LeaderTransitions
            ∨ w.LeaderTransitions = r.LeaderTransitions + 1)
          ∧ (w.LeaderTransitions = r.LeaderTransitions + 1
            ↔ w.HolderIdentity ≠ r.HolderIdentity))
      ∧ (∀ r v w v', ((System.initial electors t0).play moves).store.record = some (r, v) →
        (((System.initial electors t0).play moves).move (.release i)).store.record
          = some (w, v') →
        v' ≠ v →
        w.LeaderTransitions = r.LeaderTransitions ∧ w.HolderIdentity = ""
          ∧ r.HolderIdentity = ident i ∧ w.HolderIdentity ≠ r.HolderIdentity) := by
  obtain ⟨h0, hNe, hz⟩ := SysInv.initial encode ident lecs electors env0 env1 t0 hLock hNew
  obtain ⟨h, c, hb⟩ := SysInv.play hEnc hEnc0 hIdent hNe moves _ h0
    (Counted.at_first encode ident electors t0 hEnc0 hz) hUnwrapped
  generalize (System.initial electors t0).play moves = sys at h c hb
  refine ⟨fun r v w v' hrec hrec' hv => ?_, fun r v w v' hrec hrec' hv => ?_⟩
  · have hO := casStep encode i (ident i) (sys.electors i) sys.store [] (h.lock i) (h.clock i)
      (h.metrics i)
    have hS : (sys.move (.call i)).store
        = ((sys.electors i).tryAcquireOrRenew { st := sys.store, calls := [] }).2.2.st := rfl
    rw [hS] at hrec'
    obtain ⟨-, -, -, -, -, hcase⟩ := hO
    rcases hcase with ⟨r1, v1, h1, h1', -⟩ | ⟨r1, v1, w1, h1, h1', -, -, -, hwH, -, -, hW⟩
      | ⟨w1, h1, -⟩
    · rw [hrec] at h1
      rw [hrec'] at h1'
      have e1 := (Prod.mk.inj (Option.some.inj h1)).2
      have e2 := (Prod.mk.inj (Option.some.inj h1')).2
      exact absurd (e2.trans e1.symm) hv
    · rw [hrec] at h1
      rw [hrec'] at h1'
      have e1 : r = r1 := (Prod.mk.inj (Option.some.inj h1)).1
      have e2 : w = w1 := (Prod.mk.inj (Option.some.inj h1')).1
      subst e1 e2
      rcases h.write_counter c hb hNe i r w v _ hrec hW with ⟨hh, ht⟩ | ⟨hh, ht⟩
      · refine ⟨by omega, Or.inl ht, fun hc => by omega, fun hc => ?_⟩
        exact absurd (hwH.trans hh.symm) hc
      · exact ⟨by omega, Or.inr ht, fun _ => by rw [hwH]; exact fun e => hh e.symm,
          fun _ => ht⟩
    · rw [hrec] at h1
      exact absurd h1 (by simp)
  · have hO := casRelease encode i (ident i) (sys.electors i) sys.store [] (h.lock i)
      (h.clock i)
    have hS : (sys.move (.release i)).store
        = ((sys.electors i).release { st := sys.store, calls := [] }).2.2.st := rfl
    rw [hS] at hrec'
    rcases hO with ⟨-, h2⟩ | ⟨-, -, -, -, -, hL, r1, v1, h1, hsv, h1', -⟩
    · rw [h2, hrec] at hrec'
      exact absurd (Prod.mk.inj (Option.some.inj hrec')).2.symm hv
    · rw [hrec] at h1
      have e1 : r = r1 := (Prod.mk.inj (Option.some.inj h1)).1
      have e2 : v = v1 := (Prod.mk.inj (Option.some.inj h1)).2
      subst e1 e2
      rw [hrec'] at h1'
      have e3 := (Prod.mk.inj (Option.some.inj h1')).1
      have ho := h.seenLeader i r v hrec hsv hL
      have hrH : r.HolderIdentity = ident i := by
        rw [← ho]; exact (h.holder_of_leader i).1 hL
      subst e3
      exact ⟨by rw [ho], rfl, hrH, by rw [hrH]; exact fun e => hNe i e.symm⟩

set_option maxRecDepth 100000 in
/-- C7, witness: in the concrete system of two electors, after "a" acquires, 3 s pass and "a"
releases, the store holds the release record `{"", 1, 3 s, 3 s, 0}` under version 1; the
call of "b" replaces it by `{b, 15, 3 s, 3 s, 1}`: the holder differs and the counter is
larger by one. -/
theorem leaderTransitions_monotonic_witness :
    ((System.initial duoElector 0).play duoMoves).store.record
        = some (⟨"", 1, 3000000000, 3000000000, 0⟩, 1)
      ∧ (((System.initial duoElector 0).play duoMoves).move (.call 1)).store.record
        = some (⟨"b", 15, 3000000000, 3000000000, 1⟩, 2)
      ∧ (⟨"", 1, 3000000000, 3000000000, 0⟩ : LeaderElectionRecord).LeaderTransitions
        ≤ (⟨"b", 15, 3000000000, 3000000000, 1⟩ : LeaderElectionRecord).LeaderTransitions
      ∧ ((⟨"b", 15, 3000000000, 3000000000, 1⟩ : LeaderElectionRecord).LeaderTransitions
          = (⟨"", 1, 3000000000, 3000000000, 0⟩ : LeaderElectionRecord).LeaderTransitions + 1
        ↔ (⟨"b", 15, 3000000000, 3000000000, 1⟩ : LeaderElectionRecord).HolderIdentity
          ≠ (⟨"", 1, 3000000000, 3000000000, 0⟩ : LeaderElectionRecord).HolderIdentity) :=
  have h := (leaderTransitions_monotonic unaryEncode duoIdent duoConfig duoElector
      (fun _ => { st := (System.initial duoElector 0).store, calls := [] })
      (fun _ => { st := (System.initial duoElector 0).store, calls := [Call.leaderOff "lock"] })
      0 duoMoves 1 unaryEncode_injective unaryEncode_ne_nil duoIdent_injective (fun _ => rfl)
      (fun k => by fin_cases k <;> rfl) (by decide)).1 ⟨"", 1, 3000000000, 3000000000, 0⟩ 1
        ⟨"b", 15, 3000000000, 3000000000, 1⟩ 2 (by decide) (by decide) (by decide)
  ⟨by decide, by decide, h.1, h.2.2⟩

set_option maxRecDepth 100000 in
/-- C7, counterexample.  In the concrete system of two electors, after "a" acquires, "b"
observes, 3 s pass and "a" renews, the store holds `{a, 15, 0, 3 s, 0}`; `release` by "a"
replaces it by `{"", 1, 3 s, 3 s, 0}`: the new `HolderIdentity` differs from the old one and
the new `LeaderTransitions` is not larger.  And when the store holds a release record whose
`LeaderTransitions` is 9223372036854775807, the largest `int`, the call of "b" replaces it by
`{b, 15, 0, 0, -9223372036854775808}`: the new `LeaderTransitions` is smaller than the old
one. -/
theorem transitions_not_monotonic :
    ((System.initial duoElector 0).run duoSteps).store.record
        = some (⟨"a", 15, 0, 3000000000, 0⟩, 1)
      ∧ ((((System.initial duoElector 0).run duoSteps).electors 0).release
          { st := ((System.initial duoElector 0).run duoSteps).store, calls := [] }).2.2.st.record
        = some (⟨"", 1, 3000000000, 3000000000, 0⟩, 2)
      ∧ (⟨"", 1, 3000000000, 3000000000, 0⟩ : LeaderElectionRecord).HolderIdentity
        ≠ (⟨"a", 15, 0, 3000000000, 0⟩ : LeaderElectionRecord).HolderIdentity
      ∧ ¬ ((⟨"a", 15, 0, 3000000000, 0⟩ : LeaderElectionRecord).LeaderTransitions
        < (⟨"", 1, 3000000000, 3000000000, 0⟩ : LeaderElectionRecord).LeaderTransitions)
      ∧ duoAtMax.store.record = some (⟨"", 1, 0, 0, 9223372036854775807⟩, 0)
      ∧ (duoAtMax.step (.call 1)).store.record
        = some (⟨"b", 15, 0, 0, -9223372036854775808⟩, 1)
      ∧ (⟨"b", 15, 0, 0, -9223372036854775808⟩ : LeaderElectionRecord).LeaderTransitions
        < (⟨"", 1, 0, 0, 9223372036854775807⟩ : LeaderElectionRecord).LeaderTransitions := by
  refine ⟨by decide, by decide, by decide, by decide, by decide, by decide, by decide⟩

/-! ## Release, health, the phases of `Run` and transition reporting -/

theorem Env.Grows.same {σ : Type} (p : Call → Bool) (env : Env σ) : Env.Grows p env env :=
  ⟨[], by simp, by simp⟩

theorem Env.Grows.andThen {σ : Type} {p : Call → Bool} {e1 e2 e3 : Env σ}
    (h1 : Env.Grows p e1 e2) (h2 : Env.Grows p e2 e3) : Env.Grows p e1 e3 := by
  obtain ⟨l1, h1, hp1⟩ := h1
  obtain ⟨l2, h2, hp2⟩ := h2
  refine ⟨l1 ++ l2, by rw [h2, h1, List.append_assoc], ?_⟩
  intro c hc
  rcases List.mem_append.1 hc with h | h
  · exact hp1 c h
  · exact hp2 c h

theorem Env.Grows.mono {σ : Type} {p q : Call → Bool} {e1 e2 : Env σ}
    (h : Env.Grows p e1 e2) (hpq : ∀ c, p c = true → q c = true) : Env.Grows q e1 e2 := by
  obtain ⟨l, h, hp⟩ := h
  exact ⟨l, h, fun c hc => hpq c (hp c hc)⟩

theorem Env.Grows.one {σ : Type} {p : Call → Bool} {e1 e2 : Env σ} (c : Call)
    (h : e2.calls = e1.calls ++ [c]) (hp : p c = true) : Env.Grows p e1 e2 :=
  ⟨[c], h, by simpa using hp⟩

theorem setObservedRecord_grows {σ : Type} (le : LeaderElector σ) (r : LeaderElectionRecord)
    (id : String) (env : Env σ) :
    Env.Grows (Call.inTick id) env (le.setObservedRecord r env).2 :=
  Env.Grows.one Call.now rfl rfl

theorem LeaderElector.SameSetup.unchanged {σ : Type} (le : LeaderElector σ) : le.SameSetup le :=
  ⟨rfl, rfl, rfl, rfl⟩

theorem LeaderElector.SameSetup.thenSame {σ : Type} {a b c : LeaderElector σ}
    (h1 : a.SameSetup b) (h2 : b.SameSetup c) : a.SameSetup c :=
  ⟨h2.1.trans h1.1, h2.2.1.trans h1.2.1, h2.2.2.1.trans h1.2.2.1, h2.2.2.2.trans h1.2.2.2⟩

theorem LeaderElector.SameSetup.lock {σ : Type} {a b : LeaderElector σ} (h : a.SameSetup b) :
    b.lock = a.lock :=
  lock_of_config_eq a b h.1

theorem observe_grows {σ : Type} (le : LeaderElector σ) (old : LeaderElectionRecord)
    (raw : Bytes) (id : String) (env : Env σ) :
    Env.Grows (Call.inTick id) env (le.observe old raw env).2
      ∧ le.SameSetup (le.observe old raw env).1 := by
  unfold LeaderElector.observe
  split_ifs with h
  · exact ⟨setObservedRecord_grows le old id env, ⟨rfl, rfl, rfl, rfl⟩⟩
  · exact ⟨Env.Grows.same _ _, LeaderElector.SameSetup.unchanged le⟩

theorem callUpdate_grows {σ : Type} (l : Interface σ) (r : LeaderElectionRecord) (env : Env σ)
    (h : r.HolderIdentity = l.Identity) :
    Env.Grows (Call.inTick l.Identity) env (callUpdate l r env).2 :=
  Env.Grows.one (Call.update r) rfl (by simp [Call.inTick, h])

theorem callCreate_grows {σ : Type} (l : Interface σ) (r : LeaderElectionRecord) (env : Env σ)
    (h : r.HolderIdentity = l.Identity) :
    Env.Grows (Call.inTick l.Identity) env (callCreate l r env).2 :=
  Env.Grows.one (Call.create r) rfl (by simp [Call.inTick, h])

theorem acquireOrRenewFrom_grows {σ : Type} (le : LeaderElector σ) (now : Int)
    (ler old : LeaderElectionRecord) (raw : Bytes) (env : Env σ)
    (hler : ler.HolderIdentity = le.lock.Identity) :
    Env.Grows (Call.inTick le.lock.Identity) env (le.acquireOrRenewFrom now ler old raw env).2.2
      ∧ le.SameSetup (le.acquireOrRenewFrom now ler old raw env).2.1 := by
  obtain ⟨hg, hs⟩ := observe_grows le old raw le.lock.Identity env
  have hlock := hs.lock
  unfold LeaderElector.acquireOrRenewFrom
  simp only []
  split_ifs with h1 h2
  · exact ⟨hg, hs⟩
  · have hu := callUpdate_grows (le.observe old raw env).1.lock
      { ler with AcquireTime := old.AcquireTime, LeaderTransitions := old.LeaderTransitions }
      ((le.observe old raw env).1.metrics.slowpathExercised (le.observe old raw env).1.config.Name
        (le.observe old raw env).2) (by rw [hlock]; exact hler)
    rw [hlock] at hu
    have hm : Env.Grows (Call.inTick le.lock.Identity) (le.observe old raw env).2
        ((le.observe old raw env).1.metrics.slowpathExercised
          (le.observe old raw env).1.config.Name (le.observe old raw env).2) :=
      Env.Grows.one (Call.slowpathExercised _) rfl rfl
    split
    · exact ⟨(hg.andThen hm).andThen (by rw [hlock]; exact hu), hs⟩
    · refine ⟨((hg.andThen hm).andThen (by rw [hlock]; exact hu)).andThen
        (setObservedRecord_grows _ _ _ _), hs.thenSame ⟨rfl, rfl, rfl, rfl⟩⟩
  · have hu := callUpdate_grows (le.observe old raw env).1.lock
      { ler with LeaderTransitions := wrapInt64 (old.LeaderTransitions + 1) }
      (le.observe old raw env).2 (by rw [hlock]; exact hler)
    rw [hlock] at hu
    split
    · exact ⟨hg.andThen (by rw [hlock]; exact hu), hs⟩
    · refine ⟨(hg.andThen (by rw [hlock]; exact hu)).andThen
        (setObservedRecord_grows _ _ _ _), hs.thenSame ⟨rfl, rfl, rfl, rfl⟩⟩

theorem obtainOrCreate_grows {σ : Type} (le : LeaderElector σ) (now : Int)
    (ler : LeaderElectionRecord) (env : Env σ)
    (hler : ler.HolderIdentity = le.lock.Identity) :
    Env.Grows (Call.inTick le.lock.Identity) env (le.obtainOrCreate now ler env).2.2
      ∧ le.SameSetup (le.obtainOrCreate now ler env).2.1 := by
  have hg : Env.Grows (Call.inTick le.lock.Identity) env (callGet le.lock env).2 :=
    Env.Grows.one Call.get rfl rfl
  unfold LeaderElector.obtainOrCreate
  simp only []
  split
  · split_ifs with he
    · exact ⟨hg, LeaderElector.SameSetup.unchanged le⟩
    · have hc := callCreate_grows le.lock ler (callGet le.lock env).2 hler
      split
      · exact ⟨hg.andThen hc, LeaderElector.SameSetup.unchanged le⟩
      · exact ⟨(hg.andThen hc).andThen (setObservedRecord_grows _ _ _ _), ⟨rfl, rfl, rfl, rfl⟩⟩
  · obtain ⟨h1, h2⟩ := acquireOrRenewFrom_grows le now ler _ _ (callGet le.lock env).2 hler
    exact ⟨hg.andThen h1, h2⟩

/-- The calls of one `tryAcquireOrRenew`, and what it leaves alone. -/
theorem tryAcquireOrRenew_grows {σ : Type} (le : LeaderElector σ) (env : Env σ) :
    Env.Grows (Call.inTick le.lock.Identity) env (le.tryAcquireOrRenew env).2.2
      ∧ le.SameSetup (le.tryAcquireOrRenew env).2.1 := by
  have hn : Env.Grows (Call.inTick le.lock.Identity) env (callNow le.clock env).2 :=
    Env.Grows.one Call.now rfl rfl
  unfold LeaderElector.tryAcquireOrRenew
  split
  · rename_i le1 env1 hf
    unfold LeaderElector.fastPath at hf
    simp only [] at hf
    split_ifs at hf with hc
    · split at hf
      · injection hf with h1 h2
        subst h1 h2
        exact ⟨(hn.andThen (callUpdate_grows le.lock _ _ rfl)).andThen
          (setObservedRecord_grows _ _ _ _), ⟨rfl, rfl, rfl, rfl⟩⟩
      · cases hf
  · rename_i now ler env1 hf
    unfold LeaderElector.fastPath at hf
    simp only [] at hf
    split_ifs at hf with hc
    · split at hf
      · cases hf
      · injection hf with h1 h2 h3
        obtain ⟨h4, h5⟩ := obtainOrCreate_grows le now ler env1 (by rw [← h2])
        subst h3
        exact ⟨(hn.andThen (callUpdate_grows le.lock _ _ rfl)).andThen h4, h5⟩
    · injection hf with h1 h2 h3
      obtain ⟨h4, h5⟩ := obtainOrCreate_grows le now ler env1 (by rw [← h2])
      subst h3
      exact ⟨hn.andThen h4, h5⟩

theorem maybeReportTransition_eq {σ : Type} (rt : Runtime σ) (le : LeaderElector σ)
    (env : Env σ) :
    (le.maybeReportTransition rt env).1
        = { le with reportedLeader := le.observedRecord.HolderIdentity }
      ∧ (le.maybeReportTransition rt env).2.calls
        = env.calls ++
          (if le.observedRecord.HolderIdentity ≠ le.reportedLeader
              ∧ le.config.Callbacks.OnNewLeader.isSome = true
            then [Call.onNewLeader le.observedRecord.HolderIdentity] else []) := by
  by_cases h : le.observedRecord.HolderIdentity = le.reportedLeader
  · have hm : le.maybeReportTransition rt env = (le, env) := by
      unfold LeaderElector.maybeReportTransition
      rw [if_pos h]
    rw [hm]
    refine ⟨?_, by simp [h]⟩
    cases le
    simp only [] at h
    subst h
    rfl
  · cases hcb : le.config.Callbacks.OnNewLeader with
    | none =>
      have hm : le.maybeReportTransition rt env
          = ({ le with reportedLeader := le.observedRecord.HolderIdentity }, env) := by
        unfold LeaderElector.maybeReportTransition
        rw [if_neg h]
        simp only [hcb]
      rw [hm]
      simp
    | some f =>
      have hm : le.maybeReportTransition rt env
          = ({ le with reportedLeader := le.observedRecord.HolderIdentity },
              callGo rt (Call.onNewLeader le.observedRecord.HolderIdentity)
                (f le.observedRecord.HolderIdentity) env) := by
        unfold LeaderElector.maybeReportTransition
        rw [if_neg h]
        simp only [hcb]
      rw [hm]
      simp [h, callGo]

theorem maybeReportTransition_grows {σ : Type} (rt : Runtime σ) (le : LeaderElector σ)
    (env : Env σ) :
    Env.Grows Call.isNewLeader env (le.maybeReportTransition rt env).2 := by
  refine ⟨_, (maybeReportTransition_eq rt le env).2, ?_⟩
  intro c hc
  split_ifs at hc
  · simp at hc; subst hc; rfl
  · simp at hc

theorem maybeReportTransition_config {σ : Type} (rt : Runtime σ) (le : LeaderElector σ)
    (env : Env σ) :
    (le.maybeReportTransition rt env).1.config = le.config
      ∧ (le.maybeReportTransition rt env).1.clock = le.clock
      ∧ (le.maybeReportTransition rt env).1.metrics = le.metrics
      ∧ (le.maybeReportTransition rt env).1.observedRecord = le.observedRecord
      ∧ (le.maybeReportTransition rt env).1.lock = le.lock := by
  rw [(maybeReportTransition_eq rt le env).1]
  exact ⟨rfl, rfl, rfl, rfl, rfl⟩

theorem release_grows {σ : Type} (le : LeaderElector σ) (env : Env σ) (id : String) :
    Env.Grows (fun c => c.inTick id || c.isRelease) env (le.release env).2.2
      ∧ le.SameSetup (le.release env).2.1 := by
  unfold LeaderElector.release
  split_ifs with h
  · exact ⟨Env.Grows.same _ _, LeaderElector.SameSetup.unchanged le⟩
  · simp only []
    have hn : Env.Grows (fun c => c.inTick id || c.isRelease) env (callNow le.clock env).2 :=
      Env.Grows.one Call.now rfl rfl
    have hu : Env.Grows (fun c => c.inTick id || c.isRelease) (callNow le.clock env).2
        (callUpdate le.lock ⟨"", 1, (callNow le.clock env).1, (callNow le.clock env).1,
          le.observedRecord.LeaderTransitions⟩ (callNow le.clock env).2).2 :=
      Env.Grows.one (Call.update _) rfl (by simp [Call.isRelease])
    split
    · exact ⟨hn.andThen hu, LeaderElector.SameSetup.unchanged le⟩
    · exact ⟨(hn.andThen hu).andThen (Env.Grows.one Call.now rfl rfl), ⟨rfl, rfl, rfl, rfl⟩⟩

/-- A loop of `JitterUntil` keeps what every run of `f` keeps: `Inv` holds while the loop goes
on, and `Post` when it ends. -/
theorem JitterUntil_post {σ S : Type} (rt : Runtime σ) (f : S → Env σ → S × Env σ)
    (closed : S → Bool) (period : Int) (jitterFactor : ℚ) (stopCh : StopCh)
    (Inv Post : S → Env σ → Prop)
    (hst : ∀ s env st, Inv s env → Inv s { env with st := st })
    (hexit : ∀ s env, Inv s env → Post s env)
    (hf : ∀ s env, Inv s env →
      (closed (f s env).1 = false → Inv (f s env).1 (f s env).2)
        ∧ (closed (f s env).1 = true → Post (f s env).1 (f s env).2)) :
    ∀ (rounds : Nat) (s : S) (env : Env σ), Inv s env →
      Post (JitterUntil rt f closed period jitterFactor stopCh rounds s env).1
        (JitterUntil rt f closed period jitterFactor stopCh rounds s env).2 := by
  intro rounds
  induction rounds with
  | zero => intro s env h; exact hexit s env h
  | succ n ih =>
    intro s env h
    unfold JitterUntil
    simp only []
    split_ifs with h1 h2 h3
    · exact hexit _ _ (hst s env _ h)
    · exact (hf s _ (hst s env _ h)).2 h2
    · have := (hf s _ (hst s env _ h)).1 (by simpa using h2)
      exact hexit _ _ (hst _ _ _ this)
    · have := (hf s _ (hst s env _ h)).1 (by simpa using h2)
      exact ih _ _ (hst _ _ _ this)

/-- A loop of `PollUntil` keeps what every try of the condition keeps. -/
theorem PollUntil_inv {σ S : Type} (rt : Runtime σ) (interval : Int)
    (condition : S → Env σ → Bool × S × Env σ) (stopCh : StopCh) (Inv : S → Env σ → Prop)
    (hst : ∀ s env st, Inv s env → Inv s { env with st := st })
    (hc : ∀ s env, Inv s env → Inv (condition s env).2.1 (condition s env).2.2) :
    ∀ (rounds : Nat) (s : S) (env : Env σ), Inv s env →
      Inv (PollUntil rt interval condition stopCh rounds s env).2.1
        (PollUntil rt interval condition stopCh rounds s env).2.2 := by
  intro rounds
  induction rounds with
  | zero => intro s env h; exact h
  | succ n ih =>
    intro s env h
    unfold PollUntil
    simp only []
    split_ifs with h1 h2
    · exact hst s env _ h
    · exact hc _ _ (hst s env _ h)
    · exact ih _ _ (hc _ _ (hst s env _ h))

theorem PollImmediateUntil_inv {σ S : Type} (rt : Runtime σ) (interval : Int)
    (condition : S → Env σ → Bool × S × Env σ) (stopCh : StopCh) (Inv : S → Env σ → Prop)
    (hst : ∀ s env st, Inv s env → Inv s { env with st := st })
    (hc : ∀ s env, Inv s env → Inv (condition s env).2.1 (condition s env).2.2)
    (rounds : Nat) (s : S) (env : Env σ) (h : Inv s env) :
    Inv (PollImmediateUntil rt interval condition stopCh rounds s env).2.1
      (PollImmediateUntil rt interval condition stopCh rounds s env).2.2 := by
  unfold PollImmediateUntil
  simp only []
  split_ifs with h1 h2
  · exact hc s env h
  · exact hst _ _ _ (hc s env h)
  · exact PollUntil_inv rt interval condition stopCh Inv hst hc rounds _ _
      (hst _ _ _ (hc s env h))

theorem Call.inWatch_of_inTick (id : String) (c : Call) (h : c.inTick id = true) :
    c.inWatch id = true := by
  simp [Call.inWatch, h]

theorem Call.inWatch_of_isNewLeader (id : String) (c : Call) (h : c.isNewLeader = true) :
    c.inWatch id = true := by
  simp [Call.inWatch, h]

theorem Call.inRenew_of_inTick (id : String) (c : Call) (h : c.inTick id = true) :
    c.inRenew id = true := by
  simp [Call.inRenew, h]

theorem Call.inRenew_of_isNewLeader (id : String) (c : Call) (h : c.isNewLeader = true) :
    c.inRenew id = true := by
  simp [Call.inRenew, h]

/-- One tick of the acquire phase that fails. -/
theorem acquireTick_failed {σ : Type} (rt : Runtime σ) (s : AcquireState σ) (env : Env σ)
    (h : (s.le.tryAcquireOrRenew env).1 = false) :
    acquireTick rt s env
      = ({ s with
            le := ((s.le.tryAcquireOrRenew env).2.1.maybeReportTransition rt
              (s.le.tryAcquireOrRenew env).2.2).1
            succeeded := false },
          ((s.le.tryAcquireOrRenew env).2.1.maybeReportTransition rt
              (s.le.tryAcquireOrRenew env).2.2).2) := by
  unfold acquireTick
  simp only []
  rw [if_pos h]

/-- One tick of the acquire phase that succeeds. -/
theorem acquireTick_succeeded {σ : Type} (rt : Runtime σ) (s : AcquireState σ) (env : Env σ)
    (h : (s.le.tryAcquireOrRenew env).1 = true) :
    acquireTick rt s env
      = ({ le := ((s.le.tryAcquireOrRenew env).2.1.maybeReportTransition rt
              (s.le.tryAcquireOrRenew env).2.2).1
           succeeded := true, cancelled := true },
          ((s.le.tryAcquireOrRenew env).2.1.maybeReportTransition rt
              (s.le.tryAcquireOrRenew env).2.2).1.metrics.leaderOn
            ((s.le.tryAcquireOrRenew env).2.1.maybeReportTransition rt
              (s.le.tryAcquireOrRenew env).2.2).1.config.Name
            (callRecordEvent ((s.le.tryAcquireOrRenew env).2.1.maybeReportTransition rt
              (s.le.tryAcquireOrRenew env).2.2).1.lock "became leader"
              ((s.le.tryAcquireOrRenew env).2.1.maybeReportTransition rt
                (s.le.tryAcquireOrRenew env).2.2).2)) := by
  unfold acquireTick
  simp only []
  rw [if_neg (by simp [h])]

/-- A tick: `tryAcquireOrRenew` and then `maybeReportTransition`. -/
theorem tick_grows {σ : Type} (rt : Runtime σ) (le : LeaderElector σ) (env : Env σ) :
    Env.Grows (Call.inWatch le.lock.Identity) env
        ((le.tryAcquireOrRenew env).2.1.maybeReportTransition rt (le.tryAcquireOrRenew env).2.2).2
      ∧ ((le.tryAcquireOrRenew env).2.1.maybeReportTransition rt
          (le.tryAcquireOrRenew env).2.2).1.config = le.config
      ∧ ((le.tryAcquireOrRenew env).2.1.maybeReportTransition rt
          (le.tryAcquireOrRenew env).2.2).1.metrics = le.metrics := by
  obtain ⟨hg, hs⟩ := tryAcquireOrRenew_grows le env
  obtain ⟨hc, -, hm, -, -⟩ := maybeReportTransition_config rt (le.tryAcquireOrRenew env).2.1
    (le.tryAcquireOrRenew env).2.2
  refine ⟨?_, hc.trans hs.1, hm.trans hs.2.2.2⟩
  exact (hg.mono (Call.inWatch_of_inTick _)).andThen
    ((maybeReportTransition_grows rt _ _).mono (Call.inWatch_of_isNewLeader _))

/-- What the acquire phase does: while it has not succeeded, its calls are those of failed
ticks; when it returns true, it ends with a tick, started in a state `le0`, `env0` of the
phase, whose `tryAcquireOrRenew` returned true, followed by the event and the metric. -/
theorem acquire_post {σ : Type} (rt : Runtime σ) (rounds : Nat) (le : LeaderElector σ)
    (env : Env σ) :
    (le.acquire rt rounds env).2.1.config = le.config
      ∧ (le.acquire rt rounds env).2.1.metrics = le.metrics
      ∧ ((le.acquire rt rounds env).1 = false →
          Env.Grows (Call.inWatch le.lock.Identity) env (le.acquire rt rounds env).2.2)
      ∧ ((le.acquire rt rounds env).1 = true →
          ∃ (le0 : LeaderElector σ) (env0 : Env σ),
            Env.Grows (Call.inWatch le.lock.Identity) env env0
              ∧ (le0.tryAcquireOrRenew env0).1 = true
              ∧ Env.Grows (Call.inWatch le.lock.Identity) env0
                  ((le0.tryAcquireOrRenew env0).2.1.maybeReportTransition rt
                    (le0.tryAcquireOrRenew env0).2.2).2
              ∧ (le.acquire rt rounds env).2.2.calls
                = ((le0.tryAcquireOrRenew env0).2.1.maybeReportTransition rt
                    (le0.tryAcquireOrRenew env0).2.2).2.calls
                  ++ [Call.recordEvent "became leader", Call.leaderOn le.config.Name]
              ∧ (le.acquire rt rounds env).2.1
                = ((le0.tryAcquireOrRenew env0).2.1.maybeReportTransition rt
                    (le0.tryAcquireOrRenew env0).2.2).1
              ∧ (le.acquire rt rounds env).2.2
                = ((le0.tryAcquireOrRenew env0).2.1.maybeReportTransition rt
                    (le0.tryAcquireOrRenew env0).2.2).1.metrics.leaderOn
                  ((le0.tryAcquireOrRenew env0).2.1.maybeReportTransition rt
                    (le0.tryAcquireOrRenew env0).2.2).1.config.Name
                  (callRecordEvent ((le0.tryAcquireOrRenew env0).2.1.maybeReportTransition rt
                      (le0.tryAcquireOrRenew env0).2.2).1.lock "became leader"
                    ((le0.tryAcquireOrRenew env0).2.1.maybeReportTransition rt
                      (le0.tryAcquireOrRenew env0).2.2).2)) := by
  have key := JitterUntil_post rt (acquireTick rt) AcquireState.cancelled le.config.RetryPeriod
    JitterFactor .ctx
    (fun s e => s.succeeded = false ∧ s.cancelled = false ∧ s.le.config = le.config
      ∧ s.le.metrics = le.metrics ∧ Env.Grows (Call.inWatch le.lock.Identity) env e)
    (fun s e => s.le.config = le.config ∧ s.le.metrics = le.metrics
      ∧ (s.succeeded = false → Env.Grows (Call.inWatch le.lock.Identity) env e)
      ∧ (s.succeeded = true →
          ∃ (le0 : LeaderElector σ) (env0 : Env σ),
            Env.Grows (Call.inWatch le.lock.Identity) env env0
              ∧ (le0.tryAcquireOrRenew env0).1 = true
              ∧ Env.Grows (Call.inWatch le.lock.Identity) env0
                  ((le0.tryAcquireOrRenew env0).2.1.maybeReportTransition rt
                    (le0.tryAcquireOrRenew env0).2.2).2
              ∧ e.calls
                = ((le0.tryAcquireOrRenew env0).2.1.maybeReportTransition rt
                    (le0.tryAcquireOrRenew env0).2.2).2.calls
                  ++ [Call.recordEvent "became leader", Call.leaderOn le.config.Name]
              ∧ s.le
                = ((le0.tryAcquireOrRenew env0).2.1.maybeReportTransition rt
                    (le0.tryAcquireOrRenew env0).2.2).1
              ∧ e
                = ((le0.tryAcquireOrRenew env0).2.1.maybeReportTransition rt
                    (le0.tryAcquireOrRenew env0).2.2).1.metrics.leaderOn
                  ((le0.tryAcquireOrRenew env0).2.1.maybeReportTransition rt
                    (le0.tryAcquireOrRenew env0).2.2).1.config.Name
                  (callRecordEvent ((le0.tryAcquireOrRenew env0).2.1.maybeReportTransition rt
                      (le0.tryAcquireOrRenew env0).2.2).1.lock "became leader"
                    ((le0.tryAcquireOrRenew env0).2.1.maybeReportTransition rt
                      (le0.tryAcquireOrRenew env0).2.2).2)))
    (fun s e st h => h)
    (fun s e h => ⟨h.2.2.1, h.2.2.2.1, fun _ => h.2.2.2.2, fun hs => by
      rw [h.1] at hs; cases hs⟩)
    (fun s e h => by
      obtain ⟨hs, hc, hcfg, hmet, hg⟩ := h
      obtain ⟨tg, tcfg, tmet⟩ := tick_grows rt s.le e
      have hlock : s.le.lock = le.lock := lock_of_config_eq le s.le hcfg
      rw [hlock] at tg
      cases hr : (s.le.tryAcquireOrRenew e).1 with
      | false =>
        rw [acquireTick_failed rt s e hr]
        refine ⟨fun _ => ⟨rfl, hc, tcfg.trans hcfg, tmet.trans hmet, hg.andThen tg⟩, ?_⟩
        intro hcl
        simp only [hc] at hcl
        cases hcl
      | true =>
        rw [acquireTick_succeeded rt s e hr]
        refine ⟨fun hcl => (by cases hcl), fun _ => ?_⟩
        refine ⟨tcfg.trans hcfg, tmet.trans hmet, fun h => (by cases h), fun _ => ?_⟩
        refine ⟨s.le, e, hg, hr, tg, ?_, rfl, rfl⟩
        simp [leaderMetricsAdapter.leaderOn, callRecordEvent, tcfg, hcfg])
    rounds { le := le, succeeded := false, cancelled := false } env
    ⟨rfl, rfl, rfl, rfl, Env.Grows.same _ _⟩
  exact key

/-- One round of the renew phase keeps the configuration and makes calls of the renew
phase only. -/
theorem renewTick_grows {σ : Type} (rt : Runtime σ) (rounds : Nat) (le : LeaderElector σ)
    (env : Env σ) (s : RenewState σ) (e : Env σ)
    (h : s.le.config = le.config ∧ s.le.metrics = le.metrics
      ∧ Env.Grows (Call.inRenew le.lock.Identity) env e) :
    (renewTick rt rounds s e).1.le.config = le.config
      ∧ (renewTick rt rounds s e).1.le.metrics = le.metrics
      ∧ Env.Grows (Call.inRenew le.lock.Identity) env (renewTick rt rounds s e).2 := by
  have hp := PollImmediateUntil_inv rt s.le.config.RetryPeriod
    (fun (le : LeaderElector σ) env => le.tryAcquireOrRenew env) .timeoutCtx
    (fun (x : LeaderElector σ) (e : Env σ) => x.config = le.config ∧ x.metrics = le.metrics
      ∧ Env.Grows (Call.inRenew le.lock.Identity) env e)
    (fun x e st h => h)
    (fun x e h => by
      obtain ⟨hg, hs⟩ := tryAcquireOrRenew_grows x e
      rw [lock_of_config_eq le x h.1] at hg
      exact ⟨hs.1.trans h.1, hs.2.2.2.trans h.2.1,
        h.2.2.andThen (hg.mono (Call.inRenew_of_inTick _))⟩)
    rounds s.le e h
  obtain ⟨pc, pm, pg⟩ := hp
  obtain ⟨mc, -, mm, -, -⟩ := maybeReportTransition_config rt
    (PollImmediateUntil rt s.le.config.RetryPeriod
      (fun (le : LeaderElector σ) env => le.tryAcquireOrRenew env) .timeoutCtx rounds s.le e).2.1
    (PollImmediateUntil rt s.le.config.RetryPeriod
      (fun (le : LeaderElector σ) env => le.tryAcquireOrRenew env) .timeoutCtx rounds s.le e).2.2
  have mg := (maybeReportTransition_grows rt
    (PollImmediateUntil rt s.le.config.RetryPeriod
      (fun (le : LeaderElector σ) env => le.tryAcquireOrRenew env) .timeoutCtx rounds s.le e).2.1
    (PollImmediateUntil rt s.le.config.RetryPeriod
      (fun (le : LeaderElector σ) env => le.tryAcquireOrRenew env) .timeoutCtx rounds s.le e).2.2).mono
    (Call.inRenew_of_isNewLeader le.lock.Identity)
  unfold renewTick
  simp only []
  split_ifs with hok
  · exact ⟨mc.trans pc, mm.trans pm, pg.andThen mg⟩
  · refine ⟨mc.trans pc, mm.trans pm, (pg.andThen mg).andThen ?_⟩
    exact Env.Grows.one (Call.leaderOff _) rfl rfl

/-- The loop of the renew phase keeps the configuration and makes calls of the renew phase
only. -/
theorem renewLoop_grows {σ : Type} (rt : Runtime σ) (rounds : Nat) (le : LeaderElector σ)
    (env : Env σ) :
    (Until rt (renewTick rt rounds) RenewState.cancelled le.config.RetryPeriod .ctx rounds
        { le := le, cancelled := false } env).1.le.config = le.config
      ∧ (Until rt (renewTick rt rounds) RenewState.cancelled le.config.RetryPeriod .ctx rounds
        { le := le, cancelled := false } env).1.le.metrics = le.metrics
      ∧ Env.Grows (Call.inRenew le.lock.Identity) env
        (Until rt (renewTick rt rounds) RenewState.cancelled le.config.RetryPeriod .ctx rounds
          { le := le, cancelled := false } env).2 := by
  unfold Until
  exact JitterUntil_post rt (renewTick rt rounds) RenewState.cancelled le.config.RetryPeriod 0
    .ctx
    (fun s e => s.le.config = le.config ∧ s.le.metrics = le.metrics
      ∧ Env.Grows (Call.inRenew le.lock.Identity) env e)
    (fun s e => s.le.config = le.config ∧ s.le.metrics = le.metrics
      ∧ Env.Grows (Call.inRenew le.lock.Identity) env e)
    (fun s e st h => h) (fun s e h => h)
    (fun s e h => ⟨fun _ => renewTick_grows rt rounds le env s e h,
      fun _ => renewTick_grows rt rounds le env s e h⟩)
    rounds { le := le, cancelled := false } env ⟨rfl, rfl, Env.Grows.same _ _⟩

/-- The calls of the renew phase: those of its loop, those of `release` when
`ReleaseOnCancel` is set, and the event "stopped leading" at the end. -/
theorem renew_grows {σ : Type} (rt : Runtime σ) (rounds : Nat) (le : LeaderElector σ)
    (env : Env σ) :
    (le.renew rt rounds env).1.config = le.config
      ∧ ∃ l, (le.renew rt rounds env).2.calls
          = env.calls ++ l ++ [Call.recordEvent "stopped leading"]
        ∧ ∀ c ∈ l, (c.inRenew le.lock.Identity
            || (le.config.ReleaseOnCancel && c.isRelease)) = true := by
  obtain ⟨hc, -, l, hl, hp⟩ := renewLoop_grows rt rounds le env
  unfold LeaderElector.renew
  simp only []
  split_ifs with hroc
  · obtain ⟨⟨l2, hl2, hp2⟩, hs⟩ := release_grows
      (Until rt (renewTick rt rounds) RenewState.cancelled le.config.RetryPeriod .ctx rounds
        { le := le, cancelled := false } env).1.le
      (Until rt (renewTick rt rounds) RenewState.cancelled le.config.RetryPeriod .ctx rounds
        { le := le, cancelled := false } env).2 le.lock.Identity
    refine ⟨hs.1.trans hc, l ++ l2, ?_, ?_⟩
    · simp [callRecordEvent, hl2, hl]
    · rw [hc] at hroc
      intro c hcm
      rcases List.mem_append.1 hcm with h | h
      · simp [hp c h]
      · have := hp2 c h
        simp only [Bool.or_eq_true] at this
        rcases this with h3 | h3
        · simp [Call.inRenew, h3]
        · simp [hroc, h3]
  · refine ⟨hc, l, ?_, ?_⟩
    · simp [callRecordEvent, hl]
    · intro c hcm
      simp [hp c hcm]

/-- The calls of `Run`: those of the acquire phase and, when it returned true, the start of
`OnStartedLeading` and the calls of the renew phase; then `OnStoppedLeading`. -/
theorem Run_calls {σ : Type} (rt : Runtime σ) (rounds : Nat) (le : LeaderElector σ)
    (env : Env σ) (started : σ → σ) (stopped : σ → σ)
    (hStarted : le.config.Callbacks.OnStartedLeading = some started)
    (hStopped : le.config.Callbacks.OnStoppedLeading = some stopped) :
    ∃ le' env', le.Run rt rounds env = some (le', env')
      ∧ ((le.acquire rt rounds env).1 = false →
          env'.calls = (le.acquire rt rounds env).2.2.calls ++ [Call.onStoppedLeading])
      ∧ ((le.acquire rt rounds env).1 = true →
          ∃ l, env'.calls = (le.acquire rt rounds env).2.2.calls ++ [Call.onStartedLeading] ++ l
              ++ [Call.recordEvent "stopped leading", Call.onStoppedLeading]
            ∧ ∀ c ∈ l, (c.inRenew le.lock.Identity
                || (le.config.ReleaseOnCancel && c.isRelease)) = true) := by
  obtain ⟨hcfg, -, -, -⟩ := acquire_post rt rounds le env
  unfold LeaderElector.Run
  simp only []
  cases ha : (le.acquire rt rounds env).1 with
  | false =>
    simp only [if_true]
    unfold LeaderElector.stoppedLeading
    simp only [hcfg, hStopped]
    exact ⟨_, _, rfl, fun _ => rfl, fun h => by cases h⟩
  | true =>
    simp only [Bool.true_eq_false, if_false, hcfg, hStarted]
    obtain ⟨hrc, l, hl, hp⟩ := renew_grows rt rounds (le.acquire rt rounds env).2.1
      (callGo rt Call.onStartedLeading started (le.acquire rt rounds env).2.2)
    unfold LeaderElector.stoppedLeading
    simp only [hrc, hcfg, hStopped]
    refine ⟨_, _, rfl, fun h => (by cases h), fun _ => ⟨l, ?_, ?_⟩⟩
    · show _ ++ [Call.onStoppedLeading] = _
      rw [hl]
      simp [callGo]
    · rw [lock_of_config_eq le _ hcfg, hcfg] at hp
      exact hp

theorem deliveries_of_no_newLeader (p : Call → Bool) (hp : ∀ c, p c = true → c.isNewLeader = false)
    (l : List Call) (h : ∀ c ∈ l, p c = true) : deliveries l = [] := by
  unfold deliveries
  rw [List.filterMap_eq_nil_iff]
  intro c hc
  have := hp c (h c hc)
  cases c <;> simp [Call.isNewLeader, Call.delivered] at this ⊢

theorem Reported.append_quiet {reported : String} {l l' : List Call} (h : Reported reported l)
    (hq : deliveries l' = []) : Reported reported (l ++ l') := by
  unfold Reported deliveries at *
  rw [List.filterMap_append, hq, List.append_nil]
  exact h

theorem Reported.append_delivery {reported id : String} {l : List Call}
    (h : Reported reported l) (hne : id ≠ reported) :
    Reported id (l ++ [Call.onNewLeader id]) := by
  unfold Reported deliveries at *
  rw [List.filterMap_append]
  simp only [List.filterMap_cons, Call.delivered, List.filterMap_nil]
  refine ⟨List.Chain'.append h.1 (List.chain'_singleton _) ?_, ?_⟩
  · intro x hx y hy
    simp only [List.head?_cons, Option.mem_def, Option.some.injEq] at hy
    subst hy
    rw [h.2 x hx]
    exact fun e => hne e.symm
  · intro x hx
    rw [List.getLast?_concat] at hx
    simp only [Option.mem_def, Option.some.injEq] at hx
    exact hx.symm

/-- Every operation keeps the deliveries in order: with an `OnNewLeader` they are `Reported`,
and without one there are none. -/
theorem perform_reported {σ : Type} (rt : Runtime σ) (le : LeaderElector σ) (env : Env σ)
    (op : Op) (base l : List Call) (hl : env.calls = base ++ l)
    (h1 : le.config.Callbacks.OnNewLeader ≠ none → Reported le.reportedLeader l)
    (h2 : le.config.Callbacks.OnNewLeader = none → deliveries l = []) :
    (le.perform rt env op).1.config = le.config
      ∧ ∃ l', (le.perform rt env op).2.calls = base ++ l'
        ∧ (le.config.Callbacks.OnNewLeader ≠ none →
            Reported (le.perform rt env op).1.reportedLeader l')
        ∧ (le.config.Callbacks.OnNewLeader = none → deliveries l' = []) := by
  have quiet : ∀ (le' : LeaderElector σ) (env' : Env σ) (l2 : List Call),
      le'.config = le.config → le'.reportedLeader = le.reportedLeader →
      env'.calls = env.calls ++ l2 → deliveries l2 = [] →
      le'.config = le.config
        ∧ ∃ l', env'.calls = base ++ l'
          ∧ (le.config.Callbacks.OnNewLeader ≠ none → Reported le'.reportedLeader l')
          ∧ (le.config.Callbacks.OnNewLeader = none → deliveries l' = []) := by
    intro le' env' l2 hc hr hl2 hq
    refine ⟨hc, l ++ l2, by rw [hl2, hl, List.append_assoc], fun hn => ?_, fun hn => ?_⟩
    · rw [hr]
      exact (h1 hn).append_quiet hq
    · unfold deliveries at *
      rw [List.filterMap_append, h2 hn, hq]
      rfl
  cases op with
  | tryAcquireOrRenew =>
    obtain ⟨⟨l2, hl2, hp2⟩, hs⟩ := tryAcquireOrRenew_grows le env
    exact quiet _ _ l2 hs.1 hs.2.1 hl2
      (deliveries_of_no_newLeader (Call.inTick le.lock.Identity)
        (fun c hc => by cases c <;> simp [Call.inTick, Call.isNewLeader] at hc ⊢) l2 hp2)
  | release =>
    obtain ⟨⟨l2, hl2, hp2⟩, hs⟩ := release_grows le env le.lock.Identity
    exact quiet _ _ l2 hs.1 hs.2.1 hl2
      (deliveries_of_no_newLeader (fun c => c.inTick le.lock.Identity || c.isRelease)
        (fun c hc => by
          cases c <;> simp [Call.inTick, Call.isNewLeader, Call.isRelease] at hc ⊢) l2 hp2)
  | maybeReportTransition =>
    obtain ⟨he, hc⟩ := maybeReportTransition_eq rt le env
    simp only [LeaderElector.perform]
    refine ⟨by rw [he], ?_⟩
    rw [hc, he, hl]
    by_cases heq : le.observedRecord.HolderIdentity = le.reportedLeader
    · rw [if_neg (fun hcond => hcond.1 heq)]
      refine ⟨l, by simp, fun hn => ?_, h2⟩
      simp only []
      rw [heq]
      exact h1 hn
    · cases hcb : le.config.Callbacks.OnNewLeader with
      | none =>
        rw [if_neg (by simp)]
        exact ⟨l, by simp, fun hn => absurd rfl hn, fun _ => h2 hcb⟩
      | some f =>
        rw [if_pos ⟨heq, by simp⟩]
        refine ⟨l ++ [Call.onNewLeader le.observedRecord.HolderIdentity],
          by rw [List.append_assoc], fun _ => ?_, fun hn => (by cases hn)⟩
        exact (h1 (by rw [hcb]; simp)).append_delivery heq

/-- Over a sequence of operations no two consecutive deliveries carry the same identity. -/
theorem performAll_reported {σ : Type} (rt : Runtime σ) (ops : List Op) :
    ∀ (le : LeaderElector σ) (env : Env σ) (base l : List Call), env.calls = base ++ l →
      (le.config.Callbacks.OnNewLeader ≠ none → Reported le.reportedLeader l) →
      (le.config.Callbacks.OnNewLeader = none → deliveries l = []) →
      ∃ l', (LeaderElector.performAll rt ops le env).2.calls = base ++ l'
        ∧ (deliveries l').Chain' (fun a b => a ≠ b) := by
  induction ops with
  | nil =>
    intro le env base l hl h1 h2
    refine ⟨l, hl, ?_⟩
    cases hcb : le.config.Callbacks.OnNewLeader with
    | none => rw [h2 hcb]; exact List.chain'_nil
    | some f => exact (h1 (by rw [hcb]; simp)).1
  | cons op ops ih =>
    intro le env base l hl h1 h2
    obtain ⟨hc, l', hl', h1', h2'⟩ := perform_reported rt le env op base l hl h1 h2
    unfold LeaderElector.performAll
    exact ih _ _ base l' hl' (by rw [hc]; exact h1') (by rw [hc]; exact h2')

theorem Orderly.start {σ : Type} (le : LeaderElector σ) (env : Env σ) :
    Orderly le.config env.calls le env :=
  ⟨rfl, [], by simp, fun _ => ⟨List.chain'_nil, by simp [deliveries]⟩, fun _ => rfl⟩

theorem Orderly.st {σ : Type} {cfg : LeaderElectionConfig σ} {base : List Call}
    {cur : LeaderElector σ} {env : Env σ} (h : Orderly cfg base cur env) (st : σ) :
    Orderly cfg base cur { env with st := st } := h

theorem Orderly.perform {σ : Type} {cfg : LeaderElectionConfig σ} {base : List Call}
    {cur : LeaderElector σ} {env : Env σ} (h : Orderly cfg base cur env) (rt : Runtime σ)
    (op : Op) : Orderly cfg base (cur.perform rt env op).1 (cur.perform rt env op).2 := by
  obtain ⟨hc, l, hl, h1, h2⟩ := h
  subst hc
  obtain ⟨hc', l', hl', h1', h2'⟩ := perform_reported rt cur env op base l hl h1 h2
  exact ⟨hc', l', hl', h1', h2'⟩

/-- A call that is no delivery, by an elector with the same configuration and reported
leader, keeps the deliveries in order. -/
theorem Orderly.quiet {σ : Type} {cfg : LeaderElectionConfig σ} {base : List Call}
    {cur : LeaderElector σ} {env : Env σ} (h : Orderly cfg base cur env) (env' : Env σ)
    (c : Call) (hc : env'.calls = env.calls ++ [c]) (hq : c.delivered = none) :
    Orderly cfg base cur env' := by
  obtain ⟨hcfg, l, hl, h1, h2⟩ := h
  have hd : deliveries [c] = [] := by simp [deliveries, hq]
  refine ⟨hcfg, l ++ [c], by rw [hc, hl, List.append_assoc], fun hn => (h1 hn).append_quiet hd,
    fun hn => ?_⟩
  unfold deliveries at *
  rw [List.filterMap_append, h2 hn, hd]
  rfl

theorem Orderly.chain {σ : Type} {cfg : LeaderElectionConfig σ} {base : List Call}
    {cur : LeaderElector σ} {env : Env σ} (h : Orderly cfg base cur env) :
    ∃ l, env.calls = base ++ l ∧ (deliveries l).Chain' (fun a b => a ≠ b) := by
  obtain ⟨-, l, hl, h1, h2⟩ := h
  refine ⟨l, hl, ?_⟩
  cases hcb : cfg.Callbacks.OnNewLeader with
  | none => rw [h2 hcb]; exact List.chain'_nil
  | some f => exact (h1 (by rw [hcb]; simp)).1

theorem acquireTick_orderly {σ : Type} (rt : Runtime σ) (cfg : LeaderElectionConfig σ)
    (base : List Call) (s : AcquireState σ) (env : Env σ) (h : Orderly cfg base s.le env) :
    Orderly cfg base (acquireTick rt s env).1.le (acquireTick rt s env).2 := by
  have h1 := (h.perform rt .tryAcquireOrRenew).perform rt .maybeReportTransition
  simp only [LeaderElector.perform] at h1
  cases hr : (s.le.tryAcquireOrRenew env).1 with
  | false =>
    rw [acquireTick_failed rt s env hr]
    exact h1
  | true =>
    rw [acquireTick_succeeded rt s env hr]
    exact (h1.quiet _ (Call.recordEvent "became leader") rfl rfl).quiet _ (Call.leaderOn _) rfl rfl

theorem acquire_orderly {σ : Type} (rt : Runtime σ) (rounds : Nat) (cfg : LeaderElectionConfig σ)
    (base : List Call) (le : LeaderElector σ) (env : Env σ) (h : Orderly cfg base le env) :
    Orderly cfg base (le.acquire rt rounds env).2.1 (le.acquire rt rounds env).2.2 :=
  JitterUntil_post rt (acquireTick rt) AcquireState.cancelled le.config.RetryPeriod JitterFactor
    .ctx (fun s e => Orderly cfg base s.le e) (fun s e => Orderly cfg base s.le e)
    (fun _ _ st h => h.st st) (fun _ _ h => h)
    (fun s e h => ⟨fun _ => acquireTick_orderly rt cfg base s e h,
      fun _ => acquireTick_orderly rt cfg base s e h⟩)
    rounds { le := le, succeeded := false, cancelled := false } env h

theorem renewTick_orderly {σ : Type} (rt : Runtime σ) (rounds : Nat)
    (cfg : LeaderElectionConfig σ) (base : List Call) (s : RenewState σ) (env : Env σ)
    (h : Orderly cfg base s.le env) :
    Orderly cfg base (renewTick rt rounds s env).1.le (renewTick rt rounds s env).2 := by
  have hp := PollImmediateUntil_inv rt s.le.config.RetryPeriod
    (fun (le : LeaderElector σ) env => le.tryAcquireOrRenew env) .timeoutCtx
    (fun (x : LeaderElector σ) (e : Env σ) => Orderly cfg base x e)
    (fun _ _ st h => h.st st)
    (fun x e h => h.perform rt .tryAcquireOrRenew)
    rounds s.le env h
  have hm := Orderly.perform hp rt .maybeReportTransition
  simp only [LeaderElector.perform] at hm
  unfold renewTick
  simp only []
  split_ifs with hok
  · exact hm
  · exact hm.quiet _ (Call.leaderOff _) rfl rfl

theorem renew_orderly {σ : Type} (rt : Runtime σ) (rounds : Nat) (cfg : LeaderElectionConfig σ)
    (base : List Call) (le : LeaderElector σ) (env : Env σ) (h : Orderly cfg base le env) :
    Orderly cfg base (le.renew rt rounds env).1 (le.renew rt rounds env).2 := by
  have hloop : Orderly cfg base
      (Until rt (renewTick rt rounds) RenewState.cancelled le.config.RetryPeriod .ctx rounds
        { le := le, cancelled := false } env).1.le
      (Until rt (renewTick rt rounds) RenewState.cancelled le.config.RetryPeriod .ctx rounds
        { le := le, cancelled := false } env).2 :=
    JitterUntil_post rt (renewTick rt rounds) RenewState.cancelled le.config.RetryPeriod 0
      .ctx (fun s e => Orderly cfg base s.le e) (fun s e => Orderly cfg base s.le e)
      (fun _ _ st h => h.st st) (fun _ _ h => h)
      (fun s e h => ⟨fun _ => renewTick_orderly rt rounds cfg base s e h,
        fun _ => renewTick_orderly rt rounds cfg base s e h⟩)
      rounds { le := le, cancelled := false } env h
  unfold LeaderElector.renew
  simp only []
  split_ifs with hroc
  · have hr := hloop.perform rt .release
    simp only [LeaderElector.perform] at hr
    exact hr.quiet _ (Call.recordEvent "stopped leading") rfl rfl
  · exact hloop.quiet _ (Call.recordEvent "stopped leading") rfl rfl

/-- In the calls of `Run` no two consecutive deliveries to `OnNewLeader` carry the same
identity. -/
theorem Run_orderly {σ : Type} (rt : Runtime σ) (rounds : Nat) (le : LeaderElector σ)
    (env : Env σ) (le' : LeaderElector σ) (env' : Env σ)
    (h : le.Run rt rounds env = some (le', env')) :
    ∃ l, env'.calls = env.calls ++ l ∧ (deliveries l).Chain' (fun a b => a ≠ b) := by
  have ha := acquire_orderly rt rounds le.config env.calls le env (Orderly.start le env)
  unfold LeaderElector.Run at h
  simp only [] at h
  split_ifs at h with hacq
  · unfold LeaderElector.stoppedLeading at h
    split at h
    · cases h
    · injection h with h
      injection h with h1 h2
      subst h1 h2
      exact (ha.quiet _ Call.onStoppedLeading rfl rfl).chain
  · split at h
    · cases h
    · rename_i f hf
      have hr := renew_orderly rt rounds le.config env.calls _ _
        (ha.quiet (callGo rt Call.onStartedLeading f (le.acquire rt rounds env).2.2)
          Call.onStartedLeading rfl rfl)
      unfold LeaderElector.stoppedLeading at h
      split at h
      · cases h
      · injection h with h
        injection h with h1 h2
        subst h1 h2
        exact (hr.quiet _ Call.onStoppedLeading rfl rfl).chain

/-- What step 1 leaves on the way to step 2: the clock was read, and at most one `Update`
(the optimistic one, which failed) was made; the elector is as before. -/
theorem fastPath_slowPath_calls {σ : Type} (le : LeaderElector σ) (env envG : Env σ)
    (now : Int) (ler : LeaderElectionRecord)
    (h : le.fastPath env = .slowPath now ler envG) :
    envG.calls = env.calls ++ [Call.now]
      ∨ ∃ r, envG.calls = env.calls ++ [Call.now, Call.update r] := by
  unfold LeaderElector.fastPath at h
  simp only [] at h
  split_ifs at h with hc
  · split at h
    · cases h
    · rename_i e hu
      injection h with h1 h2 h3
      right
      refine ⟨ler, ?_⟩
      rw [← h3, ← h2]
      simp [callUpdate, callNow]
  · injection h with h1 h2 h3
    left
    rw [← h3]
    simp [callNow]

/-- C20: a failed tick on a transient `Get` error.  For every elector state, when
`tryAcquireOrRenew` reaches `Get` and `Get` returns an error that is not "not found", the call
returns false, leaves the elector (so `observedRecord`, `observedRawRecord` and
`observedTime`) exactly as it was, and `Get` is its last call: no `Create` and no further
`Update` is issued (the only `Update` there can be is the optimistic one before the
`Get`). -/
theorem tryAcquireOrRenew_get_error {σ : Type} (le : LeaderElector σ) (env envG envG' : Env σ)
    (now : Int) (ler : LeaderElectionRecord) (e : LockError)
    (hFast : le.fastPath env = .slowPath now ler envG)
    (hGet : callGet le.lock envG = (.error e, envG'))
    (hErr : e ≠ LockError.notFound) :
    le.tryAcquireOrRenew env = (false, le, envG')
      ∧ (envG'.calls = env.calls ++ [Call.now, Call.get]
        ∨ ∃ r, envG'.calls = env.calls ++ [Call.now, Call.update r, Call.get]) := by
  constructor
  · unfold LeaderElector.tryAcquireOrRenew
    rw [hFast]
    simp only [LeaderElector.obtainOrCreate, hGet]
    rw [if_pos hErr]
  · have hc := callGet_calls _ _ _ _ hGet
    rcases fastPath_slowPath_calls le env envG now ler hFast with h | ⟨r, h⟩
    · left; rw [hc, h]; simp
    · right; exact ⟨r, by rw [hc, h]; simp⟩

/-- C11: the release record.  For every elector state with `IsLeader()` true (the lock has a
non-empty identity, as `NewLeaderElector` ensures), `release` reads the clock and issues
exactly one `Update`, whose record has an empty `HolderIdentity`, `LeaseDurationSeconds` = 1,
`AcquireTime` = `RenewTime` = now and the `LeaderTransitions` of the observed record.  When
that `Update` fails, `release` returns false and calls nothing else; when it succeeds, the
record becomes the observed record (the clock is read once more for `observedTime`), `release`
returns true, and afterwards `IsLeader()` is false and `GetLeader()` is the empty string. -/
theorem release_record {σ : Type} (le : LeaderElector σ) (env env1 env2 : Env σ) (now : Int)
    (res : Option LockError)
    (hLeader : le.IsLeader = true) (hId : le.lock.Identity ≠ "")
    (hNow : callNow le.clock env = (now, env1))
    (hUpdate : callUpdate le.lock ⟨"", 1, now, now, le.observedRecord.LeaderTransitions⟩ env1
      = (res, env2)) :
    env2.calls
        = env.calls ++ [Call.now, Call.update ⟨"", 1, now, now, le.observedRecord.LeaderTransitions⟩]
      ∧ (res ≠ none → le.release env = (false, le, env2))
      ∧ (res = none → ∀ t env3, callNow le.clock env2 = (t, env3) →
          le.release env
            = (true, { le with observedRecord := ⟨"", 1, now, now, le.observedRecord.LeaderTransitions⟩,
                               observedTime := t }, env3)
          ∧ env3.calls = env2.calls ++ [Call.now]
          ∧ (le.release env).2.1.IsLeader = false
          ∧ (le.release env).2.1.GetLeader = "") := by
  refine ⟨?_, ?_, ?_⟩
  · rw [callUpdate_calls _ _ _ _ _ hUpdate, callNow_calls _ _ _ _ hNow]; simp
  · intro hres
    unfold LeaderElector.release
    rw [if_neg (by simp [hLeader])]
    simp only [hNow, hUpdate]
    cases res with
    | none => exact absurd rfl hres
    | some e => rfl
  · intro hres t env3 hSet
    subst hres
    have hrel : le.release env
        = (true, { le with observedRecord := ⟨"", 1, now, now, le.observedRecord.LeaderTransitions⟩,
                           observedTime := t }, env3) := by
      unfold LeaderElector.release
      rw [if_neg (by simp [hLeader])]
      simp only [hNow, hUpdate, LeaderElector.setObservedRecord, hSet]
    refine ⟨hrel, callNow_calls _ _ _ _ hSet, ?_, ?_⟩
    · rw [hrel]
      simp only [LeaderElector.IsLeader, LeaderElector.getObservedRecord, LeaderElector.lock,
        beq_eq_false_iff_ne]
      exact fun h => hId h.symm
    · rw [hrel]; rfl

/-- C14: the health adaptor.  `HealthzAdaptor.Check` returns no error, and calls nothing,
whenever no elector is attached, in particular directly after `NewLeaderHealthzAdaptor`; and
after `SetLeaderElection(le)` it returns exactly the result of `le.Check(timeout)`, on the
state the elector has at the time of the request, for the timeout given at construction and
for every request. -/
theorem HealthzAdaptor_check {σ ρ : Type} (timeout : Int) (electors : Nat → LeaderElector σ)
    (req : ρ) (env : Env σ) (le : Nat) (l : HealthzAdaptor) :
    ({ le := none, timeout := timeout } : HealthzAdaptor).Check electors req env = (none, env)
      ∧ (NewLeaderHealthzAdaptor timeout).Check electors req env = (none, env)
      ∧ ((NewLeaderHealthzAdaptor timeout).SetLeaderElection le).Check electors req env
        = (electors le).Check timeout env
      ∧ (l.SetLeaderElection le).Check electors req env = (electors le).Check l.timeout env :=
  ⟨rfl, rfl, rfl, rfl⟩

/-- C15: leadership is decided by the observed record only.  For every elector state
`IsLeader()` is true if and only if `GetLeader()` equals the identity of the lock, and
`GetLeader()` is the `HolderIdentity` of the observed record; and for an elector returned by
`NewLeaderElector`, on which no operation has run, `GetLeader()` is the empty string and
`IsLeader()` is false. -/
theorem IsLeader_iff_getLeader {σ : Type} (le : LeaderElector σ) :
    (le.IsLeader = true ↔ le.GetLeader = le.lock.Identity)
      ∧ le.GetLeader = le.observedRecord.HolderIdentity
      ∧ ∀ (realClock : Clock σ) (factory : leaderMetricsFactory σ)
          (lec : LeaderElectionConfig σ) (env env' : Env σ) (le0 : LeaderElector σ),
          NewLeaderElector realClock factory lec env = (.ok le0, env') →
          le0.GetLeader = "" ∧ le0.IsLeader = false := by
  refine ⟨by simp [LeaderElector.IsLeader, LeaderElector.GetLeader], rfl, ?_⟩
  intro realClock factory lec env env' le0 h
  obtain ⟨-, hrec, -, -, -, hid, -⟩ := NewLeaderElector_ok realClock factory lec env env' le0 h
  constructor
  · simp [LeaderElector.GetLeader, LeaderElector.getObservedRecord, hrec, zeroRecord]
  · simp only [LeaderElector.IsLeader, LeaderElector.getObservedRecord, hrec, zeroRecord,
      beq_eq_false_iff_ne]
    exact fun h => hid h.symm

/-- What `callSince` returns when the clock reads `now`. -/
theorem callSince_eq {σ : Type} (c : Clock σ) (ts : Int) (env env1 : Env σ) (now : Int)
    (hNow : callNow c env = (now, env1)) : callSince c ts env = (timeSub now ts, env1) := by
  unfold callSince
  rw [hNow]

/-- C13 (amended): health staleness.  For every elector state and every tolerance `T` for which
the sum `LeaseDuration` + `T` fits an `int64`, and unless that sum is the largest
`time.Duration` while `now - observedTime` is above it (where `clock.Since` saturates),
`Check(T)` returns no error if and only if `IsLeader()` is false or
`now - observedTime ≤ LeaseDuration + T`, where `now` is the clock reading that `Check`
takes; an elector that is not the leader does not read the clock. -/
theorem Check_healthy_iff {σ : Type} (le : LeaderElector σ) (T : Int) (env env1 : Env σ)
    (now : Int)
    (hNow : callNow le.clock env = (now, env1))
    (hLo : -2 ^ 63 ≤ le.config.LeaseDuration + T) (hHi : le.config.LeaseDuration + T < 2 ^ 63)
    (hSat : now - le.observedTime ≤ 2 ^ 63 - 1 ∨ le.config.LeaseDuration + T < 2 ^ 63 - 1) :
    ((le.Check T env).1 = none ↔
      (le.IsLeader = false ∨ now - le.observedTime ≤ le.config.LeaseDuration + T))
    ∧ (le.IsLeader = false → le.Check T env = (none, env))
    ∧ (le.IsLeader = true → (le.Check T env).2 = env1) := by
  have hw : wrapInt64 (le.config.LeaseDuration + T) = le.config.LeaseDuration + T := by
    unfold wrapInt64; omega
  unfold LeaderElector.Check
  rw [callSince_eq le.clock le.observedTime env env1 now hNow, hw]
  cases hL : le.IsLeader
  · simp
  · simp only [Bool.true_eq_false, if_false, false_or]
    unfold timeSub
    split_ifs with h h2 h3 <;> simp <;> omega

/-- The candidate record that step 1 hands to step 2 names this elector as holder. -/
theorem fastPath_slowPath_holder {σ : Type} (le : LeaderElector σ) (env envG : Env σ)
    (now : Int) (ler : LeaderElectionRecord)
    (h : le.fastPath env = .slowPath now ler envG) :
    ler.HolderIdentity = le.lock.Identity := by
  unfold LeaderElector.fastPath at h
  simp only [] at h
  split_ifs at h with hc
  · split at h
    · cases h
    · injection h with h1 h2 h3
      rw [← h2]
  · injection h with h1 h2 h3
    rw [← h2]

/-- A call of `maybeReportTransition` on an elector whose observed holder is reported
already does nothing. -/
theorem maybeReportTransition_quiet {σ : Type} (rt : Runtime σ) (le : LeaderElector σ)
    (env : Env σ) (h : le.observedRecord.HolderIdentity = le.reportedLeader) :
    le.maybeReportTransition rt env = (le, env) := by
  unfold LeaderElector.maybeReportTransition
  rw [if_pos h]

/-- C19 (amended): a change of the raw bytes only.  For every elector whose observed record
has a non-empty holder that is reported already and a `LeaseDurationSeconds` of at least 1 and
at most 9223372036, when `tryAcquireOrRenew` reaches a `Get` that returns the observed record
with raw bytes that differ from `observedRawRecord` (the clock is assumed not to run
backwards, `now ≤ t2`, for the reading `t2` taken when the record is installed), then after
the call `observedRawRecord` is the new bytes, the `LeaderTransitions` and the
`HolderIdentity` of the observed record are unchanged, `observedTime` is `t2` or, when the
elector is the holder and its `Update` succeeded, the clock reading taken after that
`Update`, and a following `maybeReportTransition` starts no `OnNewLeader` and changes
nothing.  An elector that is not the holder returns false, with its elector otherwise
unchanged. -/
theorem tryAcquireOrRenew_raw_change_only {σ : Type} (rt : Runtime σ) (le : LeaderElector σ)
    (env envG envG' env2 : Env σ) (now t2 : Int) (ler : LeaderElectionRecord) (raw : Bytes)
    (hFast : le.fastPath env = .slowPath now ler envG)
    (hGet : callGet le.lock envG = (.ok (le.observedRecord, raw), envG'))
    (hRaw : le.observedRawRecord ≠ raw)
    (hHolder : le.observedRecord.HolderIdentity ≠ "")
    (hReported : le.reportedLeader = le.observedRecord.HolderIdentity)
    (hLds : 1 ≤ le.observedRecord.LeaseDurationSeconds)
    (hLds' : le.observedRecord.LeaseDurationSeconds ≤ 9223372036)
    (hSet : callNow le.clock envG' = (t2, env2))
    (hClock : now ≤ t2) :
    (le.tryAcquireOrRenew env).2.1.observedRawRecord = raw
      ∧ (le.tryAcquireOrRenew env).2.1.observedRecord.LeaderTransitions
        = le.observedRecord.LeaderTransitions
      ∧ (le.tryAcquireOrRenew env).2.1.observedRecord.HolderIdentity
        = le.observedRecord.HolderIdentity
      ∧ ((le.tryAcquireOrRenew env).2.1.observedTime = t2
        ∨ ((le.tryAcquireOrRenew env).1 = true
          ∧ ∃ e, (le.tryAcquireOrRenew env).2.1.observedTime = (callNow le.clock e).1
            ∧ (le.tryAcquireOrRenew env).2.2 = (callNow le.clock e).2))
      ∧ (∀ e, (le.tryAcquireOrRenew env).2.1.maybeReportTransition rt e
          = ((le.tryAcquireOrRenew env).2.1, e))
      ∧ (le.observedRecord.HolderIdentity ≠ le.lock.Identity →
          le.tryAcquireOrRenew env
            = (false, { le with observedTime := t2, observedRawRecord := raw }, env2)) := by
  have hObs := observe_changed le le.observedRecord raw envG' env2 t2 hRaw hSet
  have hdur := secondsDuration_eq le.observedRecord.LeaseDurationSeconds (by omega) hLds'
  have hSec : (0 : Int) < Second := by decide
  have hpos : 0 < Second * le.observedRecord.LeaseDurationSeconds := by positivity
  have hValid : (le.observe le.observedRecord raw envG').1.isLeaseValid now = true := by
    rw [hObs]
    simp [LeaderElector.isLeaseValid, LeaderElector.getObservedRecord, hdur]
    omega
  by_cases hOwn : le.observedRecord.HolderIdentity = le.lock.Identity
  · have hL : (le.observe le.observedRecord raw envG').1.IsLeader = true := by
      rw [hObs]
      simpa [LeaderElector.IsLeader, LeaderElector.getObservedRecord, LeaderElector.lock]
        using hOwn
    obtain ⟨res, envU, hUpd⟩ : ∃ res envU, callUpdate le.lock
        { ler with AcquireTime := le.observedRecord.AcquireTime,
                   LeaderTransitions := le.observedRecord.LeaderTransitions }
        (le.metrics.slowpathExercised le.config.Name env2) = (res, envU) := ⟨_, _, rfl⟩
    obtain ⟨t3, env3, hSet3⟩ : ∃ t3 env3, callNow le.clock envU = (t3, env3) := ⟨_, _, rfl⟩
    have hU := acquireOrRenewFrom_update le now t3 ler le.observedRecord
      { ler with AcquireTime := le.observedRecord.AcquireTime,
                 LeaderTransitions := le.observedRecord.LeaderTransitions }
      raw envG' (le.metrics.slowpathExercised le.config.Name env2) envU env3 res
      (by rw [hL]; simp) (by rw [if_pos hL]) (by rw [if_pos hL, hObs]) hUpd hSet3
    rw [tryAcquireOrRenew_of_get le env envG envG' now ler _ raw hFast hGet, hU, hObs]
    have hlh := fastPath_slowPath_holder le env envG now ler hFast
    cases res with
    | some e =>
      refine ⟨rfl, rfl, rfl, Or.inl rfl, fun e => ?_, fun h => absurd hOwn h⟩
      exact maybeReportTransition_quiet rt _ e hReported.symm
    | none =>
      refine ⟨rfl, rfl, by simp only []; rw [hlh, hOwn],
        Or.inr ⟨rfl, envU, by rw [hSet3], by rw [hSet3]⟩, fun e => ?_, fun h => absurd hOwn h⟩
      exact maybeReportTransition_quiet rt _ e (by simp only []; rw [hlh, ← hOwn, hReported])
  · have h := tryAcquireOrRenew_held le env envG envG' now ler le.observedRecord raw hFast hGet
      hHolder (observe_not_leader le le.observedRecord raw envG' hOwn (Or.inl hRaw)) hValid
    rw [h, hObs]
    refine ⟨rfl, rfl, rfl, Or.inl rfl, fun e => ?_, fun _ => rfl⟩
    exact maybeReportTransition_quiet rt _ e hReported.symm

/-! ## The journal of the collaborators and the call log -/

theorem Env.Logged.stay {σ : Type} (τ : σ → List Call) (env : Env σ) : Env.Logged τ env env :=
  ⟨[], by simp, by simp⟩

theorem Env.Logged.followedBy {σ : Type} {τ : σ → List Call} {e1 e2 e3 : Env σ}
    (h1 : Env.Logged τ e1 e2) (h2 : Env.Logged τ e2 e3) : Env.Logged τ e1 e3 := by
  obtain ⟨l1, h1, hp1⟩ := h1
  obtain ⟨l2, h2, hp2⟩ := h2
  exact ⟨l1 ++ l2, by rw [h2, h1, List.append_assoc], by rw [hp2, hp1, List.append_assoc]⟩

theorem Env.Logged.call {σ : Type} {τ : σ → List Call} {e1 e2 : Env σ} (c : Call)
    (h : e2.calls = e1.calls ++ [c]) (hτ : τ e2.st = τ e1.st ++ [c]) : Env.Logged τ e1 e2 :=
  ⟨[c], h, hτ⟩

/-- A journal of an elector is a journal of every elector with the same configuration, clock
and metrics adapter. -/
theorem Journal.transfer {σ : Type} {rt : Runtime σ} {le le' : LeaderElector σ}
    {metric : LeaderMetric σ} {τ : σ → List Call} (J : Journal rt le metric τ)
    (hc : le'.config = le.config) (hk : le'.clock = le.clock) (hm : le'.metrics = le.metrics) :
    Journal rt le' metric τ := by
  have hl : le'.lock = le.lock := lock_of_config_eq le le' hc
  exact
    { metrics := hm.trans J.metrics
      now := by rw [hk]; exact J.now
      get := by rw [hl]; exact J.get
      create := by rw [hl]; exact J.create
      update := by rw [hl]; exact J.update
      recordEvent := by rw [hl]; exact J.recordEvent
      leaderOn := J.leaderOn
      leaderOff := J.leaderOff
      slowpathExercised := J.slowpathExercised
      go := J.go
      done := J.done
      wait := J.wait
      started := by rw [hc]; exact J.started
      stopped := by rw [hc]; exact J.stopped
      newLeader := by rw [hc]; exact J.newLeader }

theorem callNow_logged {σ : Type} {rt : Runtime σ} {le : LeaderElector σ}
    {metric : LeaderMetric σ} {τ : σ → List Call} (J : Journal rt le metric τ) (env : Env σ) :
    Env.Logged τ env (callNow le.clock env).2 :=
  Env.Logged.call Call.now rfl (J.now env.st)

theorem callGet_logged {σ : Type} {rt : Runtime σ} {le : LeaderElector σ}
    {metric : LeaderMetric σ} {τ : σ → List Call} (J : Journal rt le metric τ) (env : Env σ) :
    Env.Logged τ env (callGet le.lock env).2 :=
  Env.Logged.call Call.get rfl (J.get env.st)

theorem callCreate_logged {σ : Type} {rt : Runtime σ} {le : LeaderElector σ}
    {metric : LeaderMetric σ} {τ : σ → List Call} (J : Journal rt le metric τ)
    (r : LeaderElectionRecord) (env : Env σ) :
    Env.Logged τ env (callCreate le.lock r env).2 :=
  Env.Logged.call (Call.create r) rfl (J.create r env.st)

theorem callUpdate_logged {σ : Type} {rt : Runtime σ} {le : LeaderElector σ}
    {metric : LeaderMetric σ} {τ : σ → List Call} (J : Journal rt le metric τ)
    (r : LeaderElectionRecord) (env : Env σ) :
    Env.Logged τ env (callUpdate le.lock r env).2 :=
  Env.Logged.call (Call.update r) rfl (J.update r env.st)

theorem callRecordEvent_logged {σ : Type} {rt : Runtime σ} {le : LeaderElector σ}
    {metric : LeaderMetric σ} {τ : σ → List Call} (J : Journal rt le metric τ)
    (msg : String) (env : Env σ) :
    Env.Logged τ env (callRecordEvent le.lock msg env) :=
  Env.Logged.call (Call.recordEvent msg) rfl (J.recordEvent msg env.st)

theorem leaderOn_logged {σ : Type} {rt : Runtime σ} {le : LeaderElector σ}
    {metric : LeaderMetric σ} {τ : σ → List Call} (J : Journal rt le metric τ)
    (name : String) (env : Env σ) :
    Env.Logged τ env (le.metrics.leaderOn name env) := by
  rw [J.metrics]
  exact Env.Logged.call (Call.leaderOn name) rfl (J.leaderOn name env.st)

theorem leaderOff_logged {σ : Type} {rt : Runtime σ} {le : LeaderElector σ}
    {metric : LeaderMetric σ} {τ : σ → List Call} (J : Journal rt le metric τ)
    (name : String) (env : Env σ) :
    Env.Logged τ env (le.metrics.leaderOff name env) := by
  rw [J.metrics]
  exact Env.Logged.call (Call.leaderOff name) rfl (J.leaderOff name env.st)

theorem slowpathExercised_logged {σ : Type} {rt : Runtime σ} {le : LeaderElector σ}
    {metric : LeaderMetric σ} {τ : σ → List Call} (J : Journal rt le metric τ)
    (name : String) (env : Env σ) :
    Env.Logged τ env (le.metrics.slowpathExercised name env) := by
  rw [J.metrics]
  exact Env.Logged.call (Call.slowpathExercised name) rfl (J.slowpathExercised name env.st)

theorem callGo_logged {σ : Type} {rt : Runtime σ} {le : LeaderElector σ}
    {metric : LeaderMetric σ} {τ : σ → List Call} (J : Journal rt le metric τ)
    (c : Call) (g : σ → σ) (hg : ∀ s, τ (g s) = τ s ++ [c]) (env : Env σ) :
    Env.Logged τ env (callGo rt c g env) :=
  Env.Logged.call c rfl ((J.go g env.st).trans (hg env.st))

theorem callDone_logged {σ : Type} {rt : Runtime σ} {le : LeaderElector σ}
    {metric : LeaderMetric σ} {τ : σ → List Call} (J : Journal rt le metric τ)
    (ch : StopCh) (env : Env σ) :
    Env.Logged τ env (callDone rt ch env).2 :=
  ⟨[], by simp [callDone], by simp [callDone, J.done]⟩

theorem callWait_logged {σ : Type} {rt : Runtime σ} {le : LeaderElector σ}
    {metric : LeaderMetric σ} {τ : σ → List Call} (J : Journal rt le metric τ)
    (ch : StopCh) (period : Int) (jitterFactor : ℚ) (env : Env σ) :
    Env.Logged τ env (callWait rt ch period jitterFactor env).2 :=
  ⟨[], by simp [callWait], by simp [callWait, J.wait]⟩

theorem setObservedRecord_logged {σ : Type} {rt : Runtime σ} {le : LeaderElector σ}
    {metric : LeaderMetric σ} {τ : σ → List Call} (J : Journal rt le metric τ)
    (r : LeaderElectionRecord) (env : Env σ) :
    Env.Logged τ env (le.setObservedRecord r env).2 :=
  callNow_logged J env

theorem observe_logged {σ : Type} {rt : Runtime σ} {le : LeaderElector σ}
    {metric : LeaderMetric σ} {τ : σ → List Call} (J : Journal rt le metric τ)
    (old : LeaderElectionRecord) (raw : Bytes) (env : Env σ) :
    Env.Logged τ env (le.observe old raw env).2 := by
  unfold LeaderElector.observe
  split_ifs with h
  · exact setObservedRecord_logged J old env
  · exact Env.Logged.stay _ _

theorem acquireOrRenewFrom_logged {σ : Type} {rt : Runtime σ} {le : LeaderElector σ}
    {metric : LeaderMetric σ} {τ : σ → List Call} (J : Journal rt le metric τ) (now : Int)
    (ler old : LeaderElectionRecord) (raw : Bytes) (env : Env σ) :
    Env.Logged τ env (le.acquireOrRenewFrom now ler old raw env).2.2 := by
  obtain ⟨-, hs⟩ := observe_grows le old raw le.lock.Identity env
  have J' := J.transfer hs.1 hs.2.2.1 hs.2.2.2
  have ho := observe_logged J old raw env
  unfold LeaderElector.acquireOrRenewFrom
  simp only []
  split_ifs with h1 h2
  · exact ho
  · have hm := slowpathExercised_logged J' (le.observe old raw env).1.config.Name
      (le.observe old raw env).2
    have hu := callUpdate_logged J'
      { ler with AcquireTime := old.AcquireTime, LeaderTransitions := old.LeaderTransitions }
      ((le.observe old raw env).1.metrics.slowpathExercised (le.observe old raw env).1.config.Name
        (le.observe old raw env).2)
    split
    · exact (ho.followedBy hm).followedBy hu
    · exact ((ho.followedBy hm).followedBy hu).followedBy (setObservedRecord_logged J' _ _)
  · have hu := callUpdate_logged J'
      { ler with LeaderTransitions := wrapInt64 (old.LeaderTransitions + 1) }
      (le.observe old raw env).2
    split
    · exact ho.followedBy hu
    · exact (ho.followedBy hu).followedBy (setObservedRecord_logged J' _ _)

theorem obtainOrCreate_logged {σ : Type} {rt : Runtime σ} {le : LeaderElector σ}
    {metric : LeaderMetric σ} {τ : σ → List Call} (J : Journal rt le metric τ) (now : Int)
    (ler : LeaderElectionRecord) (env : Env σ) :
    Env.Logged τ env (le.obtainOrCreate now ler env).2.2 := by
  have hg := callGet_logged J env
  unfold LeaderElector.obtainOrCreate
  simp only []
  split
  · split_ifs with he
    · exact hg
    · have hc := callCreate_logged J ler (callGet le.lock env).2
      split
      · exact hg.followedBy hc
      · exact (hg.followedBy hc).followedBy (setObservedRecord_logged J _ _)
  · exact hg.followedBy (acquireOrRenewFrom_logged J now ler _ _ (callGet le.lock env).2)

/-- The journal after one `tryAcquireOrRenew` is the journal before it followed by the calls
that the call has logged. -/
theorem tryAcquireOrRenew_logged {σ : Type} {rt : Runtime σ} {le : LeaderElector σ}
    {metric : LeaderMetric σ} {τ : σ → List Call} (J : Journal rt le metric τ) (env : Env σ) :
    Env.Logged τ env (le.tryAcquireOrRenew env).2.2 := by
  have hn := callNow_logged J env
  unfold LeaderElector.tryAcquireOrRenew
  split
  · rename_i le1 env1 hf
    unfold LeaderElector.fastPath at hf
    simp only [] at hf
    split_ifs at hf with hc
    · split at hf
      · injection hf with h1 h2
        subst h1 h2
        exact (hn.followedBy (callUpdate_logged J _ _)).followedBy
          (setObservedRecord_logged J _ _)
      · cases hf
  · rename_i now ler env1 hf
    unfold LeaderElector.fastPath at hf
    simp only [] at hf
    split_ifs at hf with hc
    · split at hf
      · cases hf
      · injection hf with h1 h2 h3
        subst h3
        exact (hn.followedBy (callUpdate_logged J _ _)).followedBy
          (obtainOrCreate_logged J now ler _)
    · injection hf with h1 h2 h3
      subst h3
      exact hn.followedBy (obtainOrCreate_logged J now ler _)

theorem release_logged {σ : Type} {rt : Runtime σ} {le : LeaderElector σ}
    {metric : LeaderMetric σ} {τ : σ → List Call} (J : Journal rt le metric τ) (env : Env σ) :
    Env.Logged τ env (le.release env).2.2 := by
  unfold LeaderElector.release
  split_ifs with h
  · exact Env.Logged.stay _ _
  · simp only []
    have hn := callNow_logged J env
    have hu := callUpdate_logged J
      ⟨"", 1, (callNow le.clock env).1, (callNow le.clock env).1,
        le.observedRecord.LeaderTransitions⟩ (callNow le.clock env).2
    split
    · exact hn.followedBy hu
    · exact (hn.followedBy hu).followedBy (setObservedRecord_logged J _ _)

theorem maybeReportTransition_logged {σ : Type} {rt : Runtime σ} {le : LeaderElector σ}
    {metric : LeaderMetric σ} {τ : σ → List Call} (J : Journal rt le metric τ) (env : Env σ) :
    Env.Logged τ env (le.maybeReportTransition rt env).2 := by
  unfold LeaderElector.maybeReportTransition
  split_ifs with h
  · exact Env.Logged.stay _ _
  · simp only []
    split
    · exact Env.Logged.stay _ _
    · rename_i f hf
      exact callGo_logged J _ _ (fun s => J.newLeader f hf _ s) env

/-- What a tick keeps: the configuration, the clock and the metrics adapter. -/
theorem tick_setup {σ : Type} (rt : Runtime σ) (le : LeaderElector σ) (env : Env σ) :
    ((le.tryAcquireOrRenew env).2.1.maybeReportTransition rt
        (le.tryAcquireOrRenew env).2.2).1.config = le.config
      ∧ ((le.tryAcquireOrRenew env).2.1.maybeReportTransition rt
        (le.tryAcquireOrRenew env).2.2).1.clock = le.clock
      ∧ ((le.tryAcquireOrRenew env).2.1.maybeReportTransition rt
        (le.tryAcquireOrRenew env).2.2).1.metrics = le.metrics := by
  obtain ⟨-, hs⟩ := tryAcquireOrRenew_grows le env
  obtain ⟨hc, hk, hm, -, -⟩ := maybeReportTransition_config rt (le.tryAcquireOrRenew env).2.1
    (le.tryAcquireOrRenew env).2.2
  exact ⟨hc.trans hs.1, hk.trans hs.2.2.1, hm.trans hs.2.2.2⟩

theorem tick_logged {σ : Type} {rt : Runtime σ} {le : LeaderElector σ}
    {metric : LeaderMetric σ} {τ : σ → List Call} (J : Journal rt le metric τ) (env : Env σ) :
    Env.Logged τ env
      ((le.tryAcquireOrRenew env).2.1.maybeReportTransition rt (le.tryAcquireOrRenew env).2.2).2 := by
  obtain ⟨-, hs⟩ := tryAcquireOrRenew_grows le env
  exact (tryAcquireOrRenew_logged J env).followedBy
    (maybeReportTransition_logged (J.transfer hs.1 hs.2.2.1 hs.2.2.2) _)

theorem acquireTick_logged {σ : Type} {rt : Runtime σ} {metric : LeaderMetric σ}
    {τ : σ → List Call} (s : AcquireState σ) (J : Journal rt s.le metric τ) (env : Env σ) :
    Env.Logged τ env (acquireTick rt s env).2
      ∧ (acquireTick rt s env).1.le.config = s.le.config
      ∧ (acquireTick rt s env).1.le.clock = s.le.clock
      ∧ (acquireTick rt s env).1.le.metrics = s.le.metrics := by
  obtain ⟨hc, hk, hm⟩ := tick_setup rt s.le env
  have ht := tick_logged J env
  have J' := J.transfer hc hk hm
  cases hr : (s.le.tryAcquireOrRenew env).1 with
  | false =>
    rw [acquireTick_failed rt s env hr]
    exact ⟨ht, hc, hk, hm⟩
  | true =>
    rw [acquireTick_succeeded rt s env hr]
    exact ⟨(ht.followedBy (callRecordEvent_logged J' _ _)).followedBy (leaderOn_logged J' _ _),
      hc, hk, hm⟩

/-- A loop of `JitterUntil` keeps what every run of `f`, every check of the stop channel and
every wait keep. -/
theorem JitterUntil_keeps {σ S : Type} (rt : Runtime σ) (f : S → Env σ → S × Env σ)
    (closed : S → Bool) (period : Int) (jitterFactor : ℚ) (stopCh : StopCh)
    (Inv : S → Env σ → Prop)
    (hdone : ∀ s env, Inv s env → Inv s (callDone rt stopCh env).2)
    (hwait : ∀ s env, Inv s env → Inv s (callWait rt stopCh period jitterFactor env).2)
    (hf : ∀ s env, Inv s env → Inv (f s env).1 (f s env).2) :
    ∀ (rounds : Nat) (s : S) (env : Env σ), Inv s env →
      Inv (JitterUntil rt f closed period jitterFactor stopCh rounds s env).1
        (JitterUntil rt f closed period jitterFactor stopCh rounds s env).2 := by
  intro rounds
  induction rounds with
  | zero => intro s env h; exact h
  | succ n ih =>
    intro s env h
    unfold JitterUntil
    simp only []
    split_ifs with h1 h2 h3
    · exact hdone s env h
    · exact hf s _ (hdone s env h)
    · exact hwait _ _ (hf s _ (hdone s env h))
    · exact ih _ _ (hwait _ _ (hf s _ (hdone s env h)))

/-- A loop of `PollImmediateUntil` keeps what every try of the condition, every check of the
stop channel and every wait keep. -/
theorem PollImmediateUntil_keeps {σ S : Type} (rt : Runtime σ) (interval : Int)
    (condition : S → Env σ → Bool × S × Env σ) (stopCh : StopCh) (Inv : S → Env σ → Prop)
    (hdone : ∀ s env, Inv s env → Inv s (callDone rt stopCh env).2)
    (hwait : ∀ s env, Inv s env → Inv s (callWait rt stopCh interval 0 env).2)
    (hc : ∀ s env, Inv s env → Inv (condition s env).2.1 (condition s env).2.2)
    (rounds : Nat) (s : S) (env : Env σ) (h : Inv s env) :
    Inv (PollImmediateUntil rt interval condition stopCh rounds s env).2.1
      (PollImmediateUntil rt interval condition stopCh rounds s env).2.2 := by
  have hp : ∀ (rounds : Nat) (s : S) (env : Env σ), Inv s env →
      Inv (PollUntil rt interval condition stopCh rounds s env).2.1
        (PollUntil rt interval condition stopCh rounds s env).2.2 := by
    intro rounds
    induction rounds with
    | zero => intro s env h; exact h
    | succ n ih =>
      intro s env h
      unfold PollUntil
      simp only []
      split_ifs with h1 h2
      · exact hwait s env h
      · exact hc _ _ (hwait s env h)
      · exact ih _ _ (hc _ _ (hwait s env h))
  unfold PollImmediateUntil
  simp only []
  split_ifs with h1 h2
  · exact hc s env h
  · exact hdone _ _ (hc s env h)
  · exact hp rounds _ _ (hdone _ _ (hc s env h))

/-- The journal after the acquire phase is the journal before it followed by the calls that
the phase has logged. -/
theorem acquire_logged {σ : Type} {rt : Runtime σ} {le : LeaderElector σ}
    {metric : LeaderMetric σ} {τ : σ → List Call} (J : Journal rt le metric τ) (rounds : Nat)
    (env : Env σ) :
    Env.Logged τ env (le.acquire rt rounds env).2.2
      ∧ (le.acquire rt rounds env).2.1.config = le.config
      ∧ (le.acquire rt rounds env).2.1.clock = le.clock
      ∧ (le.acquire rt rounds env).2.1.metrics = le.metrics := by
  have key := JitterUntil_keeps rt (acquireTick rt) AcquireState.cancelled le.config.RetryPeriod
    JitterFactor .ctx
    (fun s e => Env.Logged τ env e ∧ s.le.config = le.config ∧ s.le.clock = le.clock
      ∧ s.le.metrics = le.metrics)
    (fun s e h => ⟨h.1.followedBy (callDone_logged J _ e), h.2⟩)
    (fun s e h => ⟨h.1.followedBy (callWait_logged J _ _ _ e), h.2⟩)
    (fun s e h => by
      obtain ⟨hl, hc, hk, hm⟩ := h
      obtain ⟨tl, tc, tk, tm⟩ := acquireTick_logged s (J.transfer hc hk hm) e
      exact ⟨hl.followedBy tl, tc.trans hc, tk.trans hk, tm.trans hm⟩)
    rounds { le := le, succeeded := false, cancelled := false } env
    ⟨Env.Logged.stay _ _, rfl, rfl, rfl⟩
  exact key

theorem renewTick_logged {σ : Type} {rt : Runtime σ} {metric : LeaderMetric σ}
    {τ : σ → List Call} (rounds : Nat) (s : RenewState σ) (J : Journal rt s.le metric τ)
    (env : Env σ) :
    Env.Logged τ env (renewTick rt rounds s env).2
      ∧ (renewTick rt rounds s env).1.le.config = s.le.config
      ∧ (renewTick rt rounds s env).1.le.clock = s.le.clock
      ∧ (renewTick rt rounds s env).1.le.metrics = s.le.metrics := by
  have hp := PollImmediateUntil_keeps rt s.le.config.RetryPeriod
    (fun (le : LeaderElector σ) env => le.tryAcquireOrRenew env) .timeoutCtx
    (fun (x : LeaderElector σ) (e : Env σ) => Env.Logged τ env e ∧ x.config = s.le.config
      ∧ x.clock = s.le.clock ∧ x.metrics = s.le.metrics)
    (fun x e h => ⟨h.1.followedBy (callDone_logged J _ e), h.2⟩)
    (fun x e h => ⟨h.1.followedBy (callWait_logged J _ _ _ e), h.2⟩)
    (fun x e h => by
      obtain ⟨hl, hc, hk, hm⟩ := h
      obtain ⟨-, hs⟩ := tryAcquireOrRenew_grows x e
      exact ⟨hl.followedBy (tryAcquireOrRenew_logged (J.transfer hc hk hm) e),
        hs.1.trans hc, hs.2.2.1.trans hk, hs.2.2.2.trans hm⟩)
    rounds s.le env ⟨Env.Logged.stay _ _, rfl, rfl, rfl⟩
  obtain ⟨pl, pc, pk, pm⟩ := hp
  obtain ⟨mc, mk, mm, -, -⟩ := maybeReportTransition_config rt
    (PollImmediateUntil rt s.le.config.RetryPeriod
      (fun (le : LeaderElector σ) env => le.tryAcquireOrRenew env) .timeoutCtx rounds s.le env).2.1
    (PollImmediateUntil rt s.le.config.RetryPeriod
      (fun (le : LeaderElector σ) env => le.tryAcquireOrRenew env) .timeoutCtx rounds s.le env).2.2
  have ml := maybeReportTransition_logged (J.transfer pc pk pm)
    (PollImmediateUntil rt s.le.config.RetryPeriod
      (fun (le : LeaderElector σ) env => le.tryAcquireOrRenew env) .timeoutCtx rounds s.le env).2.2
  unfold renewTick
  simp only []
  split_ifs with hok
  · exact ⟨pl.followedBy ml, mc.trans pc, mk.trans pk, mm.trans pm⟩
  · exact ⟨(pl.followedBy ml).followedBy
      (leaderOff_logged (J.transfer (mc.trans pc) (mk.trans pk) (mm.trans pm)) _ _),
      mc.trans pc, mk.trans pk, mm.trans pm⟩

/-- The journal after the renew phase is the journal before it followed by the calls that the
phase has logged. -/
theorem renew_logged {σ : Type} {rt : Runtime σ} {le : LeaderElector σ}
    {metric : LeaderMetric σ} {τ : σ → List Call} (J : Journal rt le metric τ) (rounds : Nat)
    (env : Env σ) :
    Env.Logged τ env (le.renew rt rounds env).2
      ∧ (le.renew rt rounds env).1.config = le.config := by
  have key : Env.Logged τ env
        (Until rt (renewTick rt rounds) RenewState.cancelled le.config.RetryPeriod .ctx rounds
          { le := le, cancelled := false } env).2
      ∧ (Until rt (renewTick rt rounds) RenewState.cancelled le.config.RetryPeriod .ctx rounds
          { le := le, cancelled := false } env).1.le.config = le.config
      ∧ (Until rt (renewTick rt rounds) RenewState.cancelled le.config.RetryPeriod .ctx rounds
          { le := le, cancelled := false } env).1.le.clock = le.clock
      ∧ (Until rt (renewTick rt rounds) RenewState.cancelled le.config.RetryPeriod .ctx rounds
          { le := le, cancelled := false } env).1.le.metrics = le.metrics := by
    unfold Until
    exact JitterUntil_keeps rt (renewTick rt rounds) RenewState.cancelled le.config.RetryPeriod 0
      .ctx
      (fun s e => Env.Logged τ env e ∧ s.le.config = le.config ∧ s.le.clock = le.clock
        ∧ s.le.metrics = le.metrics)
      (fun s e h => ⟨h.1.followedBy (callDone_logged J _ e), h.2⟩)
      (fun s e h => ⟨h.1.followedBy (callWait_logged J _ _ _ e), h.2⟩)
      (fun s e h => by
        obtain ⟨hl, hc, hk, hm⟩ := h
        obtain ⟨tl, tc, tk, tm⟩ := renewTick_logged rounds s (J.transfer hc hk hm) e
        exact ⟨hl.followedBy tl, tc.trans hc, tk.trans hk, tm.trans hm⟩)
      rounds { le := le, cancelled := false } env ⟨Env.Logged.stay _ _, rfl, rfl, rfl⟩
  obtain ⟨kl, kc, kk, km⟩ := key
  have J1 := J.transfer kc kk km
  unfold LeaderElector.renew
  simp only []
  split_ifs with hroc
  · obtain ⟨-, hs⟩ := release_grows
      (Until rt (renewTick rt rounds) RenewState.cancelled le.config.RetryPeriod .ctx rounds
        { le := le, cancelled := false } env).1.le
      (Until rt (renewTick rt rounds) RenewState.cancelled le.config.RetryPeriod .ctx rounds
        { le := le, cancelled := false } env).2 le.lock.Identity
    have J2 := J1.transfer hs.1 hs.2.2.1 hs.2.2.2
    exact ⟨(kl.followedBy (release_logged J1 _)).followedBy (callRecordEvent_logged J2 _ _),
      hs.1.trans kc⟩
  · exact ⟨kl.followedBy (callRecordEvent_logged J1 _ _), kc⟩

/-- The call log is faithful: the journal after `Run` is the journal before it followed by
the calls that the run has logged. -/
theorem Run_logged {σ : Type} {rt : Runtime σ} {le : LeaderElector σ}
    {metric : LeaderMetric σ} {τ : σ → List Call} (J : Journal rt le metric τ) (rounds : Nat)
    (env : Env σ) (le' : LeaderElector σ) (env' : Env σ)
    (h : le.Run rt rounds env = some (le', env')) : Env.Logged τ env env' := by
  obtain ⟨al, ac, ak, am⟩ := acquire_logged J rounds env
  have Ja := J.transfer ac ak am
  unfold LeaderElector.Run at h
  simp only [] at h
  split_ifs at h with ha
  · unfold LeaderElector.stoppedLeading at h
    split at h
    · cases h
    · rename_i f hf
      simp only [Option.some.injEq, Prod.mk.injEq] at h
      obtain ⟨-, rfl⟩ := h
      exact al.followedBy (Env.Logged.call Call.onStoppedLeading rfl (Ja.stopped f hf _))
  · split at h
    · cases h
    · rename_i g hg
      have hgo := callGo_logged Ja Call.onStartedLeading g (fun s => Ja.started g hg s)
        (le.acquire rt rounds env).2.2
      obtain ⟨rl, rc⟩ := renew_logged Ja rounds
        (callGo rt Call.onStartedLeading g (le.acquire rt rounds env).2.2)
      unfold LeaderElector.stoppedLeading at h
      split at h
      · cases h
      · rename_i f hf
        simp only [Option.some.injEq, Prod.mk.injEq] at h
        obtain ⟨-, rfl⟩ := h
        have hf' : le.config.Callbacks.OnStoppedLeading = some f := by
          rw [← ac, ← rc]; exact hf
        exact ((al.followedBy hgo).followedBy rl).followedBy
          (Env.Logged.call Call.onStoppedLeading rfl (J.stopped f hf' _))

/-- The call log is faithful for every sequence of operations. -/
theorem performAll_logged {σ : Type} {rt : Runtime σ} {metric : LeaderMetric σ}
    {τ : σ → List Call} (ops : List Op) :
    ∀ (le : LeaderElector σ) (env : Env σ), Journal rt le metric τ →
      Env.Logged τ env (LeaderElector.performAll rt ops le env).2 := by
  induction ops with
  | nil => intro le env _; exact Env.Logged.stay _ _
  | cons op ops ih =>
    intro le env J
    show Env.Logged τ env
      (LeaderElector.performAll rt ops (le.perform rt env op).1 (le.perform rt env op).2).2
    cases op with
    | tryAcquireOrRenew =>
      obtain ⟨-, hs⟩ := tryAcquireOrRenew_grows le env
      exact (tryAcquireOrRenew_logged J env).followedBy
        (ih _ _ (J.transfer hs.1 hs.2.2.1 hs.2.2.2))
    | maybeReportTransition =>
      obtain ⟨hc, hk, hm, -, -⟩ := maybeReportTransition_config rt le env
      exact (maybeReportTransition_logged J env).followedBy (ih _ _ (J.transfer hc hk hm))
    | release =>
      obtain ⟨-, hs⟩ := release_grows le env le.lock.Identity
      exact (release_logged J env).followedBy (ih _ _ (J.transfer hs.1 hs.2.2.1 hs.2.2.2))

/-- The journalling collaborators keep a journal. -/
theorem journalB_journal :
    Journal journalRuntime journalB journalMetric (fun s => s.journal) :=
  { metrics := rfl
    now := fun _ => rfl
    get := fun _ => rfl
    create := fun _ _ => rfl
    update := fun _ _ => rfl
    recordEvent := fun _ _ => rfl
    leaderOn := fun _ _ => rfl
    leaderOff := fun _ _ => rfl
    slowpathExercised := fun _ _ => rfl
    go := fun _ _ => rfl
    done := fun _ _ => rfl
    wait := fun _ _ _ _ => rfl
    started := fun f hf s => by cases hf; rfl
    stopped := fun f hf s => by cases hf; rfl
    newLeader := fun f hf identity s => by cases hf; rfl }

theorem Call.ne_stopped_of_inWatch (id : String) (c : Call) (h : c.inWatch id = true) :
    c ≠ Call.onStoppedLeading := by
  rintro rfl
  simp [Call.inWatch, Call.inTick, Call.isNewLeader] at h

theorem Call.ne_stopped_of_inRenew (id : String) (b : Bool) (c : Call)
    (h : (c.inRenew id || (b && c.isRelease)) = true) : c ≠ Call.onStoppedLeading := by
  rintro rfl
  simp [Call.inRenew, Call.inTick, Call.isNewLeader, Call.isLeaderOff, Call.isRelease] at h

theorem Call.not_isStart_of_inWatch (id : String) (c : Call) (h : c.inWatch id = true) :
    c.isStart = false := by
  cases c <;> simp [Call.inWatch, Call.inTick, Call.isNewLeader, Call.isStart] at h ⊢

theorem Call.not_isStart_of_inRenew (id : String) (b : Bool) (c : Call)
    (h : (c.inRenew id || (b && c.isRelease)) = true) : c.isStart = false := by
  cases c <;>
    simp [Call.inRenew, Call.inTick, Call.isNewLeader, Call.isLeaderOff, Call.isRelease,
      Call.isStart] at h ⊢

/-- C16: `Run` invokes `OnStoppedLeading` exactly once, last.  For every runtime, every
bound on the rounds of the loops and every elector with both required callbacks (as
`NewLeaderElector` ensures), `Run` returns, and it returns the environment in which the
callback `stopped` has been applied, directly and not by a `go` statement, to the hidden
state `envB.st` that the rest of the run left, with the call of `OnStoppedLeading` entered
last in the log.  The calls `l` before it hold no call of `OnStoppedLeading`.  When the
acquire phase returned false (cancellation, never acquired), `envB` is the environment of the
acquire phase and `OnStartedLeading` is not started; when it returned true, `envB` is what the
renew phase leaves of the environment in which `started` was handed to the `go` statement of
the runtime, and `OnStartedLeading` is in `l`.  And whenever the collaborators keep a
journal of what is done to them in the hidden state, the journal after the run is the
journal before it, the calls `l`, and then the one entry of `OnStoppedLeading`: the callback
ran once, after everything else. -/
theorem Run_stops_leading_once {σ : Type} (rt : Runtime σ) (rounds : Nat)
    (le : LeaderElector σ) (env : Env σ) (started : σ → σ) (stopped : σ → σ)
    (hStarted : le.config.Callbacks.OnStartedLeading = some started)
    (hStopped : le.config.Callbacks.OnStoppedLeading = some stopped) :
    ∃ (le' : LeaderElector σ) (envB : Env σ) (l : List Call),
      le.Run rt rounds env
          = some (le', { st := stopped envB.st, calls := envB.calls ++ [Call.onStoppedLeading] })
      ∧ envB.calls = env.calls ++ l
      ∧ Call.onStoppedLeading ∉ l
      ∧ ((le.acquire rt rounds env).1 = false →
          le' = (le.acquire rt rounds env).2.1 ∧ envB = (le.acquire rt rounds env).2.2
            ∧ Call.onStartedLeading ∉ l)
      ∧ ((le.acquire rt rounds env).1 = true →
          (le', envB) = (le.acquire rt rounds env).2.1.renew rt rounds
              { st := rt.Go started (le.acquire rt rounds env).2.2.st
                calls := (le.acquire rt rounds env).2.2.calls ++ [Call.onStartedLeading] }
            ∧ Call.onStartedLeading ∈ l)
      ∧ ∀ (metric : LeaderMetric σ) (τ : σ → List Call), Journal rt le metric τ →
          τ (stopped envB.st) = τ env.st ++ l ++ [Call.onStoppedLeading] := by
  obtain ⟨hcfg, -, aF, aT⟩ := acquire_post rt rounds le env
  cases ha : (le.acquire rt rounds env).1 with
  | false =>
    obtain ⟨l, hl, hp⟩ := aF ha
    refine ⟨(le.acquire rt rounds env).2.1, (le.acquire rt rounds env).2.2, l, ?_, hl, ?_,
      fun _ => ⟨rfl, rfl, ?_⟩, fun h => (by cases h), ?_⟩
    · unfold LeaderElector.Run LeaderElector.stoppedLeading
      simp only [ha, if_true, hcfg, hStopped]
    · exact fun hm => Call.ne_stopped_of_inWatch _ _ (hp _ hm) rfl
    · intro hm
      have := Call.not_isStart_of_inWatch _ _ (hp _ hm)
      simp [Call.isStart] at this
    · intro metric τ J
      obtain ⟨⟨l', hl', hτ⟩, -, -, -⟩ := acquire_logged J rounds env
      have e : l' = l := List.append_cancel_left (hl'.symm.trans hl)
      subst e
      rw [J.stopped stopped hStopped, hτ]
  | true =>
    obtain ⟨le0, env0, ⟨l0, hl0, hp0⟩, -, ⟨l1, hl1, hp1⟩, hcalls, -, -⟩ := aT ha
    obtain ⟨hrc, l2, hl2, hp2⟩ := renew_grows rt rounds (le.acquire rt rounds env).2.1
      (callGo rt Call.onStartedLeading started (le.acquire rt rounds env).2.2)
    have hB : ((le.acquire rt rounds env).2.1.renew rt rounds
          (callGo rt Call.onStartedLeading started (le.acquire rt rounds env).2.2)).2.calls
        = env.calls ++ (l0 ++ l1
            ++ [Call.recordEvent "became leader", Call.leaderOn le.config.Name]
            ++ [Call.onStartedLeading] ++ l2 ++ [Call.recordEvent "stopped leading"]) := by
      rw [hl2]
      show ((le.acquire rt rounds env).2.2.calls ++ [Call.onStartedLeading]) ++ l2
        ++ [Call.recordEvent "stopped leading"] = _
      rw [hcalls, hl1, hl0]
      simp
    refine ⟨((le.acquire rt rounds env).2.1.renew rt rounds
          (callGo rt Call.onStartedLeading started (le.acquire rt rounds env).2.2)).1,
      ((le.acquire rt rounds env).2.1.renew rt rounds
          (callGo rt Call.onStartedLeading started (le.acquire rt rounds env).2.2)).2,
      _, ?_, hB, ?_, fun h => (by cases h), fun _ => ⟨rfl, by simp⟩, ?_⟩
    · unfold LeaderElector.Run LeaderElector.stoppedLeading
      simp only [ha, Bool.true_eq_false, if_false, hcfg, hStarted, hrc, hStopped]
    · intro hm
      simp only [List.mem_append, List.mem_cons, List.mem_singleton, List.not_mem_nil,
        or_false] at hm
      rcases hm with ((((h | h) | h) | h) | h) | h
      · exact Call.ne_stopped_of_inWatch _ _ (hp0 _ h) rfl
      · exact Call.ne_stopped_of_inWatch _ _ (hp1 _ h) rfl
      · rcases h with h | h <;> cases h
      · cases h
      · exact Call.ne_stopped_of_inRenew _ _ _ (hp2 _ h) rfl
      · cases h
    · intro metric τ J
      obtain ⟨al, ac, ak, am⟩ := acquire_logged J rounds env
      have Ja := J.transfer ac ak am
      have hgo := callGo_logged Ja Call.onStartedLeading started
        (Ja.started started (by rw [ac]; exact hStarted)) (le.acquire rt rounds env).2.2
      obtain ⟨l', hl', hτ⟩ := (al.followedBy hgo).followedBy
        (renew_logged Ja rounds
          (callGo rt Call.onStartedLeading started (le.acquire rt rounds env).2.2)).1
      have e : l' = _ := List.append_cancel_left (hl'.symm.trans hB)
      subst e
      rw [J.stopped stopped hStopped, hτ]

/-- C17: within one `Run`, `OnStartedLeading` is started at most once, and exactly when the
acquire phase returned true.  When the acquire phase returned false, the run has no call of
the start of leadership (the event "became leader", the metric `leaderOn`, the start of
`OnStartedLeading`), and it returns the state of the acquire phase to which only
`OnStoppedLeading` has been applied: nothing is handed to a `go` statement.  When it returned
true, there is a state `le0`, `env0` of the acquire phase, reached after the calls `l0`, in
which `tryAcquireOrRenew` returned true; that tick made the calls `l1`, and the calls of the
run are `l0`, `l1`, then the event "became leader", the metric `leaderOn` and the start of
`OnStartedLeading`, in this order and once, then the calls `l2` of the renew phase and of the
exit, with no call of the start of leadership in `l0`, `l1` and `l2`.  The acquire phase then
leaves the hidden state of that tick with `RecordEvent` "became leader" of the lock applied
and then `On` of the metric behind the adapter (nothing, without a metric), and the run
returns what the renew phase and `OnStoppedLeading` make of the state in which
`OnStartedLeading` has been handed once to the `go` statement of the runtime.  And whenever
the collaborators keep a journal of what is done to them in the hidden state, the journal
has grown by exactly the calls of the run. -/
theorem Run_starts_leading_once {σ : Type} (rt : Runtime σ) (rounds : Nat)
    (le : LeaderElector σ) (env : Env σ) (started : σ → σ) (stopped : σ → σ)
    (hStarted : le.config.Callbacks.OnStartedLeading = some started)
    (hStopped : le.config.Callbacks.OnStoppedLeading = some stopped) :
    ∃ le' env' l, le.Run rt rounds env = some (le', env')
      ∧ env'.calls = env.calls ++ l
      ∧ ((le.acquire rt rounds env).1 = false →
          (∀ c ∈ l, c.isStart = false)
            ∧ le.Run rt rounds env
              = some ((le.acquire rt rounds env).2.1,
                  { st := stopped (le.acquire rt rounds env).2.2.st
                    calls := (le.acquire rt rounds env).2.2.calls ++ [Call.onStoppedLeading] }))
      ∧ ((le.acquire rt rounds env).1 = true →
          ∃ (le0 : LeaderElector σ) (env0 : Env σ) (l0 l1 l2 : List Call),
            env0.calls = env.calls ++ l0
              ∧ (le0.tryAcquireOrRenew env0).1 = true
              ∧ ((le0.tryAcquireOrRenew env0).2.1.maybeReportTransition rt
                  (le0.tryAcquireOrRenew env0).2.2).2.calls = env0.calls ++ l1
              ∧ l = l0 ++ l1
                  ++ [Call.recordEvent "became leader", Call.leaderOn le.config.Name,
                      Call.onStartedLeading]
                  ++ l2
              ∧ (∀ c ∈ l0 ++ l1 ++ l2, c.isStart = false)
              ∧ (le.acquire rt rounds env).2.2
                = { st :=
                      (match le.metrics with
                        | .defaultLeaderMetrics (some metric) => metric.On le.config.Name
                        | _ => fun s => s)
                        (le.lock.RecordEvent "became leader"
                          ((le0.tryAcquireOrRenew env0).2.1.maybeReportTransition rt
                            (le0.tryAcquireOrRenew env0).2.2).2.st)
                    calls :=
                      ((le0.tryAcquireOrRenew env0).2.1.maybeReportTransition rt
                          (le0.tryAcquireOrRenew env0).2.2).2.calls
                        ++ [Call.recordEvent "became leader", Call.leaderOn le.config.Name] }
              ∧ le.Run rt rounds env
                = some (((le.acquire rt rounds env).2.1.renew rt rounds
                      { st := rt.Go started (le.acquire rt rounds env).2.2.st
                        calls := (le.acquire rt rounds env).2.2.calls
                          ++ [Call.onStartedLeading] }).1,
                    { st := stopped ((le.acquire rt rounds env).2.1.renew rt rounds
                        { st := rt.Go started (le.acquire rt rounds env).2.2.st
                          calls := (le.acquire rt rounds env).2.2.calls
                            ++ [Call.onStartedLeading] }).2.st
                      calls := ((le.acquire rt rounds env).2.1.renew rt rounds
                        { st := rt.Go started (le.acquire rt rounds env).2.2.st
                          calls := (le.acquire rt rounds env).2.2.calls
                            ++ [Call.onStartedLeading] }).2.calls
                        ++ [Call.onStoppedLeading] }))
      ∧ ∀ (metric : LeaderMetric σ) (τ : σ → List Call), Journal rt le metric τ →
          τ env'.st = τ env.st ++ l := by
  obtain ⟨le', env', hRun, hF, hT⟩ := Run_calls rt rounds le env started stopped hStarted hStopped
  obtain ⟨hcfg, hmet, aF, aT⟩ := acquire_post rt rounds le env
  have hJ : ∀ l, env'.calls = env.calls ++ l →
      ∀ (metric : LeaderMetric σ) (τ : σ → List Call), Journal rt le metric τ →
        τ env'.st = τ env.st ++ l := by
    intro l hl metric τ J
    obtain ⟨l', hl', hτ⟩ := Run_logged J rounds env le' env' hRun
    have e : l' = l := List.append_cancel_left (hl'.symm.trans hl)
    subst e
    exact hτ
  cases ha : (le.acquire rt rounds env).1 with
  | false =>
    obtain ⟨l, hl, hp⟩ := aF ha
    have hc : env'.calls = env.calls ++ (l ++ [Call.onStoppedLeading]) := by
      rw [hF ha, hl, List.append_assoc]
    refine ⟨le', env', l ++ [Call.onStoppedLeading], hRun, hc,
      fun _ => ⟨?_, ?_⟩, fun h => (by cases h), hJ _ hc⟩
    · intro c hc
      rcases List.mem_append.1 hc with h | h
      · exact Call.not_isStart_of_inWatch _ _ (hp _ h)
      · simp at h; subst h; rfl
    · unfold LeaderElector.Run LeaderElector.stoppedLeading
      simp only [ha, if_true, hcfg, hStopped]
  | true =>
    obtain ⟨le0, env0, ⟨l0, hl0, hp0⟩, hr, ⟨l1, hl1, hp1⟩, hcalls, hle, henv⟩ := aT ha
    obtain ⟨l2, hl2, hp2⟩ := hT ha
    obtain ⟨hrc, -⟩ := renew_grows rt rounds (le.acquire rt rounds env).2.1
      (callGo rt Call.onStartedLeading started (le.acquire rt rounds env).2.2)
    have hc : env'.calls = env.calls ++ (l0 ++ l1
        ++ [Call.recordEvent "became leader", Call.leaderOn le.config.Name,
            Call.onStartedLeading]
        ++ (l2 ++ [Call.recordEvent "stopped leading", Call.onStoppedLeading])) := by
      rw [hl2, hcalls, hl1, hl0]
      simp
    refine ⟨le', env', _, hRun, hc,
      fun h => (by cases h),
      fun _ => ⟨le0, env0, l0, l1, _, hl0, hr, hl1, rfl, ?_, ?_, ?_⟩, hJ _ hc⟩
    · intro c hc
      simp only [List.mem_append, List.mem_cons, List.mem_singleton, List.not_mem_nil,
        or_false] at hc
      rcases hc with (h | h) | (h | h)
      · exact Call.not_isStart_of_inWatch _ _ (hp0 _ h)
      · exact Call.not_isStart_of_inWatch _ _ (hp1 _ h)
      · exact Call.not_isStart_of_inRenew _ _ _ (hp2 _ h)
      · rcases h with h | h <;> subst h <;> simp [Call.isStart]
    · have hc1 := hcfg
      have hm1 := hmet
      rw [hle] at hc1 hm1
      have hk1 := lock_of_config_eq le _ hc1
      rw [henv, hm1, hc1, hk1]
      unfold leaderMetricsAdapter.leaderOn callRecordEvent
      cases le.metrics with
      | noMetrics => simp
      | defaultLeaderMetrics o => cases o <;> simp
    · unfold LeaderElector.Run LeaderElector.stoppedLeading
      simp only [ha, Bool.true_eq_false, if_false, hcfg, hStarted, hrc, hStopped]
      rfl

/-- C12: release changes nothing unless it is due and succeeds.  When `IsLeader()` is false,
`release` returns true and leaves the elector and the environment as they were (no call is
made); when the `Update` fails, `release` returns false and leaves the elector, so
`observedRecord` and `observedTime`, as it was; and the renew phase of an elector with a
non-empty identity and `ReleaseOnCancel` false issues no `Update` but with its own identity
as `HolderIdentity`: no release record is written. -/
theorem release_frame {σ : Type} (rt : Runtime σ) (rounds : Nat) (le : LeaderElector σ)
    (env : Env σ) :
    (le.IsLeader = false → le.release env = (true, le, env))
      ∧ (∀ now env1 e env2, le.IsLeader = true → callNow le.clock env = (now, env1) →
          callUpdate le.lock ⟨"", 1, now, now, le.observedRecord.LeaderTransitions⟩ env1
            = (some e, env2) →
          le.release env = (false, le, env2))
      ∧ (le.config.ReleaseOnCancel = false → le.lock.Identity ≠ "" →
          ∃ l, (le.renew rt rounds env).2.calls = env.calls ++ l
            ∧ ∀ r, Call.update r ∈ l → r.HolderIdentity = le.lock.Identity
              ∧ r.HolderIdentity ≠ "") := by
  refine ⟨?_, ?_, ?_⟩
  · intro h
    unfold LeaderElector.release
    rw [if_pos h]
  · intro now env1 e env2 hL hNow hU
    unfold LeaderElector.release
    rw [if_neg (by simp [hL])]
    simp only [hNow, hU]
  · intro hroc hId
    obtain ⟨-, l, hl, hp⟩ := renew_grows rt rounds le env
    refine ⟨l ++ [Call.recordEvent "stopped leading"], by rw [hl, List.append_assoc], ?_⟩
    intro r hr
    simp only [List.mem_append, List.mem_singleton] at hr
    rcases hr with h | h
    · have := hp _ h
      simp [hroc, Call.inRenew, Call.inTick, Call.isNewLeader, Call.isLeaderOff] at this
      exact ⟨this, by rw [this]; exact hId⟩
    · cases h

/-- C18: transition reporting.  `maybeReportTransition` leaves the elector with
`reportedLeader` = the observed `HolderIdentity` `h` and nothing else changed, and it hands
`OnNewLeader(h)` to the `go` statement of the runtime exactly when `h` differs from
`reportedLeader` and the callback is not nil: otherwise it leaves the environment as it
was.  So the log grows by the one call `OnNewLeader(h)` in that case and by nothing
otherwise; a second call right after it starts nothing; over every sequence of the
operations `tryAcquireOrRenew`, `maybeReportTransition` and `release`, from every elector
state, no two consecutive deliveries to `OnNewLeader` carry the same identity; and the same
holds for the calls of every `Run` that returns.  Deliveries are taken in the order of the
`go` statements: whenever the collaborators keep a journal of what is done to them in the
hidden state, that journal grows by exactly the logged calls, over one call of
`maybeReportTransition`, over every sequence of operations and over every `Run` that
returns. -/
theorem maybeReportTransition_reports_changes {σ : Type} (rt : Runtime σ)
    (le : LeaderElector σ) (env : Env σ) :
    le.maybeReportTransition rt env
        = ({ le with reportedLeader := le.observedRecord.HolderIdentity },
            match le.config.Callbacks.OnNewLeader with
            | some f =>
              if le.observedRecord.HolderIdentity ≠ le.reportedLeader then
                { st := rt.Go (f le.observedRecord.HolderIdentity) env.st
                  calls := env.calls ++ [Call.onNewLeader le.observedRecord.HolderIdentity] }
              else env
            | none => env)
      ∧ (le.maybeReportTransition rt env).2.calls
        = env.calls ++
          (if le.observedRecord.HolderIdentity ≠ le.reportedLeader
              ∧ le.config.Callbacks.OnNewLeader.isSome = true
            then [Call.onNewLeader le.observedRecord.HolderIdentity] else [])
      ∧ (le.maybeReportTransition rt env).1
        = { le with reportedLeader := le.observedRecord.HolderIdentity }
      ∧ (∀ env2, (le.maybeReportTransition rt env).1.maybeReportTransition rt env2
          = ((le.maybeReportTransition rt env).1, env2))
      ∧ (∀ ops : List Op, ∃ l,
          (LeaderElector.performAll rt ops le env).2.calls = env.calls ++ l
            ∧ (deliveries l).Chain' (fun a b => a ≠ b)
            ∧ ∀ (metric : LeaderMetric σ) (τ : σ → List Call), Journal rt le metric τ →
                τ (LeaderElector.performAll rt ops le env).2.st = τ env.st ++ l)
      ∧ (∀ rounds le' env', le.Run rt rounds env = some (le', env') →
          ∃ l, env'.calls = env.calls ++ l ∧ (deliveries l).Chain' (fun a b => a ≠ b)
            ∧ ∀ (metric : LeaderMetric σ) (τ : σ → List Call), Journal rt le metric τ →
                τ env'.st = τ env.st ++ l)
      ∧ (∀ (metric : LeaderMetric σ) (τ : σ → List Call), Journal rt le metric τ →
          τ (le.maybeReportTransition rt env).2.st
            = τ env.st ++
              (if le.observedRecord.HolderIdentity ≠ le.reportedLeader
                  ∧ le.config.Callbacks.OnNewLeader.isSome = true
                then [Call.onNewLeader le.observedRecord.HolderIdentity] else [])) := by
  obtain ⟨he, hc⟩ := maybeReportTransition_eq rt le env
  refine ⟨?_, hc, he, fun env2 => ?_, fun ops => ?_, fun rounds le' env' h => ?_, ?_⟩
  · by_cases h : le.observedRecord.HolderIdentity = le.reportedLeader
    · have hm : le.maybeReportTransition rt env = (le, env) := by
        unfold LeaderElector.maybeReportTransition
        rw [if_pos h]
      rw [hm]
      have e : ({ le with reportedLeader := le.observedRecord.HolderIdentity }
          : LeaderElector σ) = le := by rw [h]
      rw [e]
      cases le.config.Callbacks.OnNewLeader <;> simp [h]
    · unfold LeaderElector.maybeReportTransition
      rw [if_neg h]
      simp only []
      cases le.config.Callbacks.OnNewLeader with
      | none => rfl
      | some f => simp [h, callGo]
  · exact maybeReportTransition_quiet rt _ env2 (by rw [he])
  · obtain ⟨l, hl, hd⟩ := performAll_reported rt ops le env env.calls [] (by simp)
      (fun _ => ⟨List.chain'_nil, by simp [deliveries]⟩) (fun _ => rfl)
    refine ⟨l, hl, hd, fun metric τ J => ?_⟩
    obtain ⟨l', hl', hτ⟩ := performAll_logged ops le env J
    have e : l' = l := List.append_cancel_left (hl'.symm.trans hl)
    subst e
    exact hτ
  · obtain ⟨l, hl, hd⟩ := Run_orderly rt rounds le env le' env' h
    refine ⟨l, hl, hd, fun metric τ J => ?_⟩
    obtain ⟨l', hl', hτ⟩ := Run_logged J rounds env le' env' h
    have e : l' = l := List.append_cancel_left (hl'.symm.trans hl)
    subst e
    exact hτ
  · intro metric τ J
    obtain ⟨l', hl', hτ⟩ := maybeReportTransition_logged J env
    have e : l' = _ := List.append_cancel_left (hl'.symm.trans hc)
    subst e
    exact hτ

set_option maxRecDepth 100000 in
/-- C18, witness: the elector "b" over the journalling collaborators reads the record of "a"
in two calls of `tryAcquireOrRenew` and reports three times: `OnNewLeader` runs once, with
"a", as the journal of the hidden state shows; and the deliveries of its run on `lostScript`
are in order as well, and the journal of that run is its log. -/
theorem maybeReportTransition_reports_changes_witness :
    (LeaderElector.performAll journalRuntime
        [.tryAcquireOrRenew, .maybeReportTransition, .maybeReportTransition, .tryAcquireOrRenew,
          .maybeReportTransition] journalB
        (scriptEnv (recordScript 5000000000 ⟨"a", 15, 1000000000, 2000000000, 3⟩ [1]
          []))).2.st.journal
        = [Call.now, Call.get, Call.now, Call.onNewLeader "a", Call.now, Call.get]
      ∧ deliveries [Call.now, Call.get, Call.now, Call.onNewLeader "a", Call.now, Call.get]
        = ["a"]
      ∧ ∃ l, Option.map (fun r => (r.2.calls, r.2.st.journal))
            (journalB.Run journalRuntime 1 (scriptEnv lostScript))
          = some ((scriptEnv lostScript).calls ++ l, lostScript.journal ++ l)
        ∧ (deliveries l).Chain' (fun a b => a ≠ b) := by
  refine ⟨by decide, by decide, ?_⟩
  have hRun : ∃ r, journalB.Run journalRuntime 1 (scriptEnv lostScript) = some r := ⟨_, rfl⟩
  obtain ⟨⟨le', env'⟩, hRun⟩ := hRun
  obtain ⟨l, hl, hc, hj⟩ := (maybeReportTransition_reports_changes journalRuntime journalB
    (scriptEnv lostScript)).2.2.2.2.2.1 1 le' env' hRun
  have hj : env'.st.journal = lostScript.journal ++ l :=
    hj journalMetric (fun s => s.journal) journalB_journal
  refine ⟨l, ?_, hc⟩
  rw [hRun]
  show some (env'.calls, env'.st.journal) = _
  rw [hl, hj]

/-- C13, counterexample.  The elector "a" is the leader and observed its record at 2 s; at 3 s
one second has passed, far less than `LeaseDuration` + `T` for the tolerance `T` =
9223372036854775807 ns (the largest `time.Duration`): the `int64` sum `LeaseDuration` + `T`
wraps to a negative duration, and `Check` returns an error.  And for the tolerance `T` =
9223372021854775807 ns, for which the sum is the largest `time.Duration`, at the time
9223372038854775808 ns the difference `now - observedTime` is `2 ^ 63` ns, above the sum, yet
`Check` returns no error: `clock.Since` saturates at the largest `time.Duration`. -/
theorem Check_unhealthy_on_overflowing_tolerance :
    leaderA.IsLeader = true
      ∧ (callNow leaderA.clock (scriptEnv (emptyScript 3000000000))).1 - leaderA.observedTime
        ≤ leaderA.config.LeaseDuration + 9223372036854775807
      ∧ wrapInt64 (leaderA.config.LeaseDuration + 9223372036854775807) = -9223372021854775809
      ∧ (leaderA.Check 9223372036854775807 (scriptEnv (emptyScript 3000000000))).1
        = some "failed election to renew leadership on lease lock"
      ∧ leaderA.config.LeaseDuration + 9223372021854775807 = 2 ^ 63 - 1
      ∧ ¬ ((callNow leaderA.clock (scriptEnv (emptyScript 9223372038854775808))).1
          - leaderA.observedTime ≤ leaderA.config.LeaseDuration + 9223372021854775807)
      ∧ (leaderA.Check 9223372021854775807 (scriptEnv (emptyScript 9223372038854775808))).1
        = none := by
  refine ⟨by decide, by decide, by decide, by decide, by decide, by decide, by decide⟩

/-- C13, witness: the leader "a", which observed its record at 2 s, is healthy at 17 s with a
tolerance of 1 s: 15 s have passed, and 15 s + 1 s are allowed. -/
theorem Check_healthy_iff_witness :
    (leaderA.Check 1000000000 (scriptEnv (emptyScript 17000000000))).1 = none :=
  ((Check_healthy_iff leaderA 1000000000 (scriptEnv (emptyScript 17000000000)) _ 17000000000 rfl
    (by decide) (by decide) (Or.inl (by decide))).1).2 (Or.inr (by decide))

/-- C11, witness: the leader "a" releases at 5 s: one `Update` with `{"", 1, 5 s, 5 s, 3}`,
and afterwards it is not the leader. -/
theorem release_record_witness :
    (leaderA.release (scriptEnv (emptyScript 5000000000))).1 = true
      ∧ (leaderA.release (scriptEnv (emptyScript 5000000000))).2.2.calls
        = [Call.now, Call.update ⟨"", 1, 5000000000, 5000000000, 3⟩, Call.now]
      ∧ (leaderA.release (scriptEnv (emptyScript 5000000000))).2.1.IsLeader = false
      ∧ (leaderA.release (scriptEnv (emptyScript 5000000000))).2.1.GetLeader = "" := by
  have h := (release_record leaderA (scriptEnv (emptyScript 5000000000)) _ _ 5000000000 none
    (by decide) (by decide) rfl rfl).2.2 rfl 5000000000 _ rfl
  refine ⟨by rw [h.1], ?_, h.2.2.1, h.2.2.2⟩
  rw [h.1]
  rfl

set_option maxRecDepth 100000 in
/-- C12, witness: the fresh elector "b" is not the leader, and its `release` returns true
and changes nothing; in its renew phase on `lostScript`, without `ReleaseOnCancel`, every
`Update` carries "b" as holder. -/
theorem release_frame_witness :
    freshB.release (scriptEnv (emptyScript 7000000000))
        = (true, freshB, scriptEnv (emptyScript 7000000000))
      ∧ ∃ l, (freshB.renew scriptRuntime 1 (scriptEnv lostScript)).2.calls
          = (scriptEnv lostScript).calls ++ l
        ∧ ∀ r, Call.update r ∈ l → r.HolderIdentity = "b" ∧ r.HolderIdentity ≠ "" :=
  ⟨(release_frame scriptRuntime 1 freshB (scriptEnv (emptyScript 7000000000))).1 (by decide),
    (release_frame scriptRuntime 1 freshB (scriptEnv lostScript)).2.2 (by decide) (by decide)⟩

/-- C15, witness: the elector that `NewLeaderElector` returns for "b" has no leader and is
not the leader. -/
theorem IsLeader_iff_getLeader_witness :
    freshB.GetLeader = "" ∧ freshB.IsLeader = false :=
  have hNew : NewLeaderElector scriptClock globalMetricsFactory
      (scriptConfig "b" 15000000000 (15000000000 - 1) 1) (scriptEnv (emptyScript 0))
      = (.ok freshB, { st := emptyScript 0, calls := [Call.leaderOff "lock"] }) := rfl
  (IsLeader_iff_getLeader freshB).2.2 scriptClock globalMetricsFactory
    (scriptConfig "b" 15000000000 (15000000000 - 1) 1) (scriptEnv (emptyScript 0))
    { st := emptyScript 0, calls := [Call.leaderOff "lock"] } freshB hNew

set_option maxRecDepth 100000 in
/-- C16, witness: the elector "b" over the journalling collaborators acquires on
`lostScript`, fails to renew, and ends with `OnStoppedLeading`: the journal of the hidden
state shows that the callback ran once, last; and when its context is done after one failed
tick, the run ends with `OnStoppedLeading` all the same. -/
theorem Run_stops_leading_once_witness :
    Option.map (fun r => r.2.st.journal) (journalB.Run journalRuntime 1 (scriptEnv lostScript))
        = some [Call.now, Call.get, Call.now,
            Call.update ⟨"b", 15, 5000000000, 5000000000, 4⟩, Call.now, Call.onNewLeader "b",
            Call.recordEvent "became leader", Call.leaderOn "lock", Call.onStartedLeading,
            Call.now, Call.update ⟨"b", 15, 5000000000, 5000000000, 4⟩, Call.get,
            Call.slowpathExercised "lock", Call.update ⟨"b", 15, 1000000000, 5000000000, 3⟩,
            Call.now, Call.update ⟨"b", 15, 5000000000, 5000000000, 4⟩, Call.get,
            Call.slowpathExercised "lock", Call.update ⟨"b", 15, 1000000000, 5000000000, 3⟩,
            Call.leaderOff "lock", Call.recordEvent "stopped leading", Call.onStoppedLeading]
      ∧ Option.map (fun r => r.2.st.journal) (journalB.Run journalRuntime 3 (scriptEnv
          { stops := [false, true]
            time := 5000000000
            getResult := .ok (⟨"a", 15, 1000000000, 2000000000, 3⟩, [1])
            createResult := none
            updateResults := [] }))
        = some [Call.now, Call.get, Call.now, Call.onNewLeader "a", Call.onStoppedLeading]
      ∧ ∃ (le' : LeaderElector Script) (envB : Env Script) (l : List Call),
          journalB.Run journalRuntime 1 (scriptEnv lostScript)
            = some (le',
                { st := { envB.st with
                          journal := envB.st.journal ++ [Call.onStoppedLeading] }
                  calls := envB.calls ++ [Call.onStoppedLeading] })
          ∧ envB.calls = (scriptEnv lostScript).calls ++ l
          ∧ Call.onStoppedLeading ∉ l
          ∧ envB.st.journal ++ [Call.onStoppedLeading]
            = lostScript.journal ++ l ++ [Call.onStoppedLeading] := by
  refine ⟨by decide, by decide, ?_⟩
  obtain ⟨le', envB, l, h1, h2, h3, -, -, h6⟩ := Run_stops_leading_once journalRuntime 1
    journalB (scriptEnv lostScript) _ _ rfl rfl
  exact ⟨le', envB, l, h1, h2, h3, h6 journalMetric (fun s => s.journal) journalB_journal⟩

set_option maxRecDepth 100000 in
/-- C17, witness: on `lostScript` the acquire phase of the elector "b" over the journalling
collaborators returns true, and it leaves a journal that ends with the event "became leader"
and the metric `leaderOn`; the run has the event, the metric and the start of
`OnStartedLeading` once, in a row, and its journal is its log. -/
theorem Run_starts_leading_once_witness :
    (journalB.acquire journalRuntime 1 (scriptEnv lostScript)).1 = true
      ∧ (journalB.acquire journalRuntime 1 (scriptEnv lostScript)).2.2.st.journal
        = [Call.now, Call.get, Call.now, Call.update ⟨"b", 15, 5000000000, 5000000000, 4⟩,
            Call.now, Call.onNewLeader "b", Call.recordEvent "became leader",
            Call.leaderOn "lock"]
      ∧ ∃ le' env' l, journalB.Run journalRuntime 1 (scriptEnv lostScript) = some (le', env')
          ∧ env'.calls = (scriptEnv lostScript).calls ++ l
          ∧ env'.st.journal = lostScript.journal ++ l
          ∧ ∃ l0 l1 l2, l = l0 ++ l1
              ++ [Call.recordEvent "became leader", Call.leaderOn "lock", Call.onStartedLeading]
              ++ l2
            ∧ ∀ c ∈ l0 ++ l1 ++ l2, c.isStart = false := by
  have ha : (journalB.acquire journalRuntime 1 (scriptEnv lostScript)).1 = true := by decide
  refine ⟨ha, by decide, ?_⟩
  obtain ⟨le', env', l, h1, h2, -, h4, h5⟩ := Run_starts_leading_once journalRuntime 1 journalB
    (scriptEnv lostScript) _ _ rfl rfl
  obtain ⟨le0, env0, l0, l1, l2, -, -, -, h6, h7, -, -⟩ := h4 ha
  exact ⟨le', env', l, h1, h2, h5 journalMetric (fun s => s.journal) journalB_journal,
    l0, l1, l2, h6, h7⟩

/-- C19, counterexample: the elector "b" observed the record `{a, 9223372037, 1 s, 2 s, 3}`
of "a" with raw bytes `[1]` and has reported "a"; at 5 s `Get` returns the same record with
raw bytes `[2]`.  The `int64` product `time.Second * 9223372037` wraps to a negative
duration, the lease is judged invalid, and the elector takes over: the observed
`LeaderTransitions` becomes 4, and the following `maybeReportTransition` starts
`OnNewLeader("b")`. -/
theorem tryAcquireOrRenew_raw_change_takes_over :
    (watcherB 9223372037).observedRecord.HolderIdentity ≠ ""
      ∧ (watcherB 9223372037).reportedLeader = (watcherB 9223372037).observedRecord.HolderIdentity
      ∧ 1 ≤ (watcherB 9223372037).observedRecord.LeaseDurationSeconds
      ∧ (recordScript 5000000000 ⟨"a", 9223372037, 1000000000, 2000000000, 3⟩ [2] []).getResult
        = .ok ((watcherB 9223372037).observedRecord, [2])
      ∧ (watcherB 9223372037).observedRawRecord ≠ [2]
      ∧ (watcherB 9223372037).observedRecord.LeaderTransitions = 3
      ∧ ((watcherB 9223372037).tryAcquireOrRenew (scriptEnv (recordScript 5000000000
          ⟨"a", 9223372037, 1000000000, 2000000000, 3⟩ [2] []))).2.1.observedRecord
        = ⟨"b", 15, 5000000000, 5000000000, 4⟩
      ∧ (((watcherB 9223372037).tryAcquireOrRenew (scriptEnv (recordScript 5000000000
          ⟨"a", 9223372037, 1000000000, 2000000000, 3⟩ [2] []))).2.1.maybeReportTransition
            scriptRuntime
            ((watcherB 9223372037).tryAcquireOrRenew (scriptEnv (recordScript 5000000000
              ⟨"a", 9223372037, 1000000000, 2000000000, 3⟩ [2] []))).2.2).2.calls
        = [Call.now, Call.get, Call.now, Call.update ⟨"b", 15, 5000000000, 5000000000, 4⟩,
            Call.now, Call.onNewLeader "b"] := by
  refine ⟨by decide, by decide, by decide, rfl, by decide, by decide, by decide, by decide⟩

/-- C19, witness: the elector "b" observed `{a, 15, 1 s, 2 s, 3}` with raw bytes `[1]`; at
5 s `Get` returns the same record with raw bytes `[2]`: the call returns false, and the
elector has the new bytes and `observedTime` 5 s. -/
theorem tryAcquireOrRenew_raw_change_only_witness :
    (watcherB 15).tryAcquireOrRenew (scriptEnv
        (recordScript 5000000000 ⟨"a", 15, 1000000000, 2000000000, 3⟩ [2] []))
      = (false, { watcherB 15 with observedTime := 5000000000, observedRawRecord := [2] },
          { st := recordScript 5000000000 ⟨"a", 15, 1000000000, 2000000000, 3⟩ [2] [],
            calls := [Call.now, Call.get, Call.now] }) :=
  (tryAcquireOrRenew_raw_change_only scriptRuntime (watcherB 15) (scriptEnv
      (recordScript 5000000000 ⟨"a", 15, 1000000000, 2000000000, 3⟩ [2] []))
    _ _ _ 5000000000 5000000000 _ [2] rfl rfl (by decide) (by decide) rfl (by decide)
    (by decide) rfl (by decide)).2.2.2.2.2 (by decide)

/-- C20, witness: `Get` fails with an error other than "not found" for the fresh elector "b":
the call returns false after `Now` and `Get`, and the elector is as before. -/
theorem tryAcquireOrRenew_get_error_witness :
    freshB.tryAcquireOrRenew (scriptEnv
        { time := 7000000000, getResult := .error .other, createResult := none,
          updateResults := [] })
      = (false, freshB,
          { st := { time := 7000000000, getResult := .error .other, createResult := none,
                    updateResults := [] },
            calls := [Call.now, Call.get] }) :=
  (tryAcquireOrRenew_get_error freshB (scriptEnv
      { time := 7000000000, getResult := .error .other, createResult := none,
        updateResults := [] })
    _ _ 7000000000 _ LockError.other rfl rfl (by decide)).1

/-! ## The metrics factory, and more on `tryAcquireOrRenew` and `Check` -/

/-- C21: metrics provider binding.  Only the first `SetProvider` call has an effect: after
`SetProvider(p1)` on the initial `globalMetricsFactory` the provider of the factory is `p1`,
a following `SetProvider(p2)` changes nothing, nor does any sequence of further calls, and on
any factory a second call changes nothing.  While no provider has been set,
`newLeaderMetrics` returns the adapter `noMetrics`, whose `leaderOn`, `leaderOff` and
`slowpathExercised` leave the collaborators as they are. -/
theorem SetProvider_first_call_only {σ : Type} (p1 p2 : MetricsProvider σ)
    (ps : List (MetricsProvider σ)) (name : String) (env : Env σ) :
    (SetProvider p1 globalMetricsFactory).metricsProvider = p1
      ∧ SetProvider p2 (SetProvider p1 globalMetricsFactory) = SetProvider p1 globalMetricsFactory
      ∧ (∀ g : leaderMetricsFactory σ, SetProvider p2 (SetProvider p1 g) = SetProvider p1 g)
      ∧ (ps.foldl (fun g p => SetProvider p g) (SetProvider p1 globalMetricsFactory)).metricsProvider
        = p1
      ∧ (globalMetricsFactory : leaderMetricsFactory σ).newLeaderMetrics = .noMetrics
      ∧ (leaderMetricsAdapter.noMetrics.leaderOn name env).st = env.st
      ∧ (leaderMetricsAdapter.noMetrics.leaderOff name env).st = env.st
      ∧ (leaderMetricsAdapter.noMetrics.slowpathExercised name env).st = env.st := by
  have hfix : ∀ (ps : List (MetricsProvider σ)) (g : leaderMetricsFactory σ),
      g.onlyOnce = true → ps.foldl (fun g p => SetProvider p g) g = g := by
    intro ps
    induction ps with
    | nil => intro g _; rfl
    | cons p ps ih =>
      intro g hg
      have : SetProvider p g = g := by
        simp [SetProvider, leaderMetricsFactory.setProvider, hg]
      simp only [List.foldl_cons, this]
      exact ih g hg
  refine ⟨rfl, rfl, fun g => ?_, ?_, rfl, rfl, rfl, rfl⟩
  · cases hg : g.onlyOnce <;> simp [SetProvider, leaderMetricsFactory.setProvider, hg]
  · rw [hfix ps _ rfl]
    rfl

/-- The slow path starts with `Get`. -/
theorem obtainOrCreate_calls {σ : Type} (le : LeaderElector σ) (now : Int)
    (ler : LeaderElectionRecord) (env : Env σ)
    (hler : ler.HolderIdentity = le.lock.Identity) :
    ∃ l, (le.obtainOrCreate now ler env).2.2.calls = env.calls ++ [Call.get] ++ l := by
  have hg : (callGet le.lock env).2.calls = env.calls ++ [Call.get] := rfl
  unfold LeaderElector.obtainOrCreate
  simp only []
  split
  · split_ifs with he
    · exact ⟨[], by simp [hg]⟩
    · split
      · exact ⟨[Call.create ler], by simp [callCreate, hg]⟩
      · exact ⟨[Call.create ler, Call.now], by
          simp [callCreate, hg, LeaderElector.setObservedRecord, callNow]⟩
  · obtain ⟨⟨l, hl, -⟩, -⟩ := acquireOrRenewFrom_grows le now ler _ _ (callGet le.lock env).2 hler
    exact ⟨l, by rw [hl, hg]⟩

/-- C22: a failed fast path falls through.  For every elector state with `IsLeader()` and a
locally valid lease at the time `now` read at the start of the call, if the optimistic
`Update` fails then `tryAcquireOrRenew` goes on with the slow path: its result is that of
step 2 and what follows, run from where the failed `Update` left off, and its calls start
with `Now`, the failed `Update`, `Get`.  For example, when `Get` returns a record held by this
elector and the second `Update` succeeds, the call returns true, and the record written and
installed has `AcquireTime` and `LeaderTransitions` of the record read. -/
theorem tryAcquireOrRenew_fast_path_falls_through {σ : Type} (le : LeaderElector σ)
    (env env1 env2 : Env σ) (now : Int) (ler : LeaderElectionRecord) (e : LockError)
    (hNow : callNow le.clock env = (now, env1))
    (hLeader : le.IsLeader = true) (hValid : le.isLeaseValid now = true)
    (hLer : ler =
      { HolderIdentity := le.lock.Identity
        LeaseDurationSeconds := Int.tdiv le.config.LeaseDuration Second
        RenewTime := now
        AcquireTime := le.observedRecord.AcquireTime
        LeaderTransitions := le.observedRecord.LeaderTransitions })
    (hUpdate : callUpdate le.lock ler env1 = (some e, env2)) :
    le.tryAcquireOrRenew env = le.obtainOrCreate now ler env2
      ∧ (∃ l, (le.tryAcquireOrRenew env).2.2.calls
          = env.calls ++ [Call.now, Call.update ler, Call.get] ++ l)
      ∧ ∀ (old : LeaderElectionRecord) (raw : Bytes) (envG envU env3 : Env σ) (t : Int),
          callGet le.lock env2 = (.ok (old, raw), envG) →
          old.HolderIdentity = le.lock.Identity →
          callUpdate le.lock
              { HolderIdentity := le.lock.Identity
                LeaseDurationSeconds := Int.tdiv le.config.LeaseDuration Second
                RenewTime := now
                AcquireTime := old.AcquireTime
                LeaderTransitions := old.LeaderTransitions }
              (le.metrics.slowpathExercised le.config.Name (le.observe old raw envG).2)
            = (none, envU) →
          callNow le.clock envU = (t, env3) →
          le.tryAcquireOrRenew env
            = (true,
                { (le.observe old raw envG).1 with
                  observedRecord :=
                    { HolderIdentity := le.lock.Identity
                      LeaseDurationSeconds := Int.tdiv le.config.LeaseDuration Second
                      RenewTime := now
                      AcquireTime := old.AcquireTime
                      LeaderTransitions := old.LeaderTransitions }
                  observedTime := t }, env3) := by
  have hFast := fastPath_failed le env env1 env2 now ler e hNow hLeader hValid hLer hUpdate
  have hEq : le.tryAcquireOrRenew env = le.obtainOrCreate now ler env2 := by
    simp only [LeaderElector.tryAcquireOrRenew, hFast]
  have hH : ler.HolderIdentity = le.lock.Identity := by rw [hLer]
  refine ⟨hEq, ?_, ?_⟩
  · obtain ⟨l, hl⟩ := obtainOrCreate_calls le now ler env2 hH
    refine ⟨l, ?_⟩
    rw [hEq, hl, callUpdate_calls _ _ _ _ _ hUpdate, callNow_calls _ _ _ _ hNow]
    simp
  · intro old raw envG envU env3 t hGet hOwn hU hSet
    have hL : (le.observe old raw envG).1.IsLeader = true := by
      by_cases hRaw : le.observedRawRecord = raw
      · rw [observe_same le old raw envG hRaw]; exact hLeader
      · simp only [LeaderElector.observe, hRaw, ne_eq, not_false_eq_true, if_true,
          LeaderElector.setObservedRecord, LeaderElector.IsLeader,
          LeaderElector.getObservedRecord, LeaderElector.lock, beq_iff_eq]
        exact hOwn
    rw [tryAcquireOrRenew_of_get le env env2 envG now ler old raw hFast hGet]
    have h := acquireOrRenewFrom_update le now t ler old
      { HolderIdentity := le.lock.Identity
        LeaseDurationSeconds := Int.tdiv le.config.LeaseDuration Second
        RenewTime := now
        AcquireTime := old.AcquireTime
        LeaderTransitions := old.LeaderTransitions }
      raw envG (le.metrics.slowpathExercised le.config.Name (le.observe old raw envG).2)
      envU env3 none (by rw [hL]; simp) (by rw [if_pos hL, hLer]) (by rw [if_pos hL]) hU hSet
    rw [h]

/-- What holds after a write of the record `r` by the elector `le` succeeded and `r` was
installed in `leX`, an elector with the configuration and clock of `le`. -/
theorem installed_spec {σ : Type} (le leX : LeaderElector σ) (r : LeaderElectionRecord)
    (envW : Env σ) (hcfg : leX.config = le.config)
    (hH : r.HolderIdentity = le.lock.Identity) :
    (leX.setObservedRecord r envW).1.IsLeader = true
      ∧ (leX.setObservedRecord r envW).1.GetLeader = le.lock.Identity
      ∧ (leX.setObservedRecord r envW).1.observedRecord = r := by
  have hlock : (leX.setObservedRecord r envW).1.lock = le.lock :=
    lock_of_config_eq le _ hcfg
  refine ⟨?_, hH, rfl⟩
  simp only [LeaderElector.IsLeader, hlock, beq_iff_eq]
  exact hH

/-- What step 1 hands to step 2: the time read at the start of the call, and a candidate
record that names this elector, with the configured lease duration and that time as
`RenewTime`. -/
theorem fastPath_slowPath_record {σ : Type} (le : LeaderElector σ) (env envG : Env σ)
    (now : Int) (ler : LeaderElectionRecord)
    (h : le.fastPath env = .slowPath now ler envG) :
    now = (callNow le.clock env).1
      ∧ ler.LeaseDurationSeconds = Int.tdiv le.config.LeaseDuration Second
      ∧ ler.RenewTime = now := by
  unfold LeaderElector.fastPath at h
  simp only [] at h
  split_ifs at h with hc
  · split at h
    · cases h
    · injection h with h1 h2 h3
      rw [← h2, ← h1]
      exact ⟨rfl, rfl, rfl⟩
  · injection h with h1 h2 h3
    rw [← h2, ← h1]
    exact ⟨rfl, rfl, rfl⟩

/-- What the optimistic update leaves when it succeeds. -/
theorem fastPath_renewed_inv {σ : Type} (le le1 : LeaderElector σ) (env env1 : Env σ)
    (h : le.fastPath env = .renewed le1 env1) :
    ∃ ler, ler.HolderIdentity = le.lock.Identity
      ∧ ler.LeaseDurationSeconds = Int.tdiv le.config.LeaseDuration Second
      ∧ ler.RenewTime = (callNow le.clock env).1
      ∧ callUpdate le.lock ler (callNow le.clock env).2
        = (none, (callUpdate le.lock ler (callNow le.clock env).2).2)
      ∧ le1 = (le.setObservedRecord ler (callUpdate le.lock ler (callNow le.clock env).2).2).1
      ∧ env1 = (le.setObservedRecord ler (callUpdate le.lock ler (callNow le.clock env).2).2).2 := by
  unfold LeaderElector.fastPath at h
  simp only [] at h
  split_ifs at h with hc
  · split at h
    · rename_i hu
      injection h with h1 h2
      exact ⟨_, rfl, rfl, rfl, Prod.ext hu rfl, h1.symm, h2.symm⟩
    · cases h

/-- A true result of steps 3 and 4: the final `Update` succeeded, with a record that is the
candidate record but for `AcquireTime` and `LeaderTransitions`, and the record was installed
in the elector that step 3 left. -/
theorem acquireOrRenewFrom_true {σ : Type} (le : LeaderElector σ) (now : Int)
    (ler old : LeaderElectionRecord) (raw : Bytes) (env : Env σ)
    (h : (le.acquireOrRenewFrom now ler old raw env).1 = true) :
    ∃ (r : LeaderElectionRecord) (envW envW' : Env σ) (l : List Call),
      r.HolderIdentity = ler.HolderIdentity
        ∧ r.LeaseDurationSeconds = ler.LeaseDurationSeconds
        ∧ r.RenewTime = ler.RenewTime
        ∧ envW.calls = env.calls ++ l
        ∧ callUpdate le.lock r envW = (none, envW')
        ∧ le.acquireOrRenewFrom now ler old raw env
          = (true, ((le.observe old raw env).1.setObservedRecord r envW').1,
              ((le.observe old raw env).1.setObservedRecord r envW').2) := by
  obtain ⟨⟨l, hl, -⟩, hs⟩ := observe_grows le old raw le.lock.Identity env
  have hlock := hs.lock
  unfold LeaderElector.acquireOrRenewFrom at h ⊢
  simp only [] at h ⊢
  by_cases hg : 0 < old.HolderIdentity.length ∧ (le.observe old raw env).1.isLeaseValid now = true
      ∧ (le.observe old raw env).1.IsLeader = false
  · rw [if_pos hg] at h
    cases h
  · rw [if_neg hg] at h ⊢
    by_cases hL : (le.observe old raw env).1.IsLeader = true
    · simp only [hL, if_true, hlock] at h ⊢
      split at h
      · cases h
      · rename_i hu
        refine ⟨{ ler with AcquireTime := old.AcquireTime,
                             LeaderTransitions := old.LeaderTransitions }, _, _,
          l ++ [Call.slowpathExercised (le.observe old raw env).1.config.Name],
          rfl, rfl, rfl, ?_, Prod.ext hu rfl, ?_⟩
        · simp [leaderMetricsAdapter.slowpathExercised, hl]
        · simp only [hu]
    · simp only [hL, Bool.false_eq_true, if_false, hlock] at h ⊢
      split at h
      · cases h
      · rename_i hu
        exact ⟨{ ler with LeaderTransitions := wrapInt64 (old.LeaderTransitions + 1) }, _, _, l, rfl, rfl,
          rfl, hl, Prod.ext hu rfl, by simp only [hu]⟩

/-- A true result of step 2 and what follows: either `Create` succeeded after a `Get` that
reported not-found, or steps 3 and 4 returned true. -/
theorem obtainOrCreate_true {σ : Type} (le : LeaderElector σ) (now : Int)
    (ler : LeaderElectionRecord) (env : Env σ)
    (h : (le.obtainOrCreate now ler env).1 = true) :
    (∃ envW', callCreate le.lock ler (callGet le.lock env).2 = (none, envW')
        ∧ le.obtainOrCreate now ler env
          = (true, (le.setObservedRecord ler envW').1, (le.setObservedRecord ler envW').2))
      ∨ (∃ old raw, (le.acquireOrRenewFrom now ler old raw (callGet le.lock env).2).1 = true
        ∧ le.obtainOrCreate now ler env
          = le.acquireOrRenewFrom now ler old raw (callGet le.lock env).2) := by
  unfold LeaderElector.obtainOrCreate at h ⊢
  simp only [] at h ⊢
  split at h
  · rename_i e hg
    by_cases he : e ≠ LockError.notFound
    · rw [if_pos he] at h
      cases h
    · rw [if_neg he] at h
      split at h
      · cases h
      · rename_i hc
        left
        refine ⟨_, Prod.ext hc rfl, ?_⟩
        simp only [hg, he, if_false, hc]
  · rename_i old raw hg
    right
    refine ⟨old, raw, h, ?_⟩
    simp only [hg]

/-- C23: success implies leadership.  For every elector state (with a `LeaseDuration` that is
not negative, as `NewLeaderElector` ensures) and every lock and clock, if `tryAcquireOrRenew`
returns true then right afterwards `IsLeader()` is true, `GetLeader()` is the identity of the
lock, and the observed record has `LeaseDurationSeconds` = `floor(LeaseDuration / 1s)` and
`RenewTime` = the time read at the start of the call; and it is the record passed to a
`Create` or an `Update` of this call that succeeded and was the last of the call: the only
call after it is the clock reading for `observedTime`. -/
theorem tryAcquireOrRenew_success_implies_leadership {σ : Type} (le : LeaderElector σ)
    (env : Env σ) (hLD : 0 ≤ le.config.LeaseDuration)
    (hTrue : (le.tryAcquireOrRenew env).1 = true) :
    (le.tryAcquireOrRenew env).2.1.IsLeader = true
      ∧ (le.tryAcquireOrRenew env).2.1.GetLeader = le.lock.Identity
      ∧ (le.tryAcquireOrRenew env).2.1.observedRecord.LeaseDurationSeconds
        = le.config.LeaseDuration / Second
      ∧ (le.tryAcquireOrRenew env).2.1.observedRecord.RenewTime = (callNow le.clock env).1
      ∧ ∃ (envW envW' : Env σ) (l : List Call),
          envW.calls = env.calls ++ l
            ∧ ((callUpdate le.lock (le.tryAcquireOrRenew env).2.1.observedRecord envW
                  = (none, envW')
                ∧ (le.tryAcquireOrRenew env).2.2.calls
                  = envW.calls
                    ++ [Call.update (le.tryAcquireOrRenew env).2.1.observedRecord, Call.now])
              ∨ (callCreate le.lock (le.tryAcquireOrRenew env).2.1.observedRecord envW
                  = (none, envW')
                ∧ (le.tryAcquireOrRenew env).2.2.calls
                  = envW.calls
                    ++ [Call.create (le.tryAcquireOrRenew env).2.1.observedRecord, Call.now]))
            ∧ (le.tryAcquireOrRenew env).2.2 = (callNow le.clock envW').2
            ∧ (le.tryAcquireOrRenew env).2.1.observedTime = (callNow le.clock envW').1 := by
  have hdiv : Int.tdiv le.config.LeaseDuration Second = le.config.LeaseDuration / Second :=
    Int.tdiv_eq_ediv hLD (by decide)
  -- what an installation after a successful write gives
  have install : ∀ (leX : LeaderElector σ) (r : LeaderElectionRecord) (envW envW' : Env σ)
      (l : List Call) (isUpdate : Bool),
      leX.config = le.config → leX.clock = le.clock →
      r.HolderIdentity = le.lock.Identity →
      r.LeaseDurationSeconds = Int.tdiv le.config.LeaseDuration Second →
      r.RenewTime = (callNow le.clock env).1 →
      envW.calls = env.calls ++ l →
      (if isUpdate = true then callUpdate le.lock r envW = (none, envW')
        else callCreate le.lock r envW = (none, envW')) →
      le.tryAcquireOrRenew env
        = (true, (leX.setObservedRecord r envW').1, (leX.setObservedRecord r envW').2) →
      (le.tryAcquireOrRenew env).2.1.IsLeader = true
        ∧ (le.tryAcquireOrRenew env).2.1.GetLeader = le.lock.Identity
        ∧ (le.tryAcquireOrRenew env).2.1.observedRecord.LeaseDurationSeconds
          = le.config.LeaseDuration / Second
        ∧ (le.tryAcquireOrRenew env).2.1.observedRecord.RenewTime = (callNow le.clock env).1
        ∧ ∃ (envW envW' : Env σ) (l : List Call),
            envW.calls = env.calls ++ l
              ∧ ((callUpdate le.lock (le.tryAcquireOrRenew env).2.1.observedRecord envW
                    = (none, envW')
                  ∧ (le.tryAcquireOrRenew env).2.2.calls
                    = envW.calls
                      ++ [Call.update (le.tryAcquireOrRenew env).2.1.observedRecord, Call.now])
                ∨ (callCreate le.lock (le.tryAcquireOrRenew env).2.1.observedRecord envW
                    = (none, envW')
                  ∧ (le.tryAcquireOrRenew env).2.2.calls
                    = envW.calls
                      ++ [Call.create (le.tryAcquireOrRenew env).2.1.observedRecord, Call.now]))
              ∧ (le.tryAcquireOrRenew env).2.2 = (callNow le.clock envW').2
              ∧ (le.tryAcquireOrRenew env).2.1.observedTime = (callNow le.clock envW').1 := by
    intro leX r envW envW' l isUpdate hcfg hclk hH hL hR hl hw hres
    obtain ⟨i1, i2, i3⟩ := installed_spec le leX r envW' hcfg hH
    rw [hres]
    refine ⟨i1, i2, by rw [i3, hL, hdiv], by rw [i3, hR], envW, envW', l, hl, ?_, ?_, ?_⟩
    · cases isUpdate with
      | true =>
        left
        simp only [if_true] at hw
        refine ⟨by rw [i3]; exact hw, ?_⟩
        simp only [LeaderElector.setObservedRecord, callNow]
        rw [callUpdate_calls _ _ _ _ _ hw]
        simp
      | false =>
        right
        simp only [Bool.false_eq_true, if_false] at hw
        refine ⟨by rw [i3]; exact hw, ?_⟩
        simp only [LeaderElector.setObservedRecord, callNow]
        rw [callCreate_calls _ _ _ _ _ hw]
        simp
    · simp only [LeaderElector.setObservedRecord, hclk]
    · simp only [LeaderElector.setObservedRecord, hclk]
  cases hf : le.fastPath env with
  | renewed le1 env1 =>
    obtain ⟨ler, hH, hL, hR, hU, h1, h2⟩ := fastPath_renewed_inv le le1 env env1 hf
    refine install le ler _ _ [Call.now] true rfl rfl hH hL hR rfl (by simpa using hU) ?_
    simp only [LeaderElector.tryAcquireOrRenew, hf, h1, h2]
  | slowPath now ler envG =>
    obtain ⟨hnow, hL, hR⟩ := fastPath_slowPath_record le env envG now ler hf
    have hH := fastPath_slowPath_holder le env envG now ler hf
    have hcalls : ∃ l, envG.calls = env.calls ++ l := by
      rcases fastPath_slowPath_calls le env envG now ler hf with h | ⟨r, h⟩
      · exact ⟨_, h⟩
      · exact ⟨_, h⟩
    obtain ⟨l0, hl0⟩ := hcalls
    have hEq : le.tryAcquireOrRenew env = le.obtainOrCreate now ler envG := by
      simp only [LeaderElector.tryAcquireOrRenew, hf]
    rw [hnow] at hR
    rw [hEq] at hTrue
    rcases obtainOrCreate_true le now ler envG hTrue with ⟨envW', hc, hres⟩ | ⟨old, raw, ht, hres⟩
    · refine install le ler (callGet le.lock envG).2 envW' (l0 ++ [Call.get]) false rfl rfl hH hL
        hR ?_ (by simpa using hc) (by rw [hEq, hres])
      show envG.calls ++ [Call.get] = _
      rw [hl0, List.append_assoc]
    · obtain ⟨r, envW, envW', l, r1, r2, r3, hl, hu, hres2⟩ :=
        acquireOrRenewFrom_true le now ler old raw (callGet le.lock envG).2 ht
      obtain ⟨-, hs⟩ := observe_grows le old raw le.lock.Identity (callGet le.lock envG).2
      refine install (le.observe old raw (callGet le.lock envG).2).1 r envW envW'
        (l0 ++ [Call.get] ++ l) true hs.1 hs.2.2.1 (r1.trans hH) (r2.trans hL) (r3.trans hR) ?_
        (by simpa using hu) (by rw [hEq, hres, hres2])
      rw [hl]
      show envG.calls ++ [Call.get] ++ l = _
      rw [hl0]
      simp

/-- A lease of at least -9223372036 seconds that has run out by exact arithmetic has run out
for `isLeaseValid` too: from there on the `int64` product is never above the exact one. -/
theorem isLeaseValid_of_expired {σ : Type} (le : LeaderElector σ) (now : Int)
    (hLds : -9223372036 ≤ le.observedRecord.LeaseDurationSeconds)
    (h : le.observedTime + Second * le.observedRecord.LeaseDurationSeconds ≤ now) :
    le.isLeaseValid now = false := by
  have hle : secondsDuration le.observedRecord.LeaseDurationSeconds
      ≤ Second * le.observedRecord.LeaseDurationSeconds := by
    unfold secondsDuration wrapInt64 Second
    omega
  simp only [LeaderElector.isLeaseValid, LeaderElector.getObservedRecord,
    decide_eq_false_iff_not, not_lt]
  omega

/-- C24 (amended): takeover after expiry.  For an elector that is not the holder and whose
observed record has a `LeaseDurationSeconds` not below -9223372036 (so every value that is
not negative), a `Get` that returns raw bytes equal to `observedRawRecord` leaves the elector,
so `observedRecord` and `observedTime`, as it is, also at the end of a call that returns false
because the lease is still valid; and once `now ≥ observedTime + LeaseDurationSeconds`
seconds of the observed record, or when the holder of the record read is empty, the elector
issues an `Update` (its calls are `Now`, `Get`, `Update`) with `HolderIdentity` = own
identity, `AcquireTime` = `RenewTime` = `now` and `LeaderTransitions` =
`old.LeaderTransitions + 1` computed in `int`, and returns true exactly when that `Update`
succeeds: on failure the elector is unchanged, on success the record is installed.  The sum
in `int` is `old.LeaderTransitions + 1` whenever that fits, and the least `int` when
`old.LeaderTransitions` is the largest. -/
theorem tryAcquireOrRenew_takeover_after_expiry {σ : Type} (le : LeaderElector σ)
    (env env1 envG : Env σ) (now : Int) (old : LeaderElectionRecord) (raw : Bytes)
    (hNot : le.IsLeader = false)
    (hNow : callNow le.clock env = (now, env1))
    (hGet : callGet le.lock env1 = (.ok (old, raw), envG))
    (hRaw : le.observedRawRecord = raw)
    (hLds : -9223372036 ≤ le.observedRecord.LeaseDurationSeconds) :
    le.observe old raw envG = (le, envG)
      ∧ (old.HolderIdentity ≠ "" → le.isLeaseValid now = true →
          le.tryAcquireOrRenew env = (false, le, envG))
      ∧ (le.observedTime + Second * le.observedRecord.LeaseDurationSeconds ≤ now
            ∨ old.HolderIdentity = "" →
          ∀ (res : Option LockError) (envU : Env σ),
            callUpdate le.lock
                { HolderIdentity := le.lock.Identity
                  LeaseDurationSeconds := Int.tdiv le.config.LeaseDuration Second
                  RenewTime := now
                  AcquireTime := now
                  LeaderTransitions := wrapInt64 (old.LeaderTransitions + 1) } envG = (res, envU) →
            envU.calls = env.calls ++ [Call.now, Call.get,
                Call.update
                  { HolderIdentity := le.lock.Identity
                    LeaseDurationSeconds := Int.tdiv le.config.LeaseDuration Second
                    RenewTime := now
                    AcquireTime := now
                    LeaderTransitions := wrapInt64 (old.LeaderTransitions + 1) }]
              ∧ ((le.tryAcquireOrRenew env).1 = true ↔ res = none)
              ∧ (res ≠ none → le.tryAcquireOrRenew env = (false, le, envU))
              ∧ (res = none → ∀ (t : Int) (env3 : Env σ), callNow le.clock envU = (t, env3) →
                  le.tryAcquireOrRenew env
                    = (true,
                        { le with
                          observedRecord :=
                            { HolderIdentity := le.lock.Identity
                              LeaseDurationSeconds := Int.tdiv le.config.LeaseDuration Second
                              RenewTime := now
                              AcquireTime := now
                              LeaderTransitions := wrapInt64 (old.LeaderTransitions + 1) }
                          observedTime := t }, env3)))
      ∧ (-2 ^ 63 ≤ old.LeaderTransitions + 1 → old.LeaderTransitions + 1 < 2 ^ 63 →
          wrapInt64 (old.LeaderTransitions + 1) = old.LeaderTransitions + 1)
      ∧ (old.LeaderTransitions = 2 ^ 63 - 1 →
          wrapInt64 (old.LeaderTransitions + 1) = -2 ^ 63) := by
  have hSame := observe_same le old raw envG hRaw
  have hFast := fastPath_skip le env env1 now hNow (by simp [hNot])
  refine ⟨hSame, ?_, ?_, fun h1 h2 => by unfold wrapInt64; omega,
    fun h1 => by rw [h1]; decide⟩
  · intro hHolder hValid
    rw [tryAcquireOrRenew_held le env env1 envG now _ old raw hFast hGet hHolder
      (by rw [hSame]; exact hNot) (by rw [hSame]; exact hValid), hSame]
  intro hExp res envU hU
  have hCheck : ¬ (old.HolderIdentity ≠ "" ∧ (le.observe old raw envG).1.isLeaseValid now = true
      ∧ (le.observe old raw envG).1.IsLeader = false) := by
    rw [hSame]
    rintro ⟨h1, h2, -⟩
    rcases hExp with h | h
    · rw [isLeaseValid_of_expired le now hLds h] at h2
      cases h2
    · exact h1 h
  have hL : ¬ (le.observe old raw envG).1.IsLeader = true := by
    rw [hSame, hNot]; simp
  have hT := tryAcquireOrRenew_of_get le env env1 envG now _ old raw hFast hGet
  have key : ∀ t env3, callNow le.clock envU = (t, env3) →
      le.tryAcquireOrRenew env
        = match res with
          | some _ => (false, le, envU)
          | none => (true,
              { le with
                observedRecord :=
                  { HolderIdentity := le.lock.Identity
                    LeaseDurationSeconds := Int.tdiv le.config.LeaseDuration Second
                    RenewTime := now
                    AcquireTime := now
                    LeaderTransitions := wrapInt64 (old.LeaderTransitions + 1) }
                observedTime := t }, env3) := by
    intro t env3 hSet
    have h := acquireOrRenewFrom_update le now t
      { HolderIdentity := le.lock.Identity
        LeaseDurationSeconds := Int.tdiv le.config.LeaseDuration Second
        RenewTime := now
        AcquireTime := now
        LeaderTransitions := 0 } old
      { HolderIdentity := le.lock.Identity
        LeaseDurationSeconds := Int.tdiv le.config.LeaseDuration Second
        RenewTime := now
        AcquireTime := now
        LeaderTransitions := wrapInt64 (old.LeaderTransitions + 1) }
      raw envG envG envU env3 res hCheck (by rw [if_neg hL]) (by rw [if_neg hL, hSame]) hU hSet
    rw [hT, h, hSame]
    cases res <;> rfl
  refine ⟨?_, ?_, ?_, ?_⟩
  · rw [callUpdate_calls _ _ _ _ _ hU, callGet_calls _ _ _ _ hGet, callNow_calls _ _ _ _ hNow]
    simp
  · rw [key _ _ rfl]
    cases res <;> simp
  · intro hres
    rw [key _ _ rfl]
    cases res with
    | none => exact absurd rfl hres
    | some e => rfl
  · intro hres t env3 hSet
    subst hres
    rw [key t env3 hSet]

/-- C25 (amended): a locally valid lease is healthy.  For every elector whose observed record
has `LeaseDurationSeconds` = `floor(LeaseDuration / 1s)`, as the records it writes itself
(`0 ≤ LeaseDuration`), and every tolerance `T ≥ 0` for which `LeaseDuration` + `T`
fits an `int64`, if `isLeaseValid(now)` holds for the time `now` that `Check` reads then
`Check(T)` returns no error. -/
theorem Check_healthy_of_valid_lease {σ : Type} (le : LeaderElector σ) (T : Int)
    (env env1 : Env σ) (now : Int)
    (hNow : callNow le.clock env = (now, env1))
    (hLD : 0 ≤ le.config.LeaseDuration)
    (hOwn : le.observedRecord.LeaseDurationSeconds = le.config.LeaseDuration / Second)
    (hT : 0 ≤ T) (hSum : le.config.LeaseDuration + T < 2 ^ 63)
    (hValid : le.isLeaseValid now = true) :
    (le.Check T env).1 = none := by
  have hw : wrapInt64 (le.config.LeaseDuration + T) = le.config.LeaseDuration + T := by
    unfold wrapInt64; omega
  have hq : Second * (le.config.LeaseDuration / Second) ≤ le.config.LeaseDuration :=
    Int.mul_ediv_self_le (by decide)
  have h0 : 0 ≤ le.config.LeaseDuration / Second := Int.ediv_nonneg hLD (by decide)
  have hdur : secondsDuration (le.config.LeaseDuration / Second)
      = Second * (le.config.LeaseDuration / Second) := by
    unfold secondsDuration wrapInt64
    have : (0 : Int) ≤ Second * (le.config.LeaseDuration / Second) :=
      Int.mul_nonneg (by decide) h0
    omega
  simp only [LeaderElector.isLeaseValid, LeaderElector.getObservedRecord, hOwn, hdur,
    decide_eq_true_eq] at hValid
  unfold LeaderElector.Check
  rw [callSince_eq le.clock le.observedTime env env1 now hNow, hw]
  by_cases h1 : le.IsLeader = false
  · rw [if_pos h1]
  · rw [if_neg h1, if_neg]
    unfold Second at hq hValid
    unfold timeSub
    split_ifs <;> omega

/-- C22, witness: the optimistic `Update` of the leader "a" fails at 5 s, `Get` returns the
record of "a", and the second `Update` succeeds: the call returns true after `Now`, `Update`,
`Get`, the slow path metric, `Update`, `Now`. -/
theorem tryAcquireOrRenew_fast_path_falls_through_witness :
    (leaderA.tryAcquireOrRenew (scriptEnv
        (recordScript 5000000000 ⟨"a", 15, 1000000000, 2000000000, 3⟩ [1] [some .other]))).1
        = true
      ∧ (leaderA.tryAcquireOrRenew (scriptEnv
        (recordScript 5000000000 ⟨"a", 15, 1000000000, 2000000000, 3⟩ [1] [some .other]))).2.2.calls
        = [Call.now, Call.update ⟨"a", 15, 1000000000, 5000000000, 3⟩, Call.get,
            Call.slowpathExercised "lock", Call.update ⟨"a", 15, 1000000000, 5000000000, 3⟩,
            Call.now] := by
  have h := (tryAcquireOrRenew_fast_path_falls_through leaderA (scriptEnv
      (recordScript 5000000000 ⟨"a", 15, 1000000000, 2000000000, 3⟩ [1] [some .other]))
    _ _ 5000000000 ⟨"a", 15, 1000000000, 5000000000, 3⟩ LockError.other rfl (by decide)
    (by decide) rfl rfl).2.2 ⟨"a", 15, 1000000000, 2000000000, 3⟩ [1] _ _ _ 5000000000 rfl rfl
    rfl rfl
  rw [h]
  exact ⟨rfl, rfl⟩

/-- C23, witness: the fresh elector "b" creates the record at 7 s and is the leader
afterwards. -/
theorem tryAcquireOrRenew_success_implies_leadership_witness :
    (freshB.tryAcquireOrRenew (scriptEnv (emptyScript 7000000000))).2.1.IsLeader = true
      ∧ (freshB.tryAcquireOrRenew (scriptEnv (emptyScript 7000000000))).2.1.GetLeader = "b"
      ∧ (freshB.tryAcquireOrRenew
          (scriptEnv (emptyScript 7000000000))).2.1.observedRecord.LeaseDurationSeconds = 15
      ∧ (freshB.tryAcquireOrRenew
          (scriptEnv (emptyScript 7000000000))).2.1.observedRecord.RenewTime = 7000000000 :=
  have h := tryAcquireOrRenew_success_implies_leadership freshB (scriptEnv (emptyScript 7000000000))
    (by decide) (by decide)
  ⟨h.1, h.2.1, h.2.2.1, h.2.2.2.1⟩

/-- C24, witness: the elector "b" observed the record of "a" at 2 s; at 17 s, 15 s later,
`Get` returns the same raw bytes and "b" takes over with `{b, 15, 17 s, 17 s, 4}`. -/
theorem tryAcquireOrRenew_takeover_after_expiry_witness :
    (scriptElector "b" 15000000000 ⟨"a", 15, 1000000000, 2000000000, 3⟩ [1]
        2000000000).tryAcquireOrRenew
        (scriptEnv (recordScript 17000000000 ⟨"a", 15, 1000000000, 2000000000, 3⟩ [1] []))
      = (true,
          { scriptElector "b" 15000000000 ⟨"a", 15, 1000000000, 2000000000, 3⟩ [1] 2000000000 with
            observedRecord := ⟨"b", 15, 17000000000, 17000000000, 4⟩
            observedTime := 17000000000 },
          { st := recordScript 17000000000 ⟨"a", 15, 1000000000, 2000000000, 3⟩ [1] [],
            calls := [Call.now, Call.get,
              Call.update ⟨"b", 15, 17000000000, 17000000000, 4⟩, Call.now] }) :=
  ((tryAcquireOrRenew_takeover_after_expiry
    (scriptElector "b" 15000000000 ⟨"a", 15, 1000000000, 2000000000, 3⟩ [1] 2000000000)
    (scriptEnv (recordScript 17000000000 ⟨"a", 15, 1000000000, 2000000000, 3⟩ [1] []))
    _ _ 17000000000 ⟨"a", 15, 1000000000, 2000000000, 3⟩ [1] (by decide) rfl rfl rfl
    (by decide)).2.2.1 (Or.inl (by decide)) none _ rfl).2.2.2 rfl 17000000000 _ rfl

/-- C24, counterexample.  The elector "b" observed, at 2 s, the record
`{a, -9223372037, 1 s, 2 s, 3}` with raw bytes `[1]`; at 5 s `Get` returns the same raw
bytes.  By the numbers the lease has run out (`observedTime` + `LeaseDurationSeconds`
seconds is long before 5 s), but the `int64` product `time.Second * -9223372037` wraps to a
positive duration: the lease is judged valid, the call returns false and issues no `Update`.
And when the record observed and read is `{a, 15, 1 s, 2 s, 9223372036854775807}`, the
`Update` issued at 17 s carries `LeaderTransitions` = -9223372036854775808, not
`old.LeaderTransitions + 1`. -/
theorem tryAcquireOrRenew_no_takeover_on_underflowing_lease :
    (scriptElector "b" 15000000000 ⟨"a", -9223372037, 1000000000, 2000000000, 3⟩ [1]
        2000000000).IsLeader = false
      ∧ (2000000000 : Int) + Second * (-9223372037) ≤ 5000000000
      ∧ ((scriptElector "b" 15000000000 ⟨"a", -9223372037, 1000000000, 2000000000, 3⟩ [1]
          2000000000).tryAcquireOrRenew
          (scriptEnv (recordScript 5000000000 ⟨"a", -9223372037, 1000000000, 2000000000, 3⟩
            [1] []))).1 = false
      ∧ ((scriptElector "b" 15000000000 ⟨"a", -9223372037, 1000000000, 2000000000, 3⟩ [1]
          2000000000).tryAcquireOrRenew
          (scriptEnv (recordScript 5000000000 ⟨"a", -9223372037, 1000000000, 2000000000, 3⟩
            [1] []))).2.2.calls = [Call.now, Call.get]
      ∧ ((scriptElector "b" 15000000000
            ⟨"a", 15, 1000000000, 2000000000, 9223372036854775807⟩ [1]
            2000000000).tryAcquireOrRenew
          (scriptEnv (recordScript 17000000000
            ⟨"a", 15, 1000000000, 2000000000, 9223372036854775807⟩ [1] []))).2.2.calls
        = [Call.now, Call.get,
            Call.update ⟨"b", 15, 17000000000, 17000000000, -9223372036854775808⟩, Call.now]
      ∧ (-9223372036854775808 : Int) ≠ 9223372036854775807 + 1 := by
  refine ⟨by decide, by decide, by decide, by decide, by decide, by decide⟩

/-- C25, counterexample: the leader "a" observed its own record (15 s, = `LeaseDuration` in
whole seconds) at 2 s; at 3 s the lease is locally valid, and the tolerance `T` =
9223372036854775807 ns is not negative, yet `Check(T)` returns an error: the `int64` sum
`LeaseDuration` + `T` wraps to a negative duration. -/
theorem Check_unhealthy_with_valid_lease :
    leaderA.observedRecord.LeaseDurationSeconds = leaderA.config.LeaseDuration / Second
      ∧ leaderA.observedRecord.HolderIdentity = leaderA.lock.Identity
      ∧ (0 : Int) ≤ 9223372036854775807
      ∧ leaderA.isLeaseValid (callNow leaderA.clock (scriptEnv (emptyScript 3000000000))).1
        = true
      ∧ (leaderA.Check 9223372036854775807 (scriptEnv (emptyScript 3000000000))).1 ≠ none := by
  refine ⟨by decide, by decide, by decide, by decide, by decide⟩

/-- C25, witness: the leader "a", whose lease observed at 2 s is valid at 16 s, is healthy
at 16 s with a tolerance of 1 s. -/
theorem Check_healthy_of_valid_lease_witness :
    (leaderA.Check 1000000000 (scriptEnv (emptyScript 16000000000))).1 = none :=
  Check_healthy_of_valid_lease leaderA 1000000000 (scriptEnv (emptyScript 16000000000)) _
    16000000000 rfl (by decide) (by decide) (by decide) (by decide) (by decide)

end LeaderElection
